import Mathlib

/-!
Dependency-field parsing of `build/parseReqs.c`.

A shallow embedding of `checkSep`, `checkDep`, `parseRCPOTRichCB` and
`parseRCPOT`, followed by theorems about them.

Conventions of the embedding

* A C string is the list of its bytes before the terminating NUL, each byte
  held in a `Char`; the test `*p == 0` on a cursor `p` is `p = []`, and a
  pointer into a string is the suffix that starts there (`p < q` for two
  cursors into one string is `q.length < p.length`).
* `rpmsenseFlags` is a 32-bit word, held in a `Nat`.
* `char **emsg` is an `Option String` threaded through the calls;
  `rasprintf(emsg, ...)` overwrites it.
* What `parseReqs.c` only calls or names (character classes, the operator
  tokenizer, the rich-dependency grammar engine, the dependency comparator,
  the store, the `RPMSENSE_*` bit values) is collected in the structure `Env`,
  and every theorem holds for every `Env` unless it names an example
  environment (`demoEnv`, `demoBadEnv`).
-/

namespace ParseReqs

/-- Return codes `rpmRC` used by the file. -/
inductive rpmRC where
  | RPMRC_OK
  | RPMRC_FAIL
  deriving DecidableEq

/-- Log levels used at the `exit:` label. -/
inductive rpmlogLvl where
  | RPMLOG_WARNING
  | RPMLOG_ERR
  deriving DecidableEq

/-- Tag values `rpmTagVal` that occur in `parseRCPOT`; `OTHER n` is any other
tag value (it takes the `default:` arm of the switch). -/
inductive rpmTagVal where
  | RPMTAG_NOT_FOUND
  | RPMTAG_REQUIREFLAGS
  | RPMTAG_RECOMMENDFLAGS
  | RPMTAG_SUGGESTFLAGS
  | RPMTAG_SUPPLEMENTFLAGS
  | RPMTAG_ENHANCEFLAGS
  | RPMTAG_PROVIDEFLAGS
  | RPMTAG_OBSOLETEFLAGS
  | RPMTAG_CONFLICTFLAGS
  | RPMTAG_ORDERFLAGS
  | RPMTAG_PREREQ
  | RPMTAG_TRIGGERPREIN
  | RPMTAG_TRIGGERIN
  | RPMTAG_TRIGGERPOSTUN
  | RPMTAG_TRIGGERUN
  | RPMTAG_BUILDPREREQ
  | RPMTAG_BUILDREQUIRES
  | RPMTAG_BUILDCONFLICTS
  | RPMTAG_FILETRIGGERIN
  | RPMTAG_FILETRIGGERUN
  | RPMTAG_FILETRIGGERPOSTUN
  | RPMTAG_TRANSFILETRIGGERIN
  | RPMTAG_TRANSFILETRIGGERUN
  | RPMTAG_TRANSFILETRIGGERPOSTUN
  | RPMTAG_REQUIRENAME
  | RPMTAG_RECOMMENDNAME
  | RPMTAG_SUGGESTNAME
  | RPMTAG_SUPPLEMENTNAME
  | RPMTAG_ENHANCENAME
  | RPMTAG_PROVIDENAME
  | RPMTAG_OBSOLETENAME
  | RPMTAG_CONFLICTNAME
  | RPMTAG_ORDERNAME
  | RPMTAG_TRIGGERNAME
  | RPMTAG_FILETRIGGERNAME
  | RPMTAG_TRANSFILETRIGGERNAME
  | OTHER (n : Nat)
  deriving DecidableEq

/-- Kinds of callback event `rpmrichParseType`. -/
inductive rpmrichParseType where
  | RPMRICH_PARSE_SIMPLE
  | RPMRICH_PARSE_ENTER
  | RPMRICH_PARSE_LEAVE
  | RPMRICH_PARSE_OP
  deriving DecidableEq

/-- One dependency as `rpmdsSingle(tagN, N, EVR, Flags)` builds it. -/
structure Dep where
  tagN : rpmTagVal
  N : List Char
  EVR : Option (List Char)
  Flags : Nat
  deriving DecidableEq

/-- One call `addReqProv(pkg, tagN, N, EVR, Flags, index)` that was accepted. -/
structure ReqProv where
  ds : Dep
  index : Int
  deriving DecidableEq

/-- The dependency store of a `Package`: the accepted `addReqProv` calls, oldest first. -/
abbrev Package := List ReqProv

/-- One invocation of the callback by the grammar engine: the event kind, the
name span `n[0..nl)`, the version span `e[0..el)`, the sense bits and the
operator code. -/
structure RichCall where
  type : rpmrichParseType
  n : List Char
  e : List Char
  sense : Nat
  op : Nat
  deriving DecidableEq

/-- What the grammar engine does on one input when no callback fails: the
callback invocations it makes, in order, then its own return code, the cursor
it stores back on success and the diagnostic it sets itself, if any. -/
structure RichRun where
  calls : List RichCall
  rc : rpmRC
  rest : List Char
  emsg : Option String

/-- Everything `parseReqs.c` uses but does not define. -/
structure Env where
  /-- `risspace` of rpmstring.h -/
  risspace : Char → Bool
  /-- `risalnum` of rpmstring.h -/
  risalnum : Char → Bool
  /-- `rpmCharCheck(spec, field, whitelist)` -/
  rpmCharCheck : List Char → List Char → rpmRC
  /-- `rpmParseDSFlags(str, len)`, given the span `str[0..len)` -/
  rpmParseDSFlags : List Char → Nat
  /-- `rpmrichOpStr(op)` -/
  rpmrichOpStr : Nat → List Char
  /-- The grammar engine behind `rpmrichParse`, as a function of the text at the cursor. -/
  richEngine : List Char → RichRun
  /-- `rpmdsCompare(A, B)`, nonzero as `true` -/
  rpmdsCompare : Dep → Dep → Bool
  /-- Whether `addReqProv` returns nonzero for this store and this record. -/
  addReqProvRejects : Package → ReqProv → Bool
  RPMSENSE_ANY : Nat
  RPMSENSE_LESS : Nat
  RPMSENSE_GREATER : Nat
  RPMSENSE_EQUAL : Nat
  RPMSENSE_SENSEMASK : Nat
  RPMSENSE_SCRIPT_PRE : Nat
  RPMSENSE_SCRIPT_PREUN : Nat
  RPMSENSE_FIND_REQUIRES : Nat
  RPMSENSE_FIND_PROVIDES : Nat
  RPMSENSE_TRIGGERIN : Nat
  RPMSENSE_TRIGGERUN : Nat
  RPMSENSE_TRIGGERPOSTUN : Nat
  RPMSENSE_TRIGGERPREIN : Nat
  RPMSENSE_RICH : Nat
  /-- The post-uninstall script bit; `parseReqs.c` does not use it. -/
  RPMSENSE_SCRIPT_POSTUN : Nat

open rpmRC rpmlogLvl rpmTagVal rpmrichParseType

/-! ## Diagnostics -/

/-- Text of `rasprintf(emsg, "Invalid version (double separator '%c'): %s", c, s)`. -/
def msgDoubleSep (c : Char) (s : List Char) : String :=
  "Invalid version (double separator '" ++ String.singleton c ++ "'): " ++ String.mk s

def msgTokenStart : String := "Dependency tokens must begin with alpha-numeric, '_' or '/'"

def msgVersionedFile : String := "Versioned file name not permitted"

def msgNoRich : String := "No rich dependencies allowed for this type"

def msgInvalidDep : String := "invalid dependency"

def msgVersionRequired : String := "Version required"

def msgAbsolutePaths : String := "Only absolute paths are allowed in file triggers"

def msgTriggerDefined : String := "Trigger fired by the same package is already defined in spec file"

/-! ## checkSep and checkDep (lines 19–49) -/

/-- The C `strchr(s, c)` for `c` other than NUL: the suffix starting at the first `c`. -/
def strchr : List Char → Char → Option (List Char)
  | [], _ => none
  | x :: xs, c => if x = c then some (x :: xs) else strchr xs c

/-- Lines 19–26. `sep && strchr(sep + 1, c)` sets the diagnostic; the return
value is `RPMRC_OK` on every path. -/
def checkSep (s : List Char) (c : Char) (emsg : Option String) : rpmRC × Option String :=
  let emsg1 :=
    match strchr s c with
    | some (_ :: sep1) =>
        if (strchr sep1 c).isSome then some (msgDoubleSep c s) else emsg
    | _ => emsg
  (RPMRC_OK, emsg1)

/-- The C `isascii`. -/
def isascii (c : Char) : Bool := c.toNat < 128

/-- The whitelist `".-_+:%{}~"` passed to `rpmCharCheck`. -/
def evrWhitelist : List Char := ".-_+:%\x7b\x7d~".toList

/-- Lines 28–49. `N[0]` of an empty string is its NUL terminator. -/
def checkDep (E : Env) (N : List Char) (EVR : Option (List Char))
    (emsg : Option String) : rpmRC × Option String :=
  let n0 := N.headD (Char.ofNat 0)
  if isascii n0 && !(E.risalnum n0 || n0 == '_' || n0 == '/') then
    (RPMRC_FAIL, some msgTokenStart)
  else
    match EVR with
    | none => (RPMRC_OK, emsg)
    | some evr =>
      if n0 == '/' then
        (RPMRC_FAIL, some msgVersionedFile)
      else if E.rpmCharCheck evr evrWhitelist ≠ RPMRC_OK then
        (RPMRC_FAIL, emsg)
      else
        let r1 := checkSep evr '-' emsg
        if r1.1 ≠ RPMRC_OK then (RPMRC_FAIL, r1.2)
        else
          let r2 := checkSep evr ':' r1.2
          if r2.1 ≠ RPMRC_OK then (RPMRC_FAIL, r2.2)
          else (RPMRC_OK, r2.2)

/-! ## parseRCPOTRichCB (lines 58–99) and the engine driver -/

/-- Lines 75–86: the buffer `rel`, a space, the symbols selected by the sense
bits in the order `<`, `>`, `=`, and a space. -/
def relText (E : Env) (sense : Nat) : List Char :=
  [' '] ++ (if sense &&& E.RPMSENSE_LESS ≠ 0 then ['<'] else [])
    ++ (if sense &&& E.RPMSENSE_GREATER ≠ 0 then ['>'] else [])
    ++ (if sense &&& E.RPMSENSE_EQUAL ≠ 0 then ['='] else [])
    ++ [' ']

/-- Lines 58–99. The string buffer `data->sb` and `*emsg` go in and come out;
`EVR` stays NULL when `el` is zero. -/
def parseRCPOTRichCB (E : Env) (c : RichCall) (sb : List Char) (emsg : Option String) :
    rpmRC × List Char × Option String :=
  match c.type with
  | RPMRICH_PARSE_ENTER => (RPMRC_OK, sb ++ ['('], emsg)
  | RPMRICH_PARSE_LEAVE => (RPMRC_OK, sb ++ [')'], emsg)
  | RPMRICH_PARSE_SIMPLE =>
    let sb1 := sb ++ c.n
    if c.e.length ≠ 0 then
      let sb2 := sb1 ++ relText E c.sense ++ c.e
      let r := checkDep E c.n (some c.e) emsg
      (r.1, sb2, r.2)
    else
      let r := checkDep E c.n none emsg
      (r.1, sb1, r.2)
  | RPMRICH_PARSE_OP => (RPMRC_OK, sb ++ [' '] ++ E.rpmrichOpStr c.op ++ [' '], emsg)

/-- The engine feeding the callback: invocations are made in order and the
first one that does not return `RPMRC_OK` ends the parse with failure. -/
def runRichCalls (E : Env) : List RichCall → List Char → Option String →
    rpmRC × List Char × Option String
  | [], sb, emsg => (RPMRC_OK, sb, emsg)
  | c :: cs, sb, emsg =>
    let r := parseRCPOTRichCB E c sb emsg
    if r.1 ≠ RPMRC_OK then (RPMRC_FAIL, r.2.1, r.2.2)
    else runRichCalls E cs r.2.1 r.2.2

/-- Result of one `rpmrichParse(&r, &emsg, parseRCPOTRichCB, &data)`. -/
structure RichResult where
  rc : rpmRC
  r : List Char
  sb : List Char
  emsg : Option String

/-- Modelled from the spec: rpmrichParse, the boolean-grammar engine of
lib/rpmds.c, which is not in this file. It parses the text at the cursor,
invokes the callback for each enter/leave/simple-term/operator event,
advances the cursor past the consumed span on success, and returns success
or failure with a callback-supplied or engine-supplied diagnostic. -/
def rpmrichParse (E : Env) (r : List Char) (sb : List Char) (emsg : Option String) :
    RichResult :=
  let run := E.richEngine r
  let cb := runRichCalls E run.calls sb emsg
  if cb.1 ≠ RPMRC_OK then
    { rc := RPMRC_FAIL, r := r, sb := cb.2.1, emsg := cb.2.2 }
  else if run.rc ≠ RPMRC_OK then
    { rc := RPMRC_FAIL, r := r, sb := cb.2.1,
      emsg := match run.emsg with
        | some m => some m
        | none => cb.2.2 }
  else
    { rc := RPMRC_OK, r := run.rest, sb := cb.2.1, emsg := cb.2.2 }

/-! ## The store -/

/-- Modelled from the spec: addReqProv of build/reqprov.c, which is not in
this file. It appends a dependency record under a record category with an
explicit ordinal index, and fails (leaving the store as it was) if the record
is invalid at the storage layer. `none` is a nonzero return. -/
def addReqProv (E : Env) (pkg : Package) (tagN : rpmTagVal) (N : List Char)
    (EVR : Option (List Char)) (Flags : Nat) (index : Int) : Option Package :=
  let rp : ReqProv := { ds := { tagN := tagN, N := N, EVR := EVR, Flags := Flags }, index := index }
  if E.addReqProvRejects pkg rp then none else some (pkg ++ [rp])

/-- Modelled from the spec: packageDependencies, the query for the existing
records of one category, oldest first. -/
def packageDependencies (pkg : Package) (tagN : rpmTagVal) : List Dep :=
  (pkg.filter (fun rp => rp.ds.tagN = tagN)).map (fun rp => rp.ds)

/-! ## parseRCPOT (lines 101–319) -/

/-- Lines 111–194: the switch, giving `nametag` and the updated `tagflags`. -/
def resolveTag (E : Env) (tagN : rpmTagVal) (tagflags : Nat) : rpmTagVal × Nat :=
  match tagN with
  | RPMTAG_RECOMMENDFLAGS => (RPMTAG_RECOMMENDNAME, tagflags)
  | RPMTAG_SUGGESTFLAGS => (RPMTAG_SUGGESTNAME, tagflags)
  | RPMTAG_SUPPLEMENTFLAGS => (RPMTAG_SUPPLEMENTNAME, tagflags)
  | RPMTAG_ENHANCEFLAGS => (RPMTAG_ENHANCENAME, tagflags)
  | RPMTAG_PROVIDEFLAGS => (RPMTAG_PROVIDENAME, tagflags)
  | RPMTAG_OBSOLETEFLAGS => (RPMTAG_OBSOLETENAME, tagflags)
  | RPMTAG_CONFLICTFLAGS => (RPMTAG_CONFLICTNAME, tagflags)
  | RPMTAG_ORDERFLAGS => (RPMTAG_ORDERNAME, tagflags)
  | RPMTAG_PREREQ =>
      (RPMTAG_REQUIRENAME, tagflags ||| (E.RPMSENSE_SCRIPT_PRE ||| E.RPMSENSE_SCRIPT_PREUN))
  | RPMTAG_TRIGGERPREIN => (RPMTAG_TRIGGERNAME, tagflags ||| E.RPMSENSE_TRIGGERPREIN)
  | RPMTAG_TRIGGERIN => (RPMTAG_TRIGGERNAME, tagflags ||| E.RPMSENSE_TRIGGERIN)
  | RPMTAG_TRIGGERPOSTUN => (RPMTAG_TRIGGERNAME, tagflags ||| E.RPMSENSE_TRIGGERPOSTUN)
  | RPMTAG_TRIGGERUN => (RPMTAG_TRIGGERNAME, tagflags ||| E.RPMSENSE_TRIGGERUN)
  | RPMTAG_BUILDPREREQ => (RPMTAG_REQUIRENAME, tagflags ||| E.RPMSENSE_ANY)
  | RPMTAG_BUILDREQUIRES => (RPMTAG_REQUIRENAME, tagflags ||| E.RPMSENSE_ANY)
  | RPMTAG_BUILDCONFLICTS => (RPMTAG_CONFLICTNAME, tagflags)
  | RPMTAG_FILETRIGGERIN => (RPMTAG_FILETRIGGERNAME, tagflags ||| E.RPMSENSE_TRIGGERIN)
  | RPMTAG_FILETRIGGERUN => (RPMTAG_FILETRIGGERNAME, tagflags ||| E.RPMSENSE_TRIGGERUN)
  | RPMTAG_FILETRIGGERPOSTUN => (RPMTAG_FILETRIGGERNAME, tagflags ||| E.RPMSENSE_TRIGGERPOSTUN)
  | RPMTAG_TRANSFILETRIGGERIN => (RPMTAG_TRANSFILETRIGGERNAME, tagflags ||| E.RPMSENSE_TRIGGERIN)
  | RPMTAG_TRANSFILETRIGGERUN => (RPMTAG_TRANSFILETRIGGERNAME, tagflags ||| E.RPMSENSE_TRIGGERUN)
  | RPMTAG_TRANSFILETRIGGERPOSTUN =>
      (RPMTAG_TRANSFILETRIGGERNAME, tagflags ||| E.RPMSENSE_TRIGGERPOSTUN)
  | _ => (RPMTAG_REQUIRENAME, tagflags ||| E.RPMSENSE_ANY)

/-- The implicit flags the switch ORs into `tagflags` for a tag. -/
def implicitFlags (E : Env) (tagN : rpmTagVal) : Nat := (resolveTag E tagN 0).2

/-- The character test shared by `SKIPWHITE` and `SKIPNONWHITE` (lines 16–17):
`risspace(c) || c == ','`. -/
def isSep (E : Env) (c : Char) : Bool := E.risspace c || c == ','

/-- Line 16. -/
def SKIPWHITE (E : Env) (x : List Char) : List Char := x.dropWhile (fun c => isSep E c)

/-- Line 17. -/
def SKIPNONWHITE (E : Env) (x : List Char) : List Char := x.dropWhile (fun c => !isSep E c)

/-- The copy `rstrlcpy(dst, r, (re-r) + 1)` of the span between two cursors. -/
def copySpan (r re : List Char) : List Char := r.take (r.length - re.length)

/-- The mask `~m` of a 32-bit word. -/
def bnot32 (m : Nat) : Nat := (2 ^ 32 - 1) ^^^ (m % 2 ^ 32)

/-- Parser state carried through the loop: the store, the pending diagnostic
`emsg`, and a count of the calls made to `rpmrichParse` (bookkeeping that the
C code does not have, kept to state that the engine was or was not called). -/
structure PState where
  pkg : Package
  emsg : Option String
  engineCalls : Nat
  deriving DecidableEq

/-- How one pass through the loop body ends: `goto exit`, or the next
iteration with `r = re`. -/
inductive Step where
  | exit (st : PState)
  | next (re : List Char) (st : PState)
  deriving DecidableEq

/-- Line 205–207: the record categories for which a rich dependency is parsed. -/
def richAllowed (nametag : rpmTagVal) : Bool :=
  !(nametag != RPMTAG_REQUIRENAME && nametag != RPMTAG_CONFLICTNAME &&
    nametag != RPMTAG_RECOMMENDNAME && nametag != RPMTAG_SUPPLEMENTNAME &&
    nametag != RPMTAG_SUGGESTNAME && nametag != RPMTAG_ENHANCENAME)

/-- Lines 280–286: the scan of the existing triggers, stopping at the first
one that compares equal to `newds` and shares a bit with `tagflags`. -/
def triggerScan (E : Env) (tagflags : Nat) (newds : Dep) :
    List Dep → Option String → Option String
  | [], emsg => emsg
  | d :: ds, emsg =>
    if E.rpmdsCompare d newds && (d.Flags &&& tagflags != 0) then some msgTriggerDefined
    else triggerScan E tagflags newds ds emsg

/-- Lines 266–272: the file-trigger check; it sets the diagnostic and
nothing else. -/
def fileTriggerCheck (nametag : rpmTagVal) (N : List Char) (emsg : Option String) :
    Option String :=
  if (nametag == RPMTAG_FILETRIGGERNAME || nametag == RPMTAG_TRANSFILETRIGGERNAME)
      && N.headD (Char.ofNat 0) != '/' then
    some msgAbsolutePaths
  else emsg

/-- Lines 276–287: for `RPMTAG_TRIGGERNAME`, the scan of the existing
triggers of the package against `rpmdsSingle(nametag, N, EVR, Flags)`. -/
def triggerCheck (E : Env) (nametag : rpmTagVal) (tagflags : Nat) (N : List Char)
    (EVR : Option (List Char)) (Flags : Nat) (pkg : Package) (emsg : Option String) :
    Option String :=
  if nametag == RPMTAG_TRIGGERNAME then
    triggerScan E tagflags { tagN := nametag, N := N, EVR := EVR, Flags := Flags }
      (packageDependencies pkg nametag) emsg
  else emsg

/-- Lines 262–298: validation, the file-trigger and trigger checks and the
emission of a simple term `N`, `EVR`, `Flags`; `re` is where the next
iteration starts. -/
def simpleTail (E : Env) (nametag : rpmTagVal) (tagflags : Nat) (index : Int)
    (N : List Char) (EVR : Option (List Char)) (Flags : Nat) (re : List Char)
    (st : PState) : Step :=
  let cd := checkDep E N EVR st.emsg
  if cd.1 ≠ RPMRC_OK then Step.exit { st with emsg := cd.2 }
  else
    let emsg1 := fileTriggerCheck nametag N cd.2
    let emsg2 := triggerCheck E nametag tagflags N EVR Flags st.pkg emsg1
    if nametag == RPMTAG_TRIGGERNAME && emsg2.isSome then
      Step.exit { st with emsg := emsg2 }
    else
      match addReqProv E st.pkg nametag N EVR Flags index with
      | none => Step.exit { st with emsg := some msgInvalidDep }
      | some pkg1 => Step.next re { st with pkg := pkg1, emsg := emsg2 }

/-- Lines 201–298: one pass through the loop body, entered with the cursor
`r` on a byte that is neither NUL nor a separator. -/
def loopBody (E : Env) (nametag : rpmTagVal) (tagflags : Nat) (index : Int)
    (r : List Char) (st : PState) : Step :=
  let Flags := tagflags &&& bnot32 E.RPMSENSE_SENSEMASK
  if r.head? = some '(' then
    if !richAllowed nametag then
      Step.exit { st with emsg := some msgNoRich }
    else
      let res := rpmrichParse E r [] st.emsg
      let st1 : PState := { st with emsg := res.emsg, engineCalls := st.engineCalls + 1 }
      if res.rc ≠ RPMRC_OK then Step.exit st1
      else
        match addReqProv E st1.pkg nametag res.sb none (Flags ||| E.RPMSENSE_RICH) index with
        | none => Step.exit { st1 with emsg := some msgInvalidDep }
        | some pkg1 => Step.next res.r { st1 with pkg := pkg1 }
  else
    let re := SKIPNONWHITE E r
    let N := copySpan r re
    let v := SKIPWHITE E re
    let ve := SKIPNONWHITE E v
    if ve.length < v.length then
      let sense := E.rpmParseDSFlags (copySpan v ve)
      if sense ≠ 0 then
        let v1 := SKIPWHITE E ve
        let ve1 := SKIPNONWHITE E v1
        if v1 = [] ∨ ve1.length = v1.length then
          Step.exit { st with emsg := some msgVersionRequired }
        else
          simpleTail E nametag tagflags index N (some (copySpan v1 ve1)) (Flags ||| sense) ve1 st
      else
        simpleTail E nametag tagflags index N none Flags v st
    else
      simpleTail E nametag tagflags index N none Flags v st

/-- Lines 196–301: the loop, with a bound on the number of iterations;
`none` when the bound is reached before the loop ends. -/
def parseLoop (E : Env) (nametag : rpmTagVal) (tagflags : Nat) (index : Int) :
    Nat → List Char → PState → Option (rpmRC × PState)
  | 0, _, _ => none
  | fuel + 1, r, st =>
    if r = [] then some (RPMRC_OK, st)
    else
      let r1 := SKIPWHITE E r
      if r1 = [] then some (RPMRC_OK, st)
      else
        match loopBody E nametag tagflags index r1 st with
        | Step.exit st1 => some (RPMRC_FAIL, st1)
        | Step.next re st1 => parseLoop E nametag tagflags index fuel re st1

/-- What a call of `parseRCPOT` leaves behind: the return code, the store,
the line given to `rpmlog` at `exit:` (level and `emsg`), and the number of
calls made to `rpmrichParse`. -/
structure Outcome where
  rc : rpmRC
  pkg : Package
  log : Option (rpmlogLvl × String)
  engineCalls : Nat
  deriving DecidableEq

/-- Lines 303–318: the `exit:` label. -/
def atExit (res : rpmRC × PState) : Outcome :=
  { rc := res.1
    pkg := res.2.pkg
    log := res.2.emsg.map (fun m => (if res.1 = RPMRC_OK then RPMLOG_WARNING else RPMLOG_ERR, m))
    engineCalls := res.2.engineCalls }

/-- Lines 101–319, with the loop bounded by `fuel` iterations. -/
def parseRCPOTFuel (E : Env) (fuel : Nat) (pkg : Package) (field : List Char)
    (tagN : rpmTagVal) (index : Int) (tagflags : Nat) : Option Outcome :=
  let t := resolveTag E tagN tagflags
  (parseLoop E t.1 t.2 index fuel field { pkg := pkg, emsg := none, engineCalls := 0 }).map atExit

/-- Lines 101–319. Every iteration on a simple term moves the cursor
forward, so `field.length + 1` iterations are enough for a field without
rich dependencies; `none` means the loop was still running after them. -/
def parseRCPOT (E : Env) (pkg : Package) (field : List Char)
    (tagN : rpmTagVal) (index : Int) (tagflags : Nat) : Option Outcome :=
  parseRCPOTFuel E (field.length + 1) pkg field tagN index tagflags

/-! ## The simple term at a cursor

Names for what lines 227–260 read off the text at a cursor `r` that stands on
the first byte of a token; `loopBody_simple` below shows that the loop body
uses exactly these. -/

/-- The token at the cursor: the bytes up to the next separator or the end. -/
def tokenAt (E : Env) (r : List Char) : List Char := r.takeWhile (fun c => !isSep E c)

/-- The cursor on the token that follows the one at `r` (the end of the
string if there is none): `SKIPNONWHITE` then `SKIPWHITE`. -/
def afterToken (E : Env) (r : List Char) : List Char := SKIPWHITE E (SKIPNONWHITE E r)

/-- The sense bits `rpmParseDSFlags` gives for the token after the name, zero
when there is no such token. -/
def termSense (E : Env) (r : List Char) : Nat :=
  if afterToken E r = [] then 0 else E.rpmParseDSFlags (tokenAt E (afterToken E r))

/-- The version of the term: the token after the operator, when the token
after the name is an operator. -/
def termEVR (E : Env) (r : List Char) : Option (List Char) :=
  if termSense E r ≠ 0 then some (tokenAt E (afterToken E (afterToken E r))) else none

/-- Where the next iteration starts: behind the version when there is an
operator, otherwise on the token after the name. -/
def termNext (E : Env) (r : List Char) : List Char :=
  if termSense E r ≠ 0 then SKIPNONWHITE E (afterToken E (afterToken E r)) else afterToken E r

/-- The operator at the cursor has nothing but separators behind it: the
condition of line 252 for "Version required". -/
def versionMissing (E : Env) (r : List Char) : Prop :=
  termSense E r ≠ 0 ∧ afterToken E (afterToken E r) = []

instance (E : Env) (r : List Char) : Decidable (versionMissing E r) := by
  unfold versionMissing
  exact inferInstance

/-- The record that line 292 hands to `addReqProv` for the simple term at
`r`, under the tag and flags the switch resolves from `tagN` and `tagflags`. -/
def termRecord (E : Env) (tagN : rpmTagVal) (index : Int) (tagflags : Nat)
    (r : List Char) : ReqProv :=
  { ds :=
      { tagN := (resolveTag E tagN tagflags).1
        N := tokenAt E r
        EVR := termEVR E r
        Flags := ((resolveTag E tagN tagflags).2 &&& bnot32 E.RPMSENSE_SENSEMASK)
          ||| termSense E r }
    index := index }

/-- The record that line 217 hands to `addReqProv` for the rich dependency
at `r`: the text of the string buffer as the name, no version, and the
cleared flags with `RPMSENSE_RICH`. -/
def richRecord (E : Env) (tagN : rpmTagVal) (index : Int) (tagflags : Nat)
    (r : List Char) (emsg : Option String) : ReqProv :=
  { ds :=
      { tagN := (resolveTag E tagN tagflags).1
        N := (rpmrichParse E r [] emsg).sb
        EVR := none
        Flags := ((resolveTag E tagN tagflags).2 &&& bnot32 E.RPMSENSE_SENSEMASK)
          ||| E.RPMSENSE_RICH }
    index := index }

/-- The iteration of `parseRCPOT tagN tagflags` that starts with the cursor at
`r`, when `r` still holds a term: `SKIPWHITE` and the loop body under the tag
and flags the switch resolves. -/
def iteration (E : Env) (tagN : rpmTagVal) (index : Int) (tagflags : Nat)
    (r : List Char) (st : PState) : Step :=
  loopBody E (resolveTag E tagN tagflags).1 (resolveTag E tagN tagflags).2 index (SKIPWHITE E r) st

/-! ## Fields that differ in their separators, and what a call emits -/

/-- Two texts that differ only in that non-empty runs of separators are
replaced by non-empty runs of separators; every other byte is the same in
both. -/
inductive SepVariant (E : Env) : List Char → List Char → Prop where
  | nil : SepVariant E [] []
  | tok (c : Char) (a b : List Char) :
      isSep E c = false → SepVariant E a b → SepVariant E (c :: a) (c :: b)
  | run (s1 s2 a b : List Char) :
      s1 ≠ [] → s2 ≠ [] → (∀ c ∈ s1, isSep E c = true) → (∀ c ∈ s2, isSep E c = true) →
      SepVariant E a b → SepVariant E (s1 ++ a) (s2 ++ b)

/-- No token of the text begins with `(`; `atStart` tells whether the first
byte of the text is the first byte of a token if it is not a separator. -/
def richFree (E : Env) : Bool → List Char → Bool
  | _, [] => true
  | atStart, c :: cs =>
    if isSep E c then richFree E true cs
    else !(atStart && c == '(') && richFree E false cs

/-- The iterations of `parseRCPOT tagN tagflags` that lead from the cursor
and state on the left to the cursor and state on the right, each going on to
the next and each adding exactly one record to the store; the records are
listed in the order of the iterations. -/
inductive Emits (E : Env) (tagN : rpmTagVal) (index : Int) (tagflags : Nat) :
    List Char → PState → List ReqProv → List Char → PState → Prop where
  | done (r : List Char) (st : PState) : Emits E tagN index tagflags r st [] r st
  | step (r : List Char) (st : PState) (re : List Char) (st1 : PState) (rp : ReqProv)
      (rps : List ReqProv) (r2 : List Char) (st2 : PState) :
      SKIPWHITE E r ≠ [] →
      iteration E tagN index tagflags r st = Step.next re st1 →
      st1.pkg = st.pkg ++ [rp] →
      Emits E tagN index tagflags re st1 rps r2 st2 →
      Emits E tagN index tagflags r st (rp :: rps) r2 st2

/-! ## Tokens, passes through the loop, and the rules the specification words -/

/-- The condition of line 34 on a name: its first byte is plain ASCII and is
neither alphanumeric nor `_` nor `/`. -/
def badStart (E : Env) (N : List Char) : Bool :=
  isascii (N.headD (Char.ofNat 0)) &&
    !(E.risalnum (N.headD (Char.ofNat 0)) || N.headD (Char.ofNat 0) == '_'
      || N.headD (Char.ofNat 0) == '/')

/-- The tokens of a text: its maximal runs of bytes that are not separators,
in order. -/
def tokens (E : Env) : List Char → List (List Char)
  | [] => []
  | c :: cs =>
    if isSep E c then tokens E cs
    else
      match cs.head? with
      | none => [[c]]
      | some d =>
        if isSep E d then [c] :: tokens E cs
        else
          match tokens E cs with
          | t :: ts => (c :: t) :: ts
          | [] => [[c]]

/-- The number of times `parseLoop` enters the loop body (lines 197–300),
counting the pass that leaves by `break` and the pass that leaves by
`goto exit`; it follows `parseLoop` step by step. -/
def loopPasses (E : Env) (nametag : rpmTagVal) (tagflags : Nat) (index : Int) :
    Nat → List Char → PState → Option Nat
  | 0, _, _ => none
  | fuel + 1, r, st =>
    if r = [] then some 0
    else
      let r1 := SKIPWHITE E r
      if r1 = [] then some 1
      else
        match loopBody E nametag tagflags index r1 st with
        | Step.exit _ => some 1
        | Step.next re st1 => (loopPasses E nametag tagflags index fuel re st1).map (· + 1)

/-- The record of a term that is a name only: no version, and the flags of
the declaration after the switch with the sense-mask bits cleared. -/
def plainRecord (E : Env) (tagN : rpmTagVal) (index : Int) (tagflags : Nat)
    (t : List Char) : ReqProv :=
  { ds :=
      { tagN := (resolveTag E tagN tagflags).1
        N := t
        EVR := none
        Flags := (resolveTag E tagN tagflags).2 &&& bnot32 E.RPMSENSE_SENSEMASK }
    index := index }

/-- The invariant of a record name: it is not empty, holds no separator, and
its first byte is non-ASCII, alphanumeric, `_` or `/`. -/
def nameInvariant (E : Env) (N : List Char) : Prop :=
  N ≠ [] ∧ (∀ c ∈ N, isSep E c = false) ∧
    ∃ c, N.head? = some c ∧ (isascii c = false ∨ E.risalnum c = true ∨ c = '_' ∨ c = '/')

/-- An ASCII letter or digit: what `risalnum` of rpmstring.h is taken to
accept where a theorem says so. -/
def asciiAlnum (c : Char) : Bool :=
  ('a'.toNat ≤ c.toNat && c.toNat ≤ 'z'.toNat) || ('A'.toNat ≤ c.toNat && c.toNat ≤ 'Z'.toNat)
    || ('0'.toNat ≤ c.toNat && c.toNat ≤ '9'.toNat)

/-- Modelled from the spec: rpmCharCheck, which is not in this file. Every
character of the version must belong to the allowed set or be alphanumeric;
any other character fails. -/
def rpmCharCheckSpec (E : Env) (field whitelist : List Char) : rpmRC :=
  if field.all (fun c => E.risalnum c || whitelist.contains c) then RPMRC_OK else RPMRC_FAIL

/-- The relational symbols the specification selects by the sense bits, in
the fixed order `<`, `>`, `=`. -/
def relSymbols (E : Env) (sense : Nat) : List Char :=
  (if sense &&& E.RPMSENSE_LESS ≠ 0 then ['<'] else [])
    ++ (if sense &&& E.RPMSENSE_GREATER ≠ 0 then ['>'] else [])
    ++ (if sense &&& E.RPMSENSE_EQUAL ≠ 0 then ['='] else [])

/-- The reserialization rules as the specification words them, for one
event: `(` for enter, `)` for leave, the operator keyword between single
spaces, and for a simple term the name followed, when a version is given, by
a space, the relational symbols, a space and the version. -/
def renderCall (E : Env) (c : RichCall) : List Char :=
  match c.type with
  | RPMRICH_PARSE_ENTER => ['(']
  | RPMRICH_PARSE_LEAVE => [')']
  | RPMRICH_PARSE_OP => [' '] ++ E.rpmrichOpStr c.op ++ [' ']
  | RPMRICH_PARSE_SIMPLE =>
    if c.e = [] then c.n else c.n ++ ([' '] ++ relSymbols E c.sense ++ [' '] ++ c.e)

/-- The in-order concatenation of what the events contribute. -/
def renderCalls (E : Env) (cs : List RichCall) : List Char := (cs.map (renderCall E)).flatten

/-! ## A concrete environment for the examples -/

/-- Example `risspace`: space, tab and the other C white-space bytes. -/
def demoSpace (c : Char) : Bool :=
  c == ' ' || c == '\t' || c == '\n' || c == '\r' || c == Char.ofNat 11 || c == Char.ofNat 12

/-- Example `risalnum`: the ASCII letters and digits. -/
def demoAlnum (c : Char) : Bool :=
  ('a'.toNat ≤ c.toNat && c.toNat ≤ 'z'.toNat) || ('A'.toNat ≤ c.toNat && c.toNat ≤ 'Z'.toNat)
    || ('0'.toNat ≤ c.toNat && c.toNat ≤ '9'.toNat)

/-- Example `rpmCharCheck`: every character must be alphanumeric or belong to
the whitelist. -/
def demoCharCheck (field whitelist : List Char) : rpmRC :=
  if field.all (fun c => demoAlnum c || whitelist.contains c) then RPMRC_OK else RPMRC_FAIL

/-- Example `rpmParseDSFlags`: the sense bitmask of an operator token, zero if
the token is no operator. The bits are less-than 2, greater-than 4,
equal-to 8. -/
def demoParseDSFlags (tok : List Char) : Nat :=
  if tok = ['<', '='] ∨ tok = ['=', '<'] then 10
  else if tok = ['<'] then 2
  else if tok = ['='] ∨ tok = ['=', '='] then 8
  else if tok = ['>', '='] ∨ tok = ['=', '>'] then 12
  else if tok = ['>'] then 4
  else 0

/-- Operator keywords for the example engine: 1 is `and`, 2 is `or`. -/
def demoOpStr (op : Nat) : List Char :=
  if op = 1 then "and".toList else if op = 2 then "or".toList else "with".toList

/-- The text of the spec's example of a rich dependency. -/
def demoRichText : List Char := "(A and (B >= 1.0 or C))".toList

/-- The callback invocations of a grammar engine on `demoRichText`. -/
def demoRichCalls : List RichCall :=
  [ { type := RPMRICH_PARSE_ENTER, n := [], e := [], sense := 0, op := 0 },
    { type := RPMRICH_PARSE_SIMPLE, n := ['A'], e := [], sense := 0, op := 0 },
    { type := RPMRICH_PARSE_OP, n := [], e := [], sense := 0, op := 1 },
    { type := RPMRICH_PARSE_ENTER, n := [], e := [], sense := 0, op := 0 },
    { type := RPMRICH_PARSE_SIMPLE, n := ['B'], e := "1.0".toList, sense := 12, op := 0 },
    { type := RPMRICH_PARSE_OP, n := [], e := [], sense := 0, op := 2 },
    { type := RPMRICH_PARSE_SIMPLE, n := ['C'], e := [], sense := 0, op := 0 },
    { type := RPMRICH_PARSE_LEAVE, n := [], e := [], sense := 0, op := 0 },
    { type := RPMRICH_PARSE_LEAVE, n := [], e := [], sense := 0, op := 0 } ]

/-- A stand-in for the grammar engine that knows one expression: on text that
starts with `demoRichText` it reports the events of that expression and
leaves the cursor behind it; on any other text it fails at once. -/
def demoEngine (r : List Char) : RichRun :=
  if demoRichText.isPrefixOf r then
    { calls := demoRichCalls, rc := RPMRC_OK, rest := r.drop demoRichText.length, emsg := none }
  else
    { calls := [], rc := RPMRC_FAIL, rest := r, emsg := some "Unterminated rich dependency" }

/-- Example `rpmdsCompare`: equality of name, version and flags. -/
def demoCompare (a b : Dep) : Bool := a.N == b.N && a.EVR == b.EVR && a.Flags == b.Flags

/-- A stand-in for the grammar engine on the text `(A and #b)`: it reports
the events of that expression, whatever the text. -/
def demoBadEngine (r : List Char) : RichRun :=
  { calls :=
      [ { type := RPMRICH_PARSE_ENTER, n := [], e := [], sense := 0, op := 0 },
        { type := RPMRICH_PARSE_SIMPLE, n := ['A'], e := [], sense := 0, op := 0 },
        { type := RPMRICH_PARSE_OP, n := [], e := [], sense := 0, op := 1 },
        { type := RPMRICH_PARSE_SIMPLE, n := ['#', 'b'], e := [], sense := 0, op := 0 },
        { type := RPMRICH_PARSE_LEAVE, n := [], e := [], sense := 0, op := 0 } ],
    rc := RPMRC_OK, rest := r.drop 10, emsg := none }

/-- The environment of the examples. The bit values are pairwise disjoint
single bits, the sense mask is 15. -/
def demoEnv : Env :=
  { risspace := demoSpace
    risalnum := demoAlnum
    rpmCharCheck := demoCharCheck
    rpmParseDSFlags := demoParseDSFlags
    rpmrichOpStr := demoOpStr
    richEngine := demoEngine
    rpmdsCompare := demoCompare
    addReqProvRejects := fun _ _ => false
    RPMSENSE_ANY := 0
    RPMSENSE_LESS := 2
    RPMSENSE_GREATER := 4
    RPMSENSE_EQUAL := 8
    RPMSENSE_SENSEMASK := 15
    RPMSENSE_SCRIPT_PRE := 512
    RPMSENSE_SCRIPT_PREUN := 2048
    RPMSENSE_FIND_REQUIRES := 16384
    RPMSENSE_FIND_PROVIDES := 32768
    RPMSENSE_TRIGGERIN := 65536
    RPMSENSE_TRIGGERUN := 131072
    RPMSENSE_TRIGGERPOSTUN := 262144
    RPMSENSE_TRIGGERPREIN := 33554432
    RPMSENSE_RICH := 536870912
    RPMSENSE_SCRIPT_POSTUN := 4096 }

/-- The environment of the examples with `demoBadEngine` as its engine. -/
def demoBadEnv : Env := { demoEnv with richEngine := demoBadEngine }

/-! # Theorems -/

/-! ## checkSep and checkDep -/

theorem strchr_eq_none_iff (s : List Char) (c : Char) :
    strchr s c = none ↔ s.count c = 0 := by
  induction s with
  | nil => simp [strchr]
  | cons x xs ih =>
    by_cases h : x = c
    · subst h
      simp [strchr]
    · have h1 : (x == c) = false := by simpa using h
      simp [strchr, h, List.count_cons, h1, ih]

theorem strchr_eq_some (s : List Char) (c : Char) (t : List Char) (h : strchr s c = some t) :
    ∃ rest, t = c :: rest ∧ s.count c = rest.count c + 1 := by
  induction s with
  | nil => simp [strchr] at h
  | cons x xs ih =>
    by_cases hx : x = c
    · subst hx
      simp only [strchr, if_true, Option.some.injEq] at h
      exact ⟨xs, h.symm, by simp⟩
    · have h1 : (x == c) = false := by simpa using hx
      simp only [strchr, hx, if_false] at h
      obtain ⟨rest, hr, hc⟩ := ih h
      exact ⟨rest, hr, by simp [List.count_cons, h1, hc]⟩

/-- What `checkSep` computes: always `RPMRC_OK`, and the double-separator
diagnostic exactly when `c` occurs at least twice in `s`. -/
theorem checkSep_eq (s : List Char) (c : Char) (emsg : Option String) :
    checkSep s c emsg =
      (RPMRC_OK, if 2 ≤ s.count c then some (msgDoubleSep c s) else emsg) := by
  unfold checkSep
  cases h : strchr s c with
  | none =>
    have h0 := (strchr_eq_none_iff s c).1 h
    simp [h0]
  | some t =>
    obtain ⟨rest, rfl, hc⟩ := strchr_eq_some s c t h
    cases h2 : strchr rest c with
    | none =>
      have h0 := (strchr_eq_none_iff rest c).1 h2
      simp [hc, h0, h2]
    | some u =>
      obtain ⟨rest2, -, hc2⟩ := strchr_eq_some rest c u h2
      simp [hc, hc2, h2]

/-- The name-start rule of `checkDep` (line 34) as a predicate: the first
byte is outside plain ASCII, or alphanumeric, `_` or `/`. -/
theorem checkDep_fail_start (E : Env) (N : List Char) (EVR : Option (List Char))
    (emsg : Option String)
    (h : (isascii (N.headD (Char.ofNat 0)) &&
      !(E.risalnum (N.headD (Char.ofNat 0)) || N.headD (Char.ofNat 0) == '_'
        || N.headD (Char.ofNat 0) == '/')) = true) :
    checkDep E N EVR emsg = (RPMRC_FAIL, some msgTokenStart) := by
  simp only [checkDep, h, if_true]

/-- C10. For every name beginning with `/` and every version string
whatsoever that is present (empty or not, valid or not), `checkDep` returns
failure with the diagnostic "Versioned file name not permitted"; the
character check and the separator checks are not reached. -/
theorem checkDep_versioned_file (E : Env) (N v : List Char) (emsg : Option String)
    (hN : N.head? = some '/') :
    checkDep E N (some v) emsg = (RPMRC_FAIL, some msgVersionedFile) := by
  cases N with
  | nil => simp at hN
  | cons c cs =>
    simp only [List.head?_cons, Option.some.injEq] at hN
    subst hN
    simp [checkDep, isascii]

/-- Witness of C10: `/usr/bin/foo` with the invalid version `1.0#1`. -/
theorem checkDep_versioned_file_witness :
    "/usr/bin/foo".toList.head? = some '/' ∧
    checkDep demoEnv "/usr/bin/foo".toList (some "1.0#1".toList) none
      = (RPMRC_FAIL, some msgVersionedFile) :=
  ⟨by decide, checkDep_versioned_file demoEnv _ _ none (by decide)⟩

/-- C1, as the code has it. For every name that passes the name-start rule
and does not begin with `/`, and every version that passes the character
check and contains two or more `-` or two or more `:`, `checkDep` returns
success (not failure) and leaves the double-separator diagnostic naming the
character and the version: the one for `:` when `:` is repeated, otherwise
the one for `-`. -/
theorem checkDep_double_separator (E : Env) (N v : List Char) (emsg : Option String)
    (hstart : (isascii (N.headD (Char.ofNat 0)) &&
      !(E.risalnum (N.headD (Char.ofNat 0)) || N.headD (Char.ofNat 0) == '_'
        || N.headD (Char.ofNat 0) == '/')) = false)
    (hslash : N.headD (Char.ofNat 0) ≠ '/')
    (hchars : E.rpmCharCheck v evrWhitelist = RPMRC_OK)
    (hdouble : 2 ≤ v.count '-' ∨ 2 ≤ v.count ':') :
    checkDep E N (some v) emsg =
      (RPMRC_OK, some (if 2 ≤ v.count ':' then msgDoubleSep ':' v else msgDoubleSep '-' v)) := by
  have hs : (N.headD (Char.ofNat 0) == '/') = false := by simpa using hslash
  simp only [checkDep, hstart]
  simp only [hs, hchars, checkSep_eq]
  by_cases h2 : 2 ≤ v.count ':'
  · simp [h2]
  · have h1 : 2 ≤ v.count '-' := by
      rcases hdouble with h | h
      · exact h
      · exact absurd h h2
    simp [h2, h1]

/-- Witness of C1 as the code has it: name `foo`, version `1.0-1-2`. -/
theorem checkDep_double_separator_witness :
    checkDep demoEnv "foo".toList (some "1.0-1-2".toList) none =
      (RPMRC_OK, some "Invalid version (double separator '-'): 1.0-1-2") :=
  (checkDep_double_separator demoEnv "foo".toList "1.0-1-2".toList none
    (by decide) (by decide) (by decide) (by decide)).trans (by decide)

/-- C1 fails as stated: the name `foo` passes the name rules, the version
`1.0-1-2` has only allowed characters and two `-`, and `checkDep` returns
`RPMRC_OK`, not failure. -/
theorem checkDep_double_separator_not_fail :
    demoCharCheck "1.0-1-2".toList evrWhitelist = RPMRC_OK ∧
    2 ≤ "1.0-1-2".toList.count '-' ∧
    (checkDep demoEnv "foo".toList (some "1.0-1-2".toList) none).1 = RPMRC_OK ∧
    (checkDep demoEnv "foo".toList (some "1.0-1-2".toList) none).1 ≠ RPMRC_FAIL := by
  decide

/-! ## Scanning -/

theorem SKIPWHITE_length_le (E : Env) (x : List Char) : (SKIPWHITE E x).length ≤ x.length :=
  (List.dropWhile_suffix _).length_le

theorem SKIPNONWHITE_length_le (E : Env) (x : List Char) :
    (SKIPNONWHITE E x).length ≤ x.length :=
  (List.dropWhile_suffix _).length_le

theorem SKIPWHITE_head (E : Env) (x : List Char) (c : Char) (cs : List Char)
    (h : SKIPWHITE E x = c :: cs) : isSep E c = false := by
  induction x with
  | nil => simp [SKIPWHITE] at h
  | cons a as ih =>
    by_cases ha : isSep E a = true
    · simp only [SKIPWHITE, List.dropWhile_cons, ha, if_true] at h
      exact ih h
    · simp only [SKIPWHITE, List.dropWhile_cons, ha] at h
      simp only [Bool.false_eq_true, if_false, List.cons.injEq] at h
      rw [← h.1]
      simpa using ha

theorem SKIPNONWHITE_head (E : Env) (x : List Char) (c : Char) (cs : List Char)
    (h : SKIPNONWHITE E x = c :: cs) : isSep E c = true := by
  induction x with
  | nil => simp [SKIPNONWHITE] at h
  | cons a as ih =>
    by_cases ha : isSep E a = true
    · simp only [SKIPNONWHITE, List.dropWhile_cons, ha, Bool.not_true, Bool.false_eq_true,
        if_false, List.cons.injEq] at h
      rw [← h.1]
      exact ha
    · have ha1 : isSep E a = false := by simpa using ha
      simp only [SKIPNONWHITE, List.dropWhile_cons, ha1, Bool.not_false, if_true] at h
      exact ih h

theorem SKIPNONWHITE_cons_nonsep (E : Env) (c : Char) (cs : List Char)
    (h : isSep E c = false) : SKIPNONWHITE E (c :: cs) = SKIPNONWHITE E cs := by
  simp [SKIPNONWHITE, List.dropWhile_cons, h]

theorem SKIPNONWHITE_cons_sep (E : Env) (c : Char) (cs : List Char)
    (h : isSep E c = true) : SKIPNONWHITE E (c :: cs) = c :: cs := by
  simp [SKIPNONWHITE, List.dropWhile_cons, h]

theorem SKIPWHITE_cons_sep (E : Env) (c : Char) (cs : List Char)
    (h : isSep E c = true) : SKIPWHITE E (c :: cs) = SKIPWHITE E cs := by
  simp [SKIPWHITE, List.dropWhile_cons, h]

theorem SKIPWHITE_cons_nonsep (E : Env) (c : Char) (cs : List Char)
    (h : isSep E c = false) : SKIPWHITE E (c :: cs) = c :: cs := by
  simp [SKIPWHITE, List.dropWhile_cons, h]

/-- The copy made between a cursor and the end of its token is the token. -/
theorem copySpan_SKIPNONWHITE (E : Env) (r : List Char) :
    copySpan r (SKIPNONWHITE E r) = tokenAt E r := by
  unfold copySpan SKIPNONWHITE tokenAt
  have h := List.takeWhile_append_dropWhile (fun c => !isSep E c) r
  have hl : (r.takeWhile (fun c => !isSep E c)).length + (r.dropWhile (fun c => !isSep E c)).length
      = r.length := by
    rw [← List.length_append, h]
  have e : r.length - (r.dropWhile (fun c => !isSep E c)).length
      = (r.takeWhile (fun c => !isSep E c)).length := by omega
  rw [e]
  have h3 : List.take (r.takeWhile (fun c => !isSep E c)).length
      (r.takeWhile (fun c => !isSep E c) ++ r.dropWhile (fun c => !isSep E c))
      = r.takeWhile (fun c => !isSep E c) := List.take_left' rfl
  rw [h] at h3
  exact h3

/-- On a cursor that `SKIPWHITE` produced, `ve > v` holds exactly when the
cursor is not at the end. -/
theorem SKIPNONWHITE_lt_iff (E : Env) (x : List Char) :
    (SKIPNONWHITE E (SKIPWHITE E x)).length < (SKIPWHITE E x).length ↔ SKIPWHITE E x ≠ [] := by
  cases h : SKIPWHITE E x with
  | nil => simp [SKIPNONWHITE]
  | cons c cs =>
    have hc := SKIPWHITE_head E x c cs h
    rw [SKIPNONWHITE_cons_nonsep E c cs hc]
    have := SKIPNONWHITE_length_le E cs
    simp only [List.length_cons, ne_eq, reduceCtorEq, not_false_eq_true, iff_true]
    omega

theorem loopBody_simple (E : Env) (nametag : rpmTagVal) (tagflags : Nat) (index : Int)
    (r : List Char) (st : PState) (hr : r.head? ≠ some '(') :
    loopBody E nametag tagflags index r st =
      if termSense E r ≠ 0 ∧ afterToken E (afterToken E r) = [] then
        Step.exit { st with emsg := some msgVersionRequired }
      else
        simpleTail E nametag tagflags index (tokenAt E r) (termEVR E r)
          ((tagflags &&& bnot32 E.RPMSENSE_SENSEMASK) ||| termSense E r) (termNext E r) st := by
  unfold loopBody
  simp only [hr, if_false, copySpan_SKIPNONWHITE]
  have h1 := SKIPNONWHITE_lt_iff E (SKIPNONWHITE E r)
  have h2 := SKIPNONWHITE_lt_iff E (SKIPNONWHITE E (SKIPWHITE E (SKIPNONWHITE E r)))
  change (SKIPNONWHITE E (afterToken E r)).length < (afterToken E r).length ↔
    afterToken E r ≠ [] at h1
  change (SKIPNONWHITE E (afterToken E (afterToken E r))).length
      < (afterToken E (afterToken E r)).length ↔ afterToken E (afterToken E r) ≠ [] at h2
  change (if (SKIPNONWHITE E (afterToken E r)).length < (afterToken E r).length then
      if E.rpmParseDSFlags (tokenAt E (afterToken E r)) ≠ 0 then
        if afterToken E (afterToken E r) = [] ∨
            (SKIPNONWHITE E (afterToken E (afterToken E r))).length
              = (afterToken E (afterToken E r)).length then
          Step.exit { st with emsg := some msgVersionRequired }
        else
          simpleTail E nametag tagflags index (tokenAt E r)
            (some (tokenAt E (afterToken E (afterToken E r))))
            ((tagflags &&& bnot32 E.RPMSENSE_SENSEMASK) |||
              E.rpmParseDSFlags (tokenAt E (afterToken E r)))
            (SKIPNONWHITE E (afterToken E (afterToken E r))) st
      else simpleTail E nametag tagflags index (tokenAt E r) none
        (tagflags &&& bnot32 E.RPMSENSE_SENSEMASK) (afterToken E r) st
    else simpleTail E nametag tagflags index (tokenAt E r) none
        (tagflags &&& bnot32 E.RPMSENSE_SENSEMASK) (afterToken E r) st) = _
  by_cases hv : afterToken E r = []
  · have hs : termSense E r = 0 := by simp [termSense, hv]
    have hnlt : ¬ (SKIPNONWHITE E (afterToken E r)).length < (afterToken E r).length :=
      fun h => (h1.1 h) hv
    rw [if_neg hnlt]
    simp [hs, termEVR, termNext]
  · have hlt := h1.2 hv
    have hs : termSense E r = E.rpmParseDSFlags (tokenAt E (afterToken E r)) := by
      simp [termSense, hv]
    rw [if_pos hlt, ← hs]
    by_cases h0 : termSense E r = 0
    · simp [h0, termEVR, termNext]
    · have hiff : (afterToken E (afterToken E r) = [] ∨
          (SKIPNONWHITE E (afterToken E (afterToken E r))).length
            = (afterToken E (afterToken E r)).length)
          ↔ afterToken E (afterToken E r) = [] := by
        constructor
        · intro h
          rcases h with h | h
          · exact h
          · by_contra hne
            have := h2.2 hne
            omega
        · intro h
          exact Or.inl h
      rw [if_pos h0]
      simp only [hiff, h0, ne_eq, not_false_eq_true, true_and, termEVR, termNext, if_true]

/-! ## Flags -/

/-- Clearing the sense mask after ORing in bits that lie outside the mask
keeps those bits. -/
theorem flags_clear_merge (base impl mask sense : Nat)
    (hd : impl &&& mask = 0) (h32 : impl < 2 ^ 32) :
    ((base ||| impl) &&& bnot32 mask) ||| sense
      = (base &&& bnot32 mask) ||| sense ||| impl := by
  apply Nat.eq_of_testBit_eq
  intro i
  have hbit : impl.testBit i = true → i < 32 ∧ mask.testBit i = false := by
    intro hi
    have h1 : (impl &&& mask).testBit i = false := by rw [hd]; simp
    rw [Nat.testBit_and, hi] at h1
    refine ⟨?_, by simpa using h1⟩
    by_contra hge
    have hle : 2 ^ 32 ≤ 2 ^ i := Nat.pow_le_pow_right (by decide) (by omega)
    have := Nat.testBit_lt_two_pow (Nat.lt_of_lt_of_le h32 hle)
    rw [this] at hi
    exact Bool.noConfusion hi
  simp only [Nat.testBit_or, Nat.testBit_and, bnot32, Nat.testBit_xor,
    Nat.testBit_two_pow_sub_one, Nat.testBit_mod_two_pow]
  cases hi : impl.testBit i with
  | false => simp
  | true =>
    obtain ⟨h1, h2⟩ := hbit hi
    simp [h1, h2]

theorem resolveTag_flags (E : Env) (tagN : rpmTagVal) (tagflags : Nat) :
    (resolveTag E tagN tagflags).2 = tagflags ||| implicitFlags E tagN := by
  cases tagN <;> simp [resolveTag, implicitFlags]

/-! ## The tail of the loop body -/

/-- The three ways the tail of the loop body ends. -/
theorem simpleTail_eq (E : Env) (nametag : rpmTagVal) (tagflags : Nat) (index : Int)
    (N : List Char) (EVR : Option (List Char)) (Flags : Nat) (re : List Char) (st : PState) :
    simpleTail E nametag tagflags index N EVR Flags re st =
      if (checkDep E N EVR st.emsg).1 ≠ RPMRC_OK then
        Step.exit { st with emsg := (checkDep E N EVR st.emsg).2 }
      else if (nametag == RPMTAG_TRIGGERNAME &&
          (triggerCheck E nametag tagflags N EVR Flags st.pkg
            (fileTriggerCheck nametag N (checkDep E N EVR st.emsg).2)).isSome) = true then
        Step.exit
          { st with
            emsg := triggerCheck E nametag tagflags N EVR Flags st.pkg
              (fileTriggerCheck nametag N (checkDep E N EVR st.emsg).2) }
      else if E.addReqProvRejects st.pkg
          { ds := { tagN := nametag, N := N, EVR := EVR, Flags := Flags }, index := index }
          = true then
        Step.exit { st with emsg := some msgInvalidDep }
      else
        Step.next re
          { pkg := st.pkg ++
              [{ ds := { tagN := nametag, N := N, EVR := EVR, Flags := Flags }, index := index }],
            emsg := triggerCheck E nametag tagflags N EVR Flags st.pkg
              (fileTriggerCheck nametag N (checkDep E N EVR st.emsg).2),
            engineCalls := st.engineCalls } := by
  unfold simpleTail addReqProv
  by_cases h1 : (checkDep E N EVR st.emsg).1 ≠ RPMRC_OK
  · rw [if_pos h1, if_pos h1]
  · rw [if_neg h1, if_neg h1]
    by_cases h2 : (nametag == RPMTAG_TRIGGERNAME &&
          (triggerCheck E nametag tagflags N EVR Flags st.pkg
            (fileTriggerCheck nametag N (checkDep E N EVR st.emsg).2)).isSome) = true
    · rw [if_pos h2, if_pos h2]
    · rw [if_neg h2, if_neg h2]
      by_cases h3 : E.addReqProvRejects st.pkg
          { ds := { tagN := nametag, N := N, EVR := EVR, Flags := Flags }, index := index } = true
      · simp only [h3, if_true]
      · simp only [h3, if_false, Bool.false_eq_true]

/-- An iteration on a simple term that goes on to the next one has emitted
exactly the record of the term, and goes on at `re`. -/
theorem simpleTail_next (E : Env) (nametag : rpmTagVal) (tagflags : Nat) (index : Int)
    (N : List Char) (EVR : Option (List Char)) (Flags : Nat) (re re1 : List Char)
    (st st1 : PState)
    (h : simpleTail E nametag tagflags index N EVR Flags re st = Step.next re1 st1) :
    re1 = re ∧
    st1.pkg = st.pkg ++
      [{ ds := { tagN := nametag, N := N, EVR := EVR, Flags := Flags }, index := index }] ∧
    st1.engineCalls = st.engineCalls ∧
    (checkDep E N EVR st.emsg).1 = RPMRC_OK := by
  rw [simpleTail_eq] at h
  split at h
  · exact Step.noConfusion h
  · rename_i hcd
    split at h
    · exact Step.noConfusion h
    · split at h
      · exact Step.noConfusion h
      · simp only [Step.next.injEq] at h
        obtain ⟨h1, h2⟩ := h
        subst h2
        exact ⟨h1.symm, rfl, rfl, by simpa using hcd⟩

/-- An iteration on a simple term that exits leaves the store and the call
count as they were. -/
theorem simpleTail_exit (E : Env) (nametag : rpmTagVal) (tagflags : Nat) (index : Int)
    (N : List Char) (EVR : Option (List Char)) (Flags : Nat) (re : List Char)
    (st stf : PState)
    (h : simpleTail E nametag tagflags index N EVR Flags re st = Step.exit stf) :
    stf.pkg = st.pkg ∧ stf.engineCalls = st.engineCalls := by
  rw [simpleTail_eq] at h
  split at h
  · simp only [Step.exit.injEq] at h
    subst h
    exact ⟨rfl, rfl⟩
  · split at h
    · simp only [Step.exit.injEq] at h
      subst h
      exact ⟨rfl, rfl⟩
    · split at h
      · simp only [Step.exit.injEq] at h
        subst h
        exact ⟨rfl, rfl⟩
      · exact Step.noConfusion h

/-! ## One iteration of the loop -/

/-- An iteration whose cursor does not stand on `(` is the "Version required"
exit or the tail of the loop body on the term at the cursor. -/
theorem iteration_simple (E : Env) (tagN : rpmTagVal) (index : Int) (tagflags : Nat)
    (r : List Char) (st : PState) (hterm : (SKIPWHITE E r).head? ≠ some '(') :
    iteration E tagN index tagflags r st =
      if versionMissing E (SKIPWHITE E r) then
        Step.exit { st with emsg := some msgVersionRequired }
      else
        simpleTail E (resolveTag E tagN tagflags).1 (resolveTag E tagN tagflags).2 index
          (tokenAt E (SKIPWHITE E r)) (termEVR E (SKIPWHITE E r))
          (((resolveTag E tagN tagflags).2 &&& bnot32 E.RPMSENSE_SENSEMASK)
            ||| termSense E (SKIPWHITE E r))
          (termNext E (SKIPWHITE E r)) st := by
  unfold iteration
  rw [loopBody_simple E _ _ _ _ _ hterm]
  rfl

theorem fileTriggerCheck_relative (nametag : rpmTagVal) (N : List Char) (emsg : Option String)
    (hnt : nametag = RPMTAG_FILETRIGGERNAME ∨ nametag = RPMTAG_TRANSFILETRIGGERNAME)
    (hn : N.headD (Char.ofNat 0) ≠ '/') :
    fileTriggerCheck nametag N emsg = some msgAbsolutePaths := by
  have hb : (N.headD (Char.ofNat 0) != '/') = true := bne_iff_ne.2 hn
  unfold fileTriggerCheck
  rw [hb]
  rcases hnt with h | h <;> subst h <;> rfl

theorem fileTriggerCheck_other (nametag : rpmTagVal) (N : List Char) (emsg : Option String)
    (h1 : nametag ≠ RPMTAG_FILETRIGGERNAME) (h2 : nametag ≠ RPMTAG_TRANSFILETRIGGERNAME) :
    fileTriggerCheck nametag N emsg = emsg := by
  unfold fileTriggerCheck
  have e1 : (nametag == RPMTAG_FILETRIGGERNAME) = false := beq_false_of_ne h1
  have e2 : (nametag == RPMTAG_TRANSFILETRIGGERNAME) = false := beq_false_of_ne h2
  rw [e1, e2]
  rfl

theorem triggerCheck_other (E : Env) (nametag : rpmTagVal) (tagflags : Nat) (N : List Char)
    (EVR : Option (List Char)) (Flags : Nat) (pkg : Package) (emsg : Option String)
    (h : nametag ≠ RPMTAG_TRIGGERNAME) :
    triggerCheck E nametag tagflags N EVR Flags pkg emsg = emsg := by
  unfold triggerCheck
  have e1 : (nametag == RPMTAG_TRIGGERNAME) = false := beq_false_of_ne h
  rw [e1]
  rfl

/-- Outside the ordinary triggers, a term that passes `checkDep` and that
the store accepts is emitted, whatever diagnostic is pending. -/
theorem simpleTail_emit (E : Env) (nametag : rpmTagVal) (tagflags : Nat) (index : Int)
    (N : List Char) (EVR : Option (List Char)) (Flags : Nat) (re : List Char) (st : PState)
    (hdep : (checkDep E N EVR st.emsg).1 = RPMRC_OK)
    (hnt : nametag ≠ RPMTAG_TRIGGERNAME)
    (hstore : E.addReqProvRejects st.pkg
      { ds := { tagN := nametag, N := N, EVR := EVR, Flags := Flags }, index := index } = false) :
    simpleTail E nametag tagflags index N EVR Flags re st =
      Step.next re
        { pkg := st.pkg ++
            [{ ds := { tagN := nametag, N := N, EVR := EVR, Flags := Flags }, index := index }],
          emsg := fileTriggerCheck nametag N (checkDep E N EVR st.emsg).2,
          engineCalls := st.engineCalls } := by
  rw [simpleTail_eq]
  have e1 : (nametag == RPMTAG_TRIGGERNAME) = false := beq_false_of_ne hnt
  rw [if_neg (by rw [hdep]; exact fun h => h rfl), triggerCheck_other E _ _ _ _ _ _ _ hnt, e1,
    hstore]
  rfl

/-- The loop in terms of its iterations. -/
theorem parseLoop_succ (E : Env) (tagN : rpmTagVal) (index : Int) (tagflags : Nat)
    (fuel : Nat) (r : List Char) (st : PState) (hne : SKIPWHITE E r ≠ []) :
    parseLoop E (resolveTag E tagN tagflags).1 (resolveTag E tagN tagflags).2 index
        (fuel + 1) r st =
      match iteration E tagN index tagflags r st with
      | Step.exit st1 => some (RPMRC_FAIL, st1)
      | Step.next re st1 =>
        parseLoop E (resolveTag E tagN tagflags).1 (resolveTag E tagN tagflags).2 index
          fuel re st1 := by
  have hr : r ≠ [] := by
    intro h
    rw [h] at hne
    exact hne rfl
  rw [parseLoop]
  simp only [hr, hne, if_false]
  rfl

theorem parseLoop_done (E : Env) (nametag : rpmTagVal) (index : Int) (tagflags : Nat)
    (fuel : Nat) (r : List Char) (st : PState) (he : SKIPWHITE E r = []) :
    parseLoop E nametag tagflags index (fuel + 1) r st = some (RPMRC_OK, st) := by
  rw [parseLoop]
  by_cases hr : r = []
  · simp [hr]
  · simp [hr, he]

/-- C2, as the code has it. For every file-trigger and
transaction-file-trigger kind, a simple term whose name does not begin with
`/` is not a failure: when the operator, if any, has its version, the term
passes `checkDep` and the store accepts the record, the iteration emits the
record of the term and the loop goes on behind the term, with the diagnostic
"Only absolute paths are allowed in file triggers" pending. -/
theorem fileTrigger_relative_name (E : Env) (tagN : rpmTagVal) (index : Int)
    (tagflags : Nat) (r : List Char) (st : PState)
    (hkind : tagN ∈ [RPMTAG_FILETRIGGERIN, RPMTAG_FILETRIGGERUN, RPMTAG_FILETRIGGERPOSTUN,
      RPMTAG_TRANSFILETRIGGERIN, RPMTAG_TRANSFILETRIGGERUN, RPMTAG_TRANSFILETRIGGERPOSTUN])
    (hne : SKIPWHITE E r ≠ [])
    (hterm : (SKIPWHITE E r).head? ≠ some '(')
    (hver : ¬ versionMissing E (SKIPWHITE E r))
    (hname : (tokenAt E (SKIPWHITE E r)).headD (Char.ofNat 0) ≠ '/')
    (hdep : (checkDep E (tokenAt E (SKIPWHITE E r)) (termEVR E (SKIPWHITE E r)) st.emsg).1
      = RPMRC_OK)
    (hstore : E.addReqProvRejects st.pkg (termRecord E tagN index tagflags (SKIPWHITE E r))
      = false) :
    iteration E tagN index tagflags r st =
      Step.next (termNext E (SKIPWHITE E r))
        { pkg := st.pkg ++ [termRecord E tagN index tagflags (SKIPWHITE E r)],
          emsg := some msgAbsolutePaths,
          engineCalls := st.engineCalls } ∧
    ∀ fuel, parseLoop E (resolveTag E tagN tagflags).1 (resolveTag E tagN tagflags).2 index
        (fuel + 1) r st =
      parseLoop E (resolveTag E tagN tagflags).1 (resolveTag E tagN tagflags).2 index
        fuel (termNext E (SKIPWHITE E r))
        { pkg := st.pkg ++ [termRecord E tagN index tagflags (SKIPWHITE E r)],
          emsg := some msgAbsolutePaths,
          engineCalls := st.engineCalls } := by
  have hnt : (resolveTag E tagN tagflags).1 = RPMTAG_FILETRIGGERNAME ∨
      (resolveTag E tagN tagflags).1 = RPMTAG_TRANSFILETRIGGERNAME := by
    simp only [List.mem_cons, List.mem_singleton, List.not_mem_nil, or_false] at hkind
    rcases hkind with h | h | h | h | h | h <;> subst h <;> simp [resolveTag]
  have hntr : (resolveTag E tagN tagflags).1 ≠ RPMTAG_TRIGGERNAME := by
    rcases hnt with h | h <;> rw [h] <;> exact fun h => rpmTagVal.noConfusion h
  have hit : iteration E tagN index tagflags r st =
      Step.next (termNext E (SKIPWHITE E r))
        { pkg := st.pkg ++ [termRecord E tagN index tagflags (SKIPWHITE E r)],
          emsg := some msgAbsolutePaths,
          engineCalls := st.engineCalls } := by
    rw [iteration_simple E tagN index tagflags r st hterm, if_neg hver,
      simpleTail_emit E _ _ _ _ _ _ _ _ hdep hntr hstore,
      fileTriggerCheck_relative _ _ _ hnt hname]
    rfl
  refine ⟨hit, ?_⟩
  intro fuel
  rw [parseLoop_succ E tagN index tagflags fuel r st hne, hit]

/-- Witness of C2 as the code has it: the term `foo` under the file-trigger
kind `RPMTAG_FILETRIGGERIN`. -/
theorem fileTrigger_relative_name_witness :
    iteration demoEnv RPMTAG_FILETRIGGERIN 0 0 "foo".toList
        { pkg := [], emsg := none, engineCalls := 0 } =
      Step.next []
        { pkg := [{ ds := { tagN := RPMTAG_FILETRIGGERNAME, N := "foo".toList, EVR := none,
                            Flags := 65536 }, index := 0 }],
          emsg := some msgAbsolutePaths,
          engineCalls := 0 } :=
  (fileTrigger_relative_name demoEnv RPMTAG_FILETRIGGERIN 0 0 "foo".toList
    { pkg := [], emsg := none, engineCalls := 0 }
    (by decide) (by decide) (by decide) (by decide) (by decide) (by decide) (by decide)).1.trans
    (by decide)

/-- C2 fails as stated: for the file-trigger kind `RPMTAG_FILETRIGGERIN` the
field `foo`, whose only term has a name that does not begin with `/`, makes
`parseRCPOT` return `RPMRC_OK` with the record for `foo` emitted; the
diagnostic is logged at warning level. -/
theorem fileTrigger_relative_name_not_fail :
    parseRCPOT demoEnv [] "foo".toList RPMTAG_FILETRIGGERIN 0 0 =
      some
        { rc := RPMRC_OK,
          pkg := [{ ds := { tagN := RPMTAG_FILETRIGGERNAME, N := "foo".toList, EVR := none,
                            Flags := 65536 }, index := 0 }],
          log := some (RPMLOG_WARNING, msgAbsolutePaths),
          engineCalls := 0 } := by
  decide

/-- C4. For every relationship kind whose implicit flags lie outside the
sense mask (and fit the 32-bit flag word), every base flag word and every
iteration on a simple term that emits, exactly one record is emitted: the one
of the term, and its flags are (base flags with the sense-mask bits cleared)
OR (the sense bits parsed from the operator, zero if there is none) OR (the
implicit flags of the kind). -/
theorem simple_term_flags (E : Env) (tagN : rpmTagVal) (index : Int) (base : Nat)
    (r re : List Char) (st st1 : PState)
    (hdisj : implicitFlags E tagN &&& E.RPMSENSE_SENSEMASK = 0)
    (h32 : implicitFlags E tagN < 2 ^ 32)
    (hterm : (SKIPWHITE E r).head? ≠ some '(')
    (hnext : iteration E tagN index base r st = Step.next re st1) :
    st1.pkg = st.pkg ++ [termRecord E tagN index base (SKIPWHITE E r)] ∧
    (termRecord E tagN index base (SKIPWHITE E r)).ds.Flags =
      (base &&& bnot32 E.RPMSENSE_SENSEMASK) ||| termSense E (SKIPWHITE E r)
        ||| implicitFlags E tagN := by
  rw [iteration_simple E tagN index base r st hterm] at hnext
  split at hnext
  · exact Step.noConfusion hnext
  · obtain ⟨-, hpkg, -, -⟩ := simpleTail_next E _ _ _ _ _ _ _ _ _ _ hnext
    refine ⟨hpkg, ?_⟩
    show ((resolveTag E tagN base).2 &&& bnot32 E.RPMSENSE_SENSEMASK)
      ||| termSense E (SKIPWHITE E r) = _
    rw [resolveTag_flags, flags_clear_merge base _ _ _ hdisj h32]

/-- Witness of C4: the term `foo >= 1.0` of a legacy pre-requires field,
with base flags that carry a sense bit (2) and another bit (64). -/
theorem simple_term_flags_witness :
    (termRecord demoEnv RPMTAG_PREREQ 0 66 "foo >= 1.0".toList).ds.Flags = 64 ||| 12 ||| 2560 :=
  (simple_term_flags demoEnv RPMTAG_PREREQ 0 66 "foo >= 1.0".toList []
    { pkg := [], emsg := none, engineCalls := 0 }
    { pkg := [termRecord demoEnv RPMTAG_PREREQ 0 66 "foo >= 1.0".toList], emsg := none,
      engineCalls := 0 }
    (by decide) (by decide) (by decide) (by decide)).2.trans (by decide)

/-! ## The trigger check -/

theorem triggerScan_eq (E : Env) (tagflags : Nat) (newds : Dep) (ds : List Dep)
    (emsg : Option String) :
    triggerScan E tagflags newds ds emsg =
      if ds.any (fun d => E.rpmdsCompare d newds && (d.Flags &&& tagflags != 0)) = true then
        some msgTriggerDefined
      else emsg := by
  induction ds with
  | nil => simp [triggerScan]
  | cons d ds ih =>
    unfold triggerScan
    by_cases h : (E.rpmdsCompare d newds && (d.Flags &&& tagflags != 0)) = true
    · simp [h]
    · have h1 : (E.rpmdsCompare d newds && (d.Flags &&& tagflags != 0)) = false := by
        simpa using h
      rw [if_neg h, ih, List.any_cons, h1, Bool.false_or]

theorem msgDoubleSep_ne_msgTriggerDefined (c : Char) (s : List Char) :
    msgDoubleSep c s ≠ msgTriggerDefined := by
  intro h
  have h1 : (msgDoubleSep c s).data.head? = msgTriggerDefined.data.head? := by rw [h]
  have h2 : (msgDoubleSep c s).data.head? = some 'I' := rfl
  have h3 : msgTriggerDefined.data.head? = some 'T' := rfl
  rw [h2, h3] at h1
  exact absurd h1 (by decide)

/-- The diagnostic `checkDep` leaves when it returns `RPMRC_OK`: the one it
was given, or a double-separator one. -/
theorem checkDep_ok_emsg (E : Env) (N : List Char) (EVR : Option (List Char))
    (emsg : Option String) (h : (checkDep E N EVR emsg).1 = RPMRC_OK) :
    (checkDep E N EVR emsg).2 = emsg ∨
      ∃ c s, (checkDep E N EVR emsg).2 = some (msgDoubleSep c s) := by
  unfold checkDep at h ⊢
  simp only at h ⊢
  by_cases h1 : (isascii (N.headD (Char.ofNat 0)) &&
      !(E.risalnum (N.headD (Char.ofNat 0)) || N.headD (Char.ofNat 0) == '_'
        || N.headD (Char.ofNat 0) == '/')) = true
  · rw [if_pos h1] at h
    exact rpmRC.noConfusion h
  · rw [if_neg h1] at h ⊢
    cases EVR with
    | none => exact Or.inl rfl
    | some evr =>
      simp only [checkSep_eq] at h ⊢
      by_cases h2 : (N.headD (Char.ofNat 0) == '/') = true
      · rw [if_pos h2] at h
        exact rpmRC.noConfusion h
      · rw [if_neg h2] at h ⊢
        by_cases h3 : E.rpmCharCheck evr evrWhitelist ≠ RPMRC_OK
        · rw [if_pos h3] at h
          exact rpmRC.noConfusion h
        · rw [if_neg h3]
          simp only [ne_eq, not_true_eq_false, if_false]
          by_cases hc : 2 ≤ evr.count ':'
          · exact Or.inr ⟨':', evr, by simp [hc]⟩
          · by_cases hd : 2 ≤ evr.count '-'
            · exact Or.inr ⟨'-', evr, by simp [hc, hd]⟩
            · exact Or.inl (by simp [hc, hd])

/-- An iteration of an ordinary-trigger field on a simple term that passes
`checkDep`, entered with no diagnostic pending, by cases: a conflicting
trigger; a diagnostic left by `checkDep`; a record the store rejects; or the
emission. -/
theorem trigger_iteration_eq (E : Env) (tagN : rpmTagVal) (index : Int) (base : Nat)
    (r : List Char) (st : PState)
    (hkind : tagN ∈ [RPMTAG_TRIGGERPREIN, RPMTAG_TRIGGERIN, RPMTAG_TRIGGERPOSTUN,
      RPMTAG_TRIGGERUN])
    (hterm : (SKIPWHITE E r).head? ≠ some '(')
    (hver : ¬ versionMissing E (SKIPWHITE E r))
    (hemsg : st.emsg = none)
    (hdep : (checkDep E (tokenAt E (SKIPWHITE E r)) (termEVR E (SKIPWHITE E r)) none).1
      = RPMRC_OK) :
    iteration E tagN index base r st =
      if (packageDependencies st.pkg RPMTAG_TRIGGERNAME).any (fun d =>
          E.rpmdsCompare d (termRecord E tagN index base (SKIPWHITE E r)).ds &&
            (d.Flags &&& (resolveTag E tagN base).2 != 0)) = true then
        Step.exit { st with emsg := some msgTriggerDefined }
      else if ((checkDep E (tokenAt E (SKIPWHITE E r)) (termEVR E (SKIPWHITE E r)) none).2).isSome
          = true then
        Step.exit { st with emsg :=
          (checkDep E (tokenAt E (SKIPWHITE E r)) (termEVR E (SKIPWHITE E r)) none).2 }
      else if E.addReqProvRejects st.pkg (termRecord E tagN index base (SKIPWHITE E r))
          = true then
        Step.exit { st with emsg := some msgInvalidDep }
      else
        Step.next (termNext E (SKIPWHITE E r))
          { pkg := st.pkg ++ [termRecord E tagN index base (SKIPWHITE E r)],
            emsg := none,
            engineCalls := st.engineCalls } := by
  have hnt : (resolveTag E tagN base).1 = RPMTAG_TRIGGERNAME := by
    simp only [List.mem_cons, List.mem_singleton, List.not_mem_nil, or_false] at hkind
    rcases hkind with h | h | h | h <;> subst h <;> simp [resolveTag]
  have hds : (termRecord E tagN index base (SKIPWHITE E r)).ds =
      ⟨RPMTAG_TRIGGERNAME, tokenAt E (SKIPWHITE E r), termEVR E (SKIPWHITE E r),
        ((resolveTag E tagN base).2 &&& bnot32 E.RPMSENSE_SENSEMASK)
          ||| termSense E (SKIPWHITE E r)⟩ := by
    simp [termRecord, hnt]
  have hrec : (termRecord E tagN index base (SKIPWHITE E r)) =
      ⟨⟨RPMTAG_TRIGGERNAME, tokenAt E (SKIPWHITE E r), termEVR E (SKIPWHITE E r),
        ((resolveTag E tagN base).2 &&& bnot32 E.RPMSENSE_SENSEMASK)
          ||| termSense E (SKIPWHITE E r)⟩, index⟩ := by
    simp [termRecord, hnt]
  rw [iteration_simple E tagN index base r st hterm, if_neg hver, simpleTail_eq, hemsg, hnt,
    if_neg (by rw [hdep]; exact fun h => h rfl),
    fileTriggerCheck_other _ _ _ (by decide) (by decide), ← hrec]
  unfold triggerCheck
  simp only [beq_self_eq_true, if_true, triggerScan_eq, Bool.true_and]
  rw [← hds]
  by_cases hA : (packageDependencies st.pkg RPMTAG_TRIGGERNAME).any (fun d =>
      E.rpmdsCompare d (termRecord E tagN index base (SKIPWHITE E r)).ds &&
        (d.Flags &&& (resolveTag E tagN base).2 != 0)) = true
  · simp only [hA, if_true, Option.isSome_some]
  · simp only [hA, if_false]
    cases hcd : (checkDep E (tokenAt E (SKIPWHITE E r)) (termEVR E (SKIPWHITE E r)) none).2 with
    | none => simp
    | some m => simp

/-- C5. For an ordinary (non-file) trigger kind, an iteration entered with
no diagnostic pending on a simple term that passes `checkDep` exits with the
diagnostic "Trigger fired by the same package is already defined in spec
file" if and only if some record already in the ordinary-trigger set of the
package compares equal to the new one under `rpmdsCompare` and shares a bit
with the flags of the declaration (`tagflags` after the switch, not the
per-record `Flags`). No exit emits the record, and an iteration that goes on
has emitted exactly the record of the term and leaves no diagnostic pending,
so the next iteration is again entered with none. -/
theorem trigger_conflict_iff (E : Env) (tagN : rpmTagVal) (index : Int) (base : Nat)
    (r : List Char) (st : PState)
    (hkind : tagN ∈ [RPMTAG_TRIGGERPREIN, RPMTAG_TRIGGERIN, RPMTAG_TRIGGERPOSTUN,
      RPMTAG_TRIGGERUN])
    (hterm : (SKIPWHITE E r).head? ≠ some '(')
    (hver : ¬ versionMissing E (SKIPWHITE E r))
    (hemsg : st.emsg = none)
    (hdep : (checkDep E (tokenAt E (SKIPWHITE E r)) (termEVR E (SKIPWHITE E r)) none).1
      = RPMRC_OK) :
    ((∃ stf, iteration E tagN index base r st = Step.exit stf ∧
          stf.emsg = some msgTriggerDefined) ↔
      ∃ d ∈ packageDependencies st.pkg RPMTAG_TRIGGERNAME,
        E.rpmdsCompare d (termRecord E tagN index base (SKIPWHITE E r)).ds = true ∧
        d.Flags &&& (resolveTag E tagN base).2 ≠ 0) ∧
    (∀ stf, iteration E tagN index base r st = Step.exit stf → stf.pkg = st.pkg) ∧
    (∀ re st1, iteration E tagN index base r st = Step.next re st1 →
      st1.emsg = none ∧
      st1.pkg = st.pkg ++ [termRecord E tagN index base (SKIPWHITE E r)]) := by
  have key := trigger_iteration_eq E tagN index base r st hkind hterm hver hemsg hdep
  have hany : (packageDependencies st.pkg RPMTAG_TRIGGERNAME).any (fun d =>
        E.rpmdsCompare d (termRecord E tagN index base (SKIPWHITE E r)).ds &&
          (d.Flags &&& (resolveTag E tagN base).2 != 0)) = true ↔
      ∃ d ∈ packageDependencies st.pkg RPMTAG_TRIGGERNAME,
        E.rpmdsCompare d (termRecord E tagN index base (SKIPWHITE E r)).ds = true ∧
        d.Flags &&& (resolveTag E tagN base).2 ≠ 0 := by
    simp [List.any_eq_true]
  rw [← hany]
  by_cases hA : (packageDependencies st.pkg RPMTAG_TRIGGERNAME).any (fun d =>
        E.rpmdsCompare d (termRecord E tagN index base (SKIPWHITE E r)).ds &&
          (d.Flags &&& (resolveTag E tagN base).2 != 0)) = true
  · rw [if_pos hA] at key
    rw [key]
    refine ⟨⟨fun _ => hA, fun _ => ⟨_, rfl, rfl⟩⟩, ?_, ?_⟩
    · intro stf h
      simp only [Step.exit.injEq] at h
      rw [← h]
    · intro re st1 h
      exact Step.noConfusion h
  · rw [if_neg hA] at key
    by_cases hB : ((checkDep E (tokenAt E (SKIPWHITE E r)) (termEVR E (SKIPWHITE E r))
        none).2).isSome = true
    · rw [if_pos hB] at key
      rw [key]
      refine ⟨⟨?_, fun h => absurd h hA⟩, ?_, ?_⟩
      · rintro ⟨stf, h, hm⟩
        simp only [Step.exit.injEq] at h
        rw [← h] at hm
        simp only at hm
        rcases checkDep_ok_emsg E _ _ none hdep with h0 | ⟨c, s, h0⟩
        · rw [h0] at hm
          exact Option.noConfusion hm
        · rw [h0] at hm
          exact absurd (Option.some.inj hm) (msgDoubleSep_ne_msgTriggerDefined c s)
      · intro stf h
        simp only [Step.exit.injEq] at h
        rw [← h]
      · intro re st1 h
        exact Step.noConfusion h
    · rw [if_neg hB] at key
      by_cases hC : E.addReqProvRejects st.pkg (termRecord E tagN index base (SKIPWHITE E r))
          = true
      · rw [if_pos hC] at key
        rw [key]
        refine ⟨⟨?_, fun h => absurd h hA⟩, ?_, ?_⟩
        · rintro ⟨stf, h, hm⟩
          simp only [Step.exit.injEq] at h
          rw [← h] at hm
          exact absurd (Option.some.inj hm) (by decide)
        · intro stf h
          simp only [Step.exit.injEq] at h
          rw [← h]
        · intro re st1 h
          exact Step.noConfusion h
      · rw [if_neg hC] at key
        rw [key]
        refine ⟨⟨?_, fun h => absurd h hA⟩, ?_, ?_⟩
        · rintro ⟨stf, h, -⟩
          exact Step.noConfusion h
        · intro stf h
          exact Step.noConfusion h
        · intro re st1 h
          simp only [Step.next.injEq] at h
          rw [← h.2]
          exact ⟨rfl, rfl⟩

/-- Witness of C5: `foo` declared as a pre-install trigger when the package
already has the pre-install trigger `foo` exits with the diagnostic; as whole
fields, the second of two identical pre-install triggers fails, and a
post-uninstall trigger after a pre-install one of the same name succeeds. -/
theorem trigger_conflict_iff_witness :
    (∃ stf, iteration demoEnv RPMTAG_TRIGGERPREIN 0 0 "foo".toList
        { pkg := [⟨⟨RPMTAG_TRIGGERNAME, "foo".toList, none, 33554432⟩, 0⟩], emsg := none,
          engineCalls := 0 } = Step.exit stf ∧ stf.emsg = some msgTriggerDefined) ∧
    parseRCPOT demoEnv [] "foo".toList RPMTAG_TRIGGERPREIN 0 0 =
      some ⟨RPMRC_OK, [⟨⟨RPMTAG_TRIGGERNAME, "foo".toList, none, 33554432⟩, 0⟩], none, 0⟩ ∧
    parseRCPOT demoEnv [⟨⟨RPMTAG_TRIGGERNAME, "foo".toList, none, 33554432⟩, 0⟩] "foo".toList
      RPMTAG_TRIGGERPREIN 0 0 =
      some ⟨RPMRC_FAIL, [⟨⟨RPMTAG_TRIGGERNAME, "foo".toList, none, 33554432⟩, 0⟩],
        some (RPMLOG_ERR, msgTriggerDefined), 0⟩ ∧
    parseRCPOT demoEnv [⟨⟨RPMTAG_TRIGGERNAME, "foo".toList, none, 33554432⟩, 0⟩] "foo".toList
      RPMTAG_TRIGGERPOSTUN 0 0 =
      some ⟨RPMRC_OK, [⟨⟨RPMTAG_TRIGGERNAME, "foo".toList, none, 33554432⟩, 0⟩,
        ⟨⟨RPMTAG_TRIGGERNAME, "foo".toList, none, 262144⟩, 0⟩], none, 0⟩ :=
  ⟨(trigger_conflict_iff demoEnv RPMTAG_TRIGGERPREIN 0 0 "foo".toList
      { pkg := [⟨⟨RPMTAG_TRIGGERNAME, "foo".toList, none, 33554432⟩, 0⟩], emsg := none,
        engineCalls := 0 }
      (by decide) (by decide) (by decide) rfl (by decide)).1.2
      ⟨⟨RPMTAG_TRIGGERNAME, "foo".toList, none, 33554432⟩, by decide, by decide, by decide⟩,
    by decide, by decide, by decide⟩

/-! ## Scanning a field given by its tokens and separator runs -/

theorem SKIPWHITE_append_seps (E : Env) (s x : List Char)
    (hs : ∀ c ∈ s, isSep E c = true) : SKIPWHITE E (s ++ x) = SKIPWHITE E x := by
  induction s with
  | nil => rfl
  | cons a as ih =>
    rw [List.cons_append, SKIPWHITE_cons_sep E a _ (hs a (List.mem_cons_self a as))]
    exact ih (fun c hc => hs c (List.mem_cons_of_mem a hc))

theorem SKIPNONWHITE_append_token (E : Env) (t x : List Char)
    (ht : ∀ c ∈ t, isSep E c = false) : SKIPNONWHITE E (t ++ x) = SKIPNONWHITE E x := by
  induction t with
  | nil => rfl
  | cons a as ih =>
    rw [List.cons_append, SKIPNONWHITE_cons_nonsep E a _ (ht a (List.mem_cons_self a as))]
    exact ih (fun c hc => ht c (List.mem_cons_of_mem a hc))

theorem tokenAt_append_token (E : Env) (t x : List Char)
    (ht : ∀ c ∈ t, isSep E c = false) : tokenAt E (t ++ x) = t ++ tokenAt E x := by
  induction t with
  | nil => rfl
  | cons a as ih =>
    have ha := ht a (List.mem_cons_self a as)
    have := ih (fun c hc => ht c (List.mem_cons_of_mem a hc))
    unfold tokenAt at this ⊢
    rw [List.cons_append, List.takeWhile_cons, this]
    simp [ha]

theorem SKIPWHITE_seps (E : Env) (s : List Char) (hs : ∀ c ∈ s, isSep E c = true) :
    SKIPWHITE E s = [] := by
  have := SKIPWHITE_append_seps E s [] hs
  rw [List.append_nil] at this
  rw [this]
  rfl

/-- A cursor at the end of the string or on a separator starts no token. -/
theorem tokenAt_at_sep (E : Env) (x : List Char)
    (hx : ∀ c cs, x = c :: cs → isSep E c = true) : tokenAt E x = [] := by
  cases x with
  | nil => rfl
  | cons c cs =>
    have := hx c cs rfl
    simp [tokenAt, List.takeWhile_cons, this]

theorem SKIPNONWHITE_at_sep (E : Env) (x : List Char)
    (hx : ∀ c cs, x = c :: cs → isSep E c = true) : SKIPNONWHITE E x = x := by
  cases x with
  | nil => rfl
  | cons c cs => exact SKIPNONWHITE_cons_sep E c cs (hx c cs rfl)

theorem SKIPWHITE_at_token (E : Env) (t x : List Char) (ht : ∀ c ∈ t, isSep E c = false)
    (h0 : t ≠ []) : SKIPWHITE E (t ++ x) = t ++ x := by
  cases t with
  | nil => exact absurd rfl h0
  | cons a as => exact SKIPWHITE_cons_nonsep E a _ (ht a (List.mem_cons_self a as))

theorem seps_append_head (E : Env) (s x : List Char) (hs : ∀ c ∈ s, isSep E c = true)
    (h0 : s ≠ []) : ∀ c cs, s ++ x = c :: cs → isSep E c = true := by
  intro c cs h
  cases s with
  | nil => exact absurd rfl h0
  | cons a as =>
    rw [List.cons_append] at h
    rw [← (List.cons.inj h).1]
    exact hs a (List.mem_cons_self a as)

theorem seps_head (E : Env) (s : List Char) (hs : ∀ c ∈ s, isSep E c = true) :
    ∀ c cs, s = c :: cs → isSep E c = true := by
  intro c cs h
  rw [h] at hs
  exact hs c (List.mem_cons_self c cs)

/-- C6. For every relationship kind and every field made of a name token
(not starting with `(`), a run of separators, a token for which
`rpmParseDSFlags` gives a nonzero sense mask, and then only separators up to
the end, `parseRCPOT` returns failure with the diagnostic "Version required"
and emits nothing; the same holds for the loop entered at such a text with
any store and pending diagnostic, that is, when the term is not the first of
its field. -/
theorem version_required (E : Env) (tagN : rpmTagVal) (index : Int) (tagflags : Nat)
    (lead name gap op trail : List Char)
    (hlead : ∀ c ∈ lead, isSep E c = true)
    (hname : ∀ c ∈ name, isSep E c = false) (hname0 : name ≠ [])
    (hparen : name.head? ≠ some '(')
    (hgap : ∀ c ∈ gap, isSep E c = true) (hgap0 : gap ≠ [])
    (hop : ∀ c ∈ op, isSep E c = false) (hop0 : op ≠ [])
    (hsense : E.rpmParseDSFlags op ≠ 0)
    (htrail : ∀ c ∈ trail, isSep E c = true) :
    (∀ pkg, parseRCPOT E pkg (lead ++ (name ++ (gap ++ (op ++ trail)))) tagN index tagflags =
      some { rc := RPMRC_FAIL, pkg := pkg, log := some (RPMLOG_ERR, msgVersionRequired),
             engineCalls := 0 }) ∧
    (∀ fuel st, parseLoop E (resolveTag E tagN tagflags).1 (resolveTag E tagN tagflags).2 index
        (fuel + 1) (lead ++ (name ++ (gap ++ (op ++ trail)))) st =
      some (RPMRC_FAIL, { st with emsg := some msgVersionRequired })) := by
  have hr1 : SKIPWHITE E (lead ++ (name ++ (gap ++ (op ++ trail))))
      = name ++ (gap ++ (op ++ trail)) := by
    rw [SKIPWHITE_append_seps E _ _ hlead, SKIPWHITE_at_token E _ _ hname hname0]
  have hne : SKIPWHITE E (lead ++ (name ++ (gap ++ (op ++ trail)))) ≠ [] := by
    rw [hr1]
    intro h
    exact hname0 (List.append_eq_nil.1 h).1
  have hterm : (SKIPWHITE E (lead ++ (name ++ (gap ++ (op ++ trail))))).head? ≠ some '(' := by
    rw [hr1]
    cases name with
    | nil => exact absurd rfl hname0
    | cons a as => exact hparen
  have hafter : afterToken E (name ++ (gap ++ (op ++ trail))) = op ++ trail := by
    unfold afterToken
    rw [SKIPNONWHITE_append_token E _ _ hname,
      SKIPNONWHITE_at_sep E _ (seps_append_head E gap _ hgap hgap0),
      SKIPWHITE_append_seps E _ _ hgap, SKIPWHITE_at_token E _ _ hop hop0]
  have htok : tokenAt E (op ++ trail) = op := by
    rw [tokenAt_append_token E _ _ hop, tokenAt_at_sep E _ (seps_head E trail htrail),
      List.append_nil]
  have hafter2 : afterToken E (op ++ trail) = [] := by
    unfold afterToken
    rw [SKIPNONWHITE_append_token E _ _ hop,
      SKIPNONWHITE_at_sep E _ (seps_head E trail htrail), SKIPWHITE_seps E _ htrail]
  have hopne : op ++ trail ≠ [] := fun h => hop0 (List.append_eq_nil.1 h).1
  have hmiss : versionMissing E (SKIPWHITE E (lead ++ (name ++ (gap ++ (op ++ trail))))) := by
    rw [hr1]
    unfold versionMissing termSense
    rw [hafter, if_neg hopne, htok, hafter2]
    exact ⟨hsense, rfl⟩
  have hloop : ∀ fuel st,
      parseLoop E (resolveTag E tagN tagflags).1 (resolveTag E tagN tagflags).2 index
        (fuel + 1) (lead ++ (name ++ (gap ++ (op ++ trail)))) st =
      some (RPMRC_FAIL, { st with emsg := some msgVersionRequired }) := by
    intro fuel st
    rw [parseLoop_succ E tagN index tagflags fuel _ st hne,
      iteration_simple E tagN index tagflags _ st hterm, if_pos hmiss]
  refine ⟨?_, hloop⟩
  intro pkg
  unfold parseRCPOT parseRCPOTFuel
  simp only
  rw [hloop]
  rfl

/-- Witness of C6: the field `foo >=` of a requires declaration. -/
theorem version_required_witness :
    parseRCPOT demoEnv [] "foo >=".toList RPMTAG_REQUIREFLAGS 0 0 =
      some { rc := RPMRC_FAIL, pkg := [], log := some (RPMLOG_ERR, msgVersionRequired),
             engineCalls := 0 } :=
  (version_required demoEnv RPMTAG_REQUIREFLAGS 0 0 [] "foo".toList " ".toList ">=".toList []
    (by decide) (by decide) (by decide) (by decide) (by decide) (by decide) (by decide)
    (by decide) (by decide) (by decide)).1 []

/-! ## Rich dependencies -/

/-- An iteration whose cursor stands on `(`. -/
theorem iteration_rich (E : Env) (tagN : rpmTagVal) (index : Int) (tagflags : Nat)
    (r : List Char) (st : PState) (hrich : (SKIPWHITE E r).head? = some '(') :
    iteration E tagN index tagflags r st =
      if richAllowed (resolveTag E tagN tagflags).1 = false then
        Step.exit { st with emsg := some msgNoRich }
      else if (rpmrichParse E (SKIPWHITE E r) [] st.emsg).rc ≠ RPMRC_OK then
        Step.exit { st with emsg := (rpmrichParse E (SKIPWHITE E r) [] st.emsg).emsg,
                            engineCalls := st.engineCalls + 1 }
      else if E.addReqProvRejects st.pkg
          (richRecord E tagN index tagflags (SKIPWHITE E r) st.emsg) = true then
        Step.exit { st with emsg := some msgInvalidDep, engineCalls := st.engineCalls + 1 }
      else
        Step.next (rpmrichParse E (SKIPWHITE E r) [] st.emsg).r
          { pkg := st.pkg ++ [richRecord E tagN index tagflags (SKIPWHITE E r) st.emsg],
            emsg := (rpmrichParse E (SKIPWHITE E r) [] st.emsg).emsg,
            engineCalls := st.engineCalls + 1 } := by
  unfold iteration loopBody addReqProv
  rw [if_pos hrich]
  by_cases h1 : richAllowed (resolveTag E tagN tagflags).1 = false
  · simp only [h1, Bool.not_false, if_true]
  · have h1' : richAllowed (resolveTag E tagN tagflags).1 = true := by simpa using h1
    rw [if_neg h1]
    simp only [h1', Bool.not_true, Bool.false_eq_true, if_false]
    by_cases h2 : (rpmrichParse E (SKIPWHITE E r) [] st.emsg).rc ≠ RPMRC_OK
    · rw [if_pos h2, if_pos h2]
    · rw [if_neg h2, if_neg h2]
      by_cases h3 : E.addReqProvRejects st.pkg
          (richRecord E tagN index tagflags (SKIPWHITE E r) st.emsg) = true
      · rw [if_pos h3]
        have h3' : E.addReqProvRejects st.pkg
            { ds := { tagN := (resolveTag E tagN tagflags).1,
                      N := (rpmrichParse E (SKIPWHITE E r) [] st.emsg).sb, EVR := none,
                      Flags := ((resolveTag E tagN tagflags).2 &&& bnot32 E.RPMSENSE_SENSEMASK)
                        ||| E.RPMSENSE_RICH },
              index := index } = true := h3
        simp only [h3', if_true]
      · rw [if_neg h3]
        have h3' : E.addReqProvRejects st.pkg
            { ds := { tagN := (resolveTag E tagN tagflags).1,
                      N := (rpmrichParse E (SKIPWHITE E r) [] st.emsg).sb, EVR := none,
                      Flags := ((resolveTag E tagN tagflags).2 &&& bnot32 E.RPMSENSE_SENSEMASK)
                        ||| E.RPMSENSE_RICH },
              index := index } = false := by simpa using h3
        simp only [h3', Bool.false_eq_true, if_false]
        rfl

/-- What a successful `rpmrichParse` hands back: the text accumulated by the
callback over all invocations, and the cursor of the engine. -/
theorem rpmrichParse_ok (E : Env) (r sb : List Char) (emsg : Option String)
    (h : (rpmrichParse E r sb emsg).rc = RPMRC_OK) :
    (runRichCalls E (E.richEngine r).calls sb emsg).1 = RPMRC_OK ∧
    (E.richEngine r).rc = RPMRC_OK ∧
    (rpmrichParse E r sb emsg).r = (E.richEngine r).rest ∧
    (rpmrichParse E r sb emsg).sb = (runRichCalls E (E.richEngine r).calls sb emsg).2.1 ∧
    (rpmrichParse E r sb emsg).emsg = (runRichCalls E (E.richEngine r).calls sb emsg).2.2 := by
  unfold rpmrichParse at h ⊢
  simp only at h ⊢
  by_cases h1 : (runRichCalls E (E.richEngine r).calls sb emsg).1 ≠ RPMRC_OK
  · rw [if_pos h1] at h
    exact rpmRC.noConfusion h
  · rw [if_neg h1] at h ⊢
    by_cases h2 : (E.richEngine r).rc ≠ RPMRC_OK
    · rw [if_pos h2] at h
      exact rpmRC.noConfusion h
    · rw [if_neg h2]
      exact ⟨by simpa using h1, by simpa using h2, rfl, rfl, rfl⟩

/-- C7. Whenever the first non-separator character at the cursor is `(`,
the iteration exits with "No rich dependencies allowed for this type", with
no call to the grammar engine and the store untouched, if and only if the
resolved record category is not one of requires, conflicts, recommends,
supplements, suggests, enhances; and the kinds that resolve outside these six
are exactly provides, obsoletes, order and the ordinary, file and
transaction-file triggers (so not build-requires, build-conflicts or the
legacy pre-requires). -/
theorem rich_gating (E : Env) (tagN : rpmTagVal) (index : Int) (tagflags : Nat)
    (r : List Char) (st : PState) (hrich : (SKIPWHITE E r).head? = some '(') :
    ((∃ stf, iteration E tagN index tagflags r st = Step.exit stf ∧
          stf.emsg = some msgNoRich ∧ stf.engineCalls = st.engineCalls ∧ stf.pkg = st.pkg) ↔
      (resolveTag E tagN tagflags).1 ∉ [RPMTAG_REQUIRENAME, RPMTAG_CONFLICTNAME,
        RPMTAG_RECOMMENDNAME, RPMTAG_SUPPLEMENTNAME, RPMTAG_SUGGESTNAME, RPMTAG_ENHANCENAME]) ∧
    ((resolveTag E tagN tagflags).1 ∉ [RPMTAG_REQUIRENAME, RPMTAG_CONFLICTNAME,
        RPMTAG_RECOMMENDNAME, RPMTAG_SUPPLEMENTNAME, RPMTAG_SUGGESTNAME, RPMTAG_ENHANCENAME] ↔
      tagN ∈ [RPMTAG_PROVIDEFLAGS, RPMTAG_OBSOLETEFLAGS, RPMTAG_ORDERFLAGS,
        RPMTAG_TRIGGERPREIN, RPMTAG_TRIGGERIN, RPMTAG_TRIGGERPOSTUN, RPMTAG_TRIGGERUN,
        RPMTAG_FILETRIGGERIN, RPMTAG_FILETRIGGERUN, RPMTAG_FILETRIGGERPOSTUN,
        RPMTAG_TRANSFILETRIGGERIN, RPMTAG_TRANSFILETRIGGERUN,
        RPMTAG_TRANSFILETRIGGERPOSTUN]) := by
  have hallow : richAllowed (resolveTag E tagN tagflags).1 = false ↔
      (resolveTag E tagN tagflags).1 ∉ [RPMTAG_REQUIRENAME, RPMTAG_CONFLICTNAME,
        RPMTAG_RECOMMENDNAME, RPMTAG_SUPPLEMENTNAME, RPMTAG_SUGGESTNAME, RPMTAG_ENHANCENAME] := by
    generalize (resolveTag E tagN tagflags).1 = nt
    cases nt <;> simp [richAllowed]
  refine ⟨?_, ?_⟩
  · rw [← hallow, iteration_rich E tagN index tagflags r st hrich]
    by_cases h1 : richAllowed (resolveTag E tagN tagflags).1 = false
    · rw [if_pos h1]
      exact ⟨fun _ => h1, fun _ => ⟨_, rfl, rfl, rfl, rfl⟩⟩
    · rw [if_neg h1]
      refine ⟨?_, fun h => absurd h h1⟩
      rintro ⟨stf, h, -, hcalls, -⟩
      exfalso
      split at h
      · simp only [Step.exit.injEq] at h
        rw [← h] at hcalls
        simp at hcalls
      · split at h
        · simp only [Step.exit.injEq] at h
          rw [← h] at hcalls
          simp at hcalls
        · exact Step.noConfusion h
  · cases tagN <;> simp [resolveTag]

/-- Witness of C7: a rich expression in an order declaration. -/
theorem rich_gating_witness :
    ∃ stf, iteration demoEnv RPMTAG_ORDERFLAGS 0 0 demoRichText
        { pkg := [], emsg := none, engineCalls := 0 } = Step.exit stf ∧
      stf.emsg = some msgNoRich ∧ stf.engineCalls = 0 ∧ stf.pkg = [] :=
  (rich_gating demoEnv RPMTAG_ORDERFLAGS 0 0 demoRichText
    { pkg := [], emsg := none, engineCalls := 0 } (by decide)).1.2 (by decide)

/-- C3, as the code has it. When the cursor stands on `(`, the kind allows
rich dependencies, `rpmrichParse` succeeds and the store accepts the record,
the iteration emits exactly one record: its name is the text accumulated by
the callback over the invocations of the engine, it has no version, and its
flags are the base flags with the sense-mask bits cleared, plus the implicit
flags of the kind, plus `RPMSENSE_RICH` (the implicit flags lying outside the
sense mask). The loop goes on at the cursor the engine hands back. -/
theorem rich_record (E : Env) (tagN : rpmTagVal) (index : Int) (base : Nat)
    (r : List Char) (st : PState)
    (hdisj : implicitFlags E tagN &&& E.RPMSENSE_SENSEMASK = 0)
    (h32 : implicitFlags E tagN < 2 ^ 32)
    (hrich : (SKIPWHITE E r).head? = some '(')
    (hallowed : richAllowed (resolveTag E tagN base).1 = true)
    (hok : (rpmrichParse E (SKIPWHITE E r) [] st.emsg).rc = RPMRC_OK)
    (hstore : E.addReqProvRejects st.pkg (richRecord E tagN index base (SKIPWHITE E r) st.emsg)
      = false) :
    iteration E tagN index base r st =
      Step.next (E.richEngine (SKIPWHITE E r)).rest
        { pkg := st.pkg ++ [richRecord E tagN index base (SKIPWHITE E r) st.emsg],
          emsg := (runRichCalls E (E.richEngine (SKIPWHITE E r)).calls [] st.emsg).2.2,
          engineCalls := st.engineCalls + 1 } ∧
    (richRecord E tagN index base (SKIPWHITE E r) st.emsg).ds.N =
      (runRichCalls E (E.richEngine (SKIPWHITE E r)).calls [] st.emsg).2.1 ∧
    (richRecord E tagN index base (SKIPWHITE E r) st.emsg).ds.EVR = none ∧
    (richRecord E tagN index base (SKIPWHITE E r) st.emsg).ds.Flags =
      (base &&& bnot32 E.RPMSENSE_SENSEMASK) ||| implicitFlags E tagN ||| E.RPMSENSE_RICH := by
  obtain ⟨-, -, hr, hsb, hem⟩ := rpmrichParse_ok E _ _ _ hok
  refine ⟨?_, hsb, rfl, ?_⟩
  · rw [iteration_rich E tagN index base r st hrich, if_neg (by rw [hallowed]; decide),
      if_neg (by rw [hok]; exact fun h => h rfl), if_neg (by rw [hstore]; decide), hr, hem]
  · show ((resolveTag E tagN base).2 &&& bnot32 E.RPMSENSE_SENSEMASK) ||| E.RPMSENSE_RICH = _
    rw [resolveTag_flags, flags_clear_merge base _ _ _ hdisj h32, Nat.or_assoc, Nat.or_assoc,
      Nat.or_comm E.RPMSENSE_RICH]

/-- Witness of C3 as the code has it: the expression
`(A and (B >= 1.0 or C))` in a legacy pre-requires declaration. -/
theorem rich_record_witness :
    iteration demoEnv RPMTAG_PREREQ 0 0 demoRichText { pkg := [], emsg := none, engineCalls := 0 }
      = Step.next []
        { pkg := [⟨⟨RPMTAG_REQUIRENAME, demoRichText, none, 2560 ||| 536870912⟩, 0⟩],
          emsg := none, engineCalls := 1 } :=
  (rich_record demoEnv RPMTAG_PREREQ 0 0 demoRichText { pkg := [], emsg := none, engineCalls := 0 }
    (by decide) (by decide) (by decide) (by decide) (by decide) (by decide)).1.trans (by decide)

/-- C3 fails as stated: for the requires field `(A and (B >= 1.0 or C))` the
one record emitted has the expression text as its name and no version. -/
theorem rich_record_version_absent :
    parseRCPOT demoEnv [] demoRichText RPMTAG_REQUIREFLAGS 0 0 =
      some ⟨RPMRC_OK, [⟨⟨RPMTAG_REQUIRENAME, demoRichText, none, 536870912⟩, 0⟩], none, 1⟩ ∧
    (∀ o, parseRCPOT demoEnv [] demoRichText RPMTAG_REQUIREFLAGS 0 0 = some o →
      o.pkg.map (fun rp => rp.ds.EVR) ≠ [some demoRichText]) := by
  have h : parseRCPOT demoEnv [] demoRichText RPMTAG_REQUIREFLAGS 0 0 =
      some ⟨RPMRC_OK, [⟨⟨RPMTAG_REQUIRENAME, demoRichText, none, 536870912⟩, 0⟩], none, 1⟩ := by
    decide
  refine ⟨h, ?_⟩
  intro o ho
  rw [h] at ho
  rw [← Option.some.inj ho]
  decide

/-! ## Separator equivalence -/

theorem SepVariant_nil_iff (E : Env) (a b : List Char) (h : SepVariant E a b) :
    a = [] ↔ b = [] := by
  cases h with
  | nil => exact ⟨fun _ => rfl, fun _ => rfl⟩
  | tok c a b hc hab => simp
  | run s1 s2 a b h1 h2 hs1 hs2 hab => simp [h1, h2]

theorem SepVariant_SKIPWHITE (E : Env) (a b : List Char) (h : SepVariant E a b) :
    SepVariant E (SKIPWHITE E a) (SKIPWHITE E b) := by
  induction h with
  | nil => exact SepVariant.nil
  | tok c a b hc hab _ =>
    rw [SKIPWHITE_cons_nonsep E c a hc, SKIPWHITE_cons_nonsep E c b hc]
    exact SepVariant.tok c a b hc hab
  | run s1 s2 a b h1 h2 hs1 hs2 _ ih =>
    rw [SKIPWHITE_append_seps E s1 a hs1, SKIPWHITE_append_seps E s2 b hs2]
    exact ih

theorem SepVariant_SKIPWHITE_head (E : Env) (a b : List Char) (h : SepVariant E a b) :
    (SKIPWHITE E a).head? = (SKIPWHITE E b).head? := by
  induction h with
  | nil => rfl
  | tok c a b hc hab _ =>
    rw [SKIPWHITE_cons_nonsep E c a hc, SKIPWHITE_cons_nonsep E c b hc]
    rfl
  | run s1 s2 a b h1 h2 hs1 hs2 _ ih =>
    rw [SKIPWHITE_append_seps E s1 a hs1, SKIPWHITE_append_seps E s2 b hs2]
    exact ih

theorem SepVariant_SKIPNONWHITE (E : Env) (a b : List Char) (h : SepVariant E a b) :
    SepVariant E (SKIPNONWHITE E a) (SKIPNONWHITE E b) ∧ tokenAt E a = tokenAt E b := by
  induction h with
  | nil => exact ⟨SepVariant.nil, rfl⟩
  | tok c a b hc hab ih =>
    rw [SKIPNONWHITE_cons_nonsep E c a hc, SKIPNONWHITE_cons_nonsep E c b hc]
    refine ⟨ih.1, ?_⟩
    have h1 := tokenAt_append_token E [c] a (by simpa using hc)
    have h2 := tokenAt_append_token E [c] b (by simpa using hc)
    simp only [List.singleton_append] at h1 h2
    rw [h1, h2, ih.2]
  | run s1 s2 a b h1 h2 hs1 hs2 hab _ =>
    rw [SKIPNONWHITE_at_sep E _ (seps_append_head E s1 a hs1 h1),
      SKIPNONWHITE_at_sep E _ (seps_append_head E s2 b hs2 h2),
      tokenAt_at_sep E _ (seps_append_head E s1 a hs1 h1),
      tokenAt_at_sep E _ (seps_append_head E s2 b hs2 h2)]
    exact ⟨SepVariant.run s1 s2 a b h1 h2 hs1 hs2 hab, rfl⟩

theorem SepVariant_afterToken (E : Env) (a b : List Char) (h : SepVariant E a b) :
    SepVariant E (afterToken E a) (afterToken E b) :=
  SepVariant_SKIPWHITE E _ _ (SepVariant_SKIPNONWHITE E a b h).1

/-- The term read at a cursor is the same for two texts that differ only in
their separator runs, and the cursors behind it differ only so. -/
theorem SepVariant_term (E : Env) (a b : List Char) (h : SepVariant E a b) :
    tokenAt E a = tokenAt E b ∧ termSense E a = termSense E b ∧
    termEVR E a = termEVR E b ∧ (versionMissing E a ↔ versionMissing E b) ∧
    SepVariant E (termNext E a) (termNext E b) := by
  have h1 := SepVariant_afterToken E a b h
  have h2 := SepVariant_afterToken E _ _ h1
  have hs : termSense E a = termSense E b := by
    unfold termSense
    by_cases he : afterToken E a = []
    · rw [if_pos he, if_pos ((SepVariant_nil_iff E _ _ h1).1 he)]
    · rw [if_neg he, if_neg (fun hb => he ((SepVariant_nil_iff E _ _ h1).2 hb)),
        (SepVariant_SKIPNONWHITE E _ _ h1).2]
  refine ⟨(SepVariant_SKIPNONWHITE E a b h).2, hs, ?_, ?_, ?_⟩
  · unfold termEVR
    rw [hs, (SepVariant_SKIPNONWHITE E _ _ h2).2]
  · unfold versionMissing
    rw [hs, SepVariant_nil_iff E _ _ h2]
  · unfold termNext
    rw [hs]
    by_cases h0 : termSense E b ≠ 0
    · rw [if_pos h0, if_pos h0]
      exact (SepVariant_SKIPNONWHITE E _ _ h2).1
    · rw [if_neg h0, if_neg h0]
      exact h1

theorem richFree_SKIPNONWHITE (E : Env) (r : List Char) :
    ∀ b, richFree E b r = true → richFree E true (SKIPNONWHITE E r) = true := by
  induction r with
  | nil => intro b _; rfl
  | cons c cs ih =>
    intro b h
    by_cases hc : isSep E c = true
    · rw [SKIPNONWHITE_cons_sep E c cs hc]
      unfold richFree at h ⊢
      rw [if_pos hc] at h ⊢
      exact h
    · have hc' : isSep E c = false := by simpa using hc
      rw [SKIPNONWHITE_cons_nonsep E c cs hc']
      unfold richFree at h
      rw [if_neg hc] at h
      exact ih false (Bool.and_eq_true_iff.1 h).2

theorem richFree_SKIPWHITE (E : Env) (r : List Char) (h : richFree E true r = true) :
    richFree E true (SKIPWHITE E r) = true := by
  induction r with
  | nil => rfl
  | cons c cs ih =>
    by_cases hc : isSep E c = true
    · rw [SKIPWHITE_cons_sep E c cs hc]
      unfold richFree at h
      rw [if_pos hc] at h
      exact ih h
    · have hc' : isSep E c = false := by simpa using hc
      rw [SKIPWHITE_cons_nonsep E c cs hc']
      exact h

theorem richFree_afterToken (E : Env) (r : List Char) (b : Bool)
    (h : richFree E b r = true) : richFree E true (afterToken E r) = true :=
  richFree_SKIPWHITE E _ (richFree_SKIPNONWHITE E r b h)

theorem richFree_termNext (E : Env) (r : List Char) (b : Bool)
    (h : richFree E b r = true) : richFree E true (termNext E r) = true := by
  unfold termNext
  split
  · exact richFree_SKIPNONWHITE E _ true
      (richFree_afterToken E _ true (richFree_afterToken E r b h))
  · exact richFree_afterToken E r b h

/-- In a text without a token that begins with `(`, the cursor after
`SKIPWHITE` does not stand on `(`. -/
theorem richFree_head (E : Env) (r : List Char) (h : richFree E true r = true) :
    (SKIPWHITE E r).head? ≠ some '(' := by
  have h1 := richFree_SKIPWHITE E r h
  cases hr : SKIPWHITE E r with
  | nil => simp
  | cons c cs =>
    have hc := SKIPWHITE_head E r c cs hr
    rw [hr] at h1
    unfold richFree at h1
    rw [if_neg (by rw [hc]; decide)] at h1
    have h2 := (Bool.and_eq_true_iff.1 h1).1
    intro hp
    simp only [List.head?_cons, Option.some.injEq] at hp
    rw [hp] at h2
    exact absurd h2 (by decide)

theorem afterToken_length_le (E : Env) (r : List Char) :
    (afterToken E r).length ≤ (SKIPNONWHITE E r).length :=
  SKIPWHITE_length_le E _

/-- Progress: behind a term the cursor is strictly further than at it. -/
theorem termNext_length_lt (E : Env) (r : List Char) (hne : SKIPWHITE E r ≠ []) :
    (termNext E (SKIPWHITE E r)).length < (SKIPWHITE E r).length := by
  have h1 := (SKIPNONWHITE_lt_iff E r).2 hne
  have h2 := afterToken_length_le E (SKIPWHITE E r)
  have h3 := afterToken_length_le E (afterToken E (SKIPWHITE E r))
  have h4 := SKIPNONWHITE_length_le E (afterToken E (SKIPWHITE E r))
  have h5 := SKIPNONWHITE_length_le E (afterToken E (afterToken E (SKIPWHITE E r)))
  unfold termNext
  split <;> omega

/-- The way the tail of the loop body ends does not depend on the cursor it
hands to the next iteration. -/
theorem simpleTail_re (E : Env) (nametag : rpmTagVal) (tagflags : Nat) (index : Int)
    (N : List Char) (EVR : Option (List Char)) (Flags : Nat) (re re1 : List Char)
    (st : PState) :
    (∀ s, simpleTail E nametag tagflags index N EVR Flags re st = Step.exit s →
      simpleTail E nametag tagflags index N EVR Flags re1 st = Step.exit s) ∧
    (∀ x s, simpleTail E nametag tagflags index N EVR Flags re st = Step.next x s →
      x = re ∧ simpleTail E nametag tagflags index N EVR Flags re1 st = Step.next re1 s) := by
  rw [simpleTail_eq, simpleTail_eq]
  split
  · exact ⟨fun s h => h, fun x s h => Step.noConfusion h⟩
  · split
    · exact ⟨fun s h => h, fun x s h => Step.noConfusion h⟩
    · split
      · exact ⟨fun s h => h, fun x s h => Step.noConfusion h⟩
      · refine ⟨fun s h => Step.noConfusion h, fun x s h => ?_⟩
        simp only [Step.next.injEq] at h
        rw [← h.1, ← h.2]
        exact ⟨rfl, rfl⟩

/-- On two texts that differ only in their separator runs and have no token
beginning with `(`, the loop ends, and ends the same way in the same state,
whenever each has more iterations allowed than it has bytes. -/
theorem parseLoop_SepVariant (E : Env) (tagN : rpmTagVal) (index : Int) (tagflags : Nat) :
    ∀ (n : Nat) (a b : List Char) (st : PState) (f1 f2 : Nat),
      a.length ≤ n → SepVariant E a b → richFree E true a = true →
      a.length < f1 → b.length < f2 →
      parseLoop E (resolveTag E tagN tagflags).1 (resolveTag E tagN tagflags).2 index f1 a st
        = parseLoop E (resolveTag E tagN tagflags).1 (resolveTag E tagN tagflags).2 index f2 b st
      ∧ (parseLoop E (resolveTag E tagN tagflags).1 (resolveTag E tagN tagflags).2 index
          f1 a st).isSome = true := by
  intro n
  induction n with
  | zero =>
    intro a b st f1 f2 hn hab _ hf1 hf2
    have ha : a = [] := List.length_eq_zero.1 (Nat.le_zero.1 hn)
    have hb : b = [] := (SepVariant_nil_iff E a b hab).1 ha
    subst ha
    subst hb
    obtain ⟨g1, rfl⟩ : ∃ g, f1 = g + 1 := ⟨f1 - 1, by omega⟩
    obtain ⟨g2, rfl⟩ : ∃ g, f2 = g + 1 := ⟨f2 - 1, by omega⟩
    rw [parseLoop_done E _ _ _ g1 [] st rfl, parseLoop_done E _ _ _ g2 [] st rfl]
    exact ⟨rfl, rfl⟩
  | succ n ih =>
    intro a b st f1 f2 hn hab hfree hf1 hf2
    obtain ⟨g1, rfl⟩ : ∃ g, f1 = g + 1 := ⟨f1 - 1, by omega⟩
    obtain ⟨g2, rfl⟩ : ∃ g, f2 = g + 1 := ⟨f2 - 1, by omega⟩
    have hw := SepVariant_SKIPWHITE E a b hab
    by_cases he : SKIPWHITE E a = []
    · have heb : SKIPWHITE E b = [] := (SepVariant_nil_iff E _ _ hw).1 he
      rw [parseLoop_done E _ _ _ g1 a st he, parseLoop_done E _ _ _ g2 b st heb]
      exact ⟨rfl, rfl⟩
    · have heb : SKIPWHITE E b ≠ [] := fun h => he ((SepVariant_nil_iff E _ _ hw).2 h)
      have hta := richFree_head E a hfree
      have htb : (SKIPWHITE E b).head? ≠ some '(' := by
        rw [← SepVariant_SKIPWHITE_head E a b hab]
        exact hta
      obtain ⟨hN, hS, hV, hM, hNext⟩ := SepVariant_term E _ _ hw
      rw [parseLoop_succ E tagN index tagflags g1 a st he,
        parseLoop_succ E tagN index tagflags g2 b st heb,
        iteration_simple E tagN index tagflags a st hta,
        iteration_simple E tagN index tagflags b st htb]
      by_cases hm : versionMissing E (SKIPWHITE E a)
      · rw [if_pos hm, if_pos (hM.1 hm)]
        exact ⟨rfl, rfl⟩
      · rw [if_neg hm, if_neg (fun h => hm (hM.2 h)), ← hN, ← hS, ← hV]
        have hre := simpleTail_re E (resolveTag E tagN tagflags).1 (resolveTag E tagN tagflags).2
          index (tokenAt E (SKIPWHITE E a)) (termEVR E (SKIPWHITE E a))
          (((resolveTag E tagN tagflags).2 &&& bnot32 E.RPMSENSE_SENSEMASK)
            ||| termSense E (SKIPWHITE E a))
          (termNext E (SKIPWHITE E a)) (termNext E (SKIPWHITE E b)) st
        cases hst : simpleTail E (resolveTag E tagN tagflags).1 (resolveTag E tagN tagflags).2
          index (tokenAt E (SKIPWHITE E a)) (termEVR E (SKIPWHITE E a))
          (((resolveTag E tagN tagflags).2 &&& bnot32 E.RPMSENSE_SENSEMASK)
            ||| termSense E (SKIPWHITE E a))
          (termNext E (SKIPWHITE E a)) st with
        | exit s =>
          rw [hre.1 s hst]
          exact ⟨rfl, rfl⟩
        | next x s =>
          obtain ⟨hx, hb⟩ := hre.2 x s hst
          rw [hb]
          subst hx
          have hlt := termNext_length_lt E a he
          have hltb := termNext_length_lt E b heb
          have hla := SKIPWHITE_length_le E a
          have hlb := SKIPWHITE_length_le E b
          exact ih (termNext E (SKIPWHITE E a)) (termNext E (SKIPWHITE E b)) s g1 g2
            (by omega) hNext
            (richFree_termNext E _ true (richFree_SKIPWHITE E a hfree)) (by omega) (by omega)

/-- C8. Separator equivalence: for every relationship kind, every base flag
word, every store and every two fields that differ only in that non-empty
runs of separators are replaced by non-empty runs of separators, where no
token begins with `(`, `parseRCPOT` returns, and returns the same for both:
the same status, the same store (so the same records emitted in the same
order) and the same diagnostic. -/
theorem separator_equivalence (E : Env) (pkg : Package) (f1 f2 : List Char)
    (tagN : rpmTagVal) (index : Int) (tagflags : Nat)
    (hvar : SepVariant E f1 f2) (hfree : richFree E true f1 = true) :
    parseRCPOT E pkg f1 tagN index tagflags = parseRCPOT E pkg f2 tagN index tagflags ∧
    ∃ out, parseRCPOT E pkg f1 tagN index tagflags = some out := by
  have h := parseLoop_SepVariant E tagN index tagflags f1.length f1 f2
    { pkg := pkg, emsg := none, engineCalls := 0 } (f1.length + 1) (f2.length + 1)
    (Nat.le_refl _) hvar hfree (Nat.lt_succ_self _) (Nat.lt_succ_self _)
  unfold parseRCPOT parseRCPOTFuel
  simp only
  rw [← h.1]
  refine ⟨rfl, ?_⟩
  obtain ⟨x, hx⟩ := Option.isSome_iff_exists.1 h.2
  exact ⟨atExit x, by rw [hx]; rfl⟩

/-- Witness of C8: the requires fields `a >= 1, b` and `a<TAB>>=,,1 b`. -/
theorem separator_equivalence_witness :
    (parseRCPOT demoEnv [] "a >= 1, b".toList RPMTAG_REQUIREFLAGS 0 0
      = parseRCPOT demoEnv [] "a\t>=,,1 b".toList RPMTAG_REQUIREFLAGS 0 0 ∧
    ∃ out, parseRCPOT demoEnv [] "a >= 1, b".toList RPMTAG_REQUIREFLAGS 0 0 = some out) ∧
    parseRCPOT demoEnv [] "a\t>=,,1 b".toList RPMTAG_REQUIREFLAGS 0 0 =
      some ⟨RPMRC_OK, [⟨⟨RPMTAG_REQUIRENAME, ['a'], some ['1'], 12⟩, 0⟩,
        ⟨⟨RPMTAG_REQUIRENAME, ['b'], none, 0⟩, 0⟩], none, 0⟩ :=
  ⟨separator_equivalence demoEnv [] "a >= 1, b".toList "a\t>=,,1 b".toList
    RPMTAG_REQUIREFLAGS 0 0
    (SepVariant.tok 'a' _ _ (by decide)
      (SepVariant.run [' '] ['\t'] _ _ (by decide) (by decide) (by decide) (by decide)
        (SepVariant.tok '>' _ _ (by decide)
          (SepVariant.tok '=' _ _ (by decide)
            (SepVariant.run [' '] [',', ','] _ _ (by decide) (by decide) (by decide) (by decide)
              (SepVariant.tok '1' _ _ (by decide)
                (SepVariant.run [',', ' '] [' '] _ _ (by decide) (by decide) (by decide)
                  (by decide)
                  (SepVariant.tok 'b' _ _ (by decide) SepVariant.nil))))))))
    (by decide),
   by decide⟩

/-! ## No rollback, no emission past a failure -/

/-- An iteration that goes on to the next has added exactly one record. -/
theorem iteration_next_emits (E : Env) (tagN : rpmTagVal) (index : Int) (tagflags : Nat)
    (r re : List Char) (st st1 : PState)
    (h : iteration E tagN index tagflags r st = Step.next re st1) :
    ∃ rp, st1.pkg = st.pkg ++ [rp] := by
  by_cases hrich : (SKIPWHITE E r).head? = some '('
  · rw [iteration_rich E tagN index tagflags r st hrich] at h
    split at h
    · exact Step.noConfusion h
    · split at h
      · exact Step.noConfusion h
      · split at h
        · exact Step.noConfusion h
        · simp only [Step.next.injEq] at h
          exact ⟨_, by rw [← h.2]⟩
  · rw [iteration_simple E tagN index tagflags r st hrich] at h
    split at h
    · exact Step.noConfusion h
    · exact ⟨_, (simpleTail_next E _ _ _ _ _ _ _ _ _ _ h).2.1⟩

/-- An iteration that exits leaves the store as it was. -/
theorem iteration_exit_pkg (E : Env) (tagN : rpmTagVal) (index : Int) (tagflags : Nat)
    (r : List Char) (st stf : PState)
    (h : iteration E tagN index tagflags r st = Step.exit stf) : stf.pkg = st.pkg := by
  by_cases hrich : (SKIPWHITE E r).head? = some '('
  · rw [iteration_rich E tagN index tagflags r st hrich] at h
    split at h
    · simp only [Step.exit.injEq] at h
      rw [← h]
    · split at h
      · simp only [Step.exit.injEq] at h
        rw [← h]
      · split at h
        · simp only [Step.exit.injEq] at h
          rw [← h]
        · exact Step.noConfusion h
  · rw [iteration_simple E tagN index tagflags r st hrich] at h
    split at h
    · simp only [Step.exit.injEq] at h
      rw [← h]
    · exact (simpleTail_exit E _ _ _ _ _ _ _ _ _ h).1

/-- A loop that ends in failure went through iterations that each emitted
one record, up to an iteration that exits. -/
theorem parseLoop_fail_trace (E : Env) (tagN : rpmTagVal) (index : Int) (tagflags : Nat) :
    ∀ (fuel : Nat) (r : List Char) (st stf : PState),
      parseLoop E (resolveTag E tagN tagflags).1 (resolveTag E tagN tagflags).2 index fuel r st
        = some (RPMRC_FAIL, stf) →
      ∃ rps r1 st1, Emits E tagN index tagflags r st rps r1 st1 ∧
        SKIPWHITE E r1 ≠ [] ∧
        iteration E tagN index tagflags r1 st1 = Step.exit stf ∧
        st1.pkg = st.pkg ++ rps ∧ stf.pkg = st1.pkg := by
  intro fuel
  induction fuel with
  | zero =>
    intro r st stf h
    rw [parseLoop] at h
    exact Option.noConfusion h
  | succ fuel ih =>
    intro r st stf h
    by_cases he : SKIPWHITE E r = []
    · rw [parseLoop_done E _ _ _ fuel r st he] at h
      simp only [Option.some.injEq, Prod.mk.injEq, reduceCtorEq, false_and] at h
    · rw [parseLoop_succ E tagN index tagflags fuel r st he] at h
      cases hit : iteration E tagN index tagflags r st with
      | exit s =>
        rw [hit] at h
        simp only [Option.some.injEq, Prod.mk.injEq, true_and] at h
        subst h
        exact ⟨[], r, st, Emits.done r st, he, hit, by simp,
          iteration_exit_pkg E tagN index tagflags r st s hit⟩
      | next re s =>
        rw [hit] at h
        simp only at h
        obtain ⟨rps, r1, st1, hem, hne, hex, hpkg, hf⟩ := ih re s stf h
        obtain ⟨rp, hrp⟩ := iteration_next_emits E tagN index tagflags r re st s hit
        refine ⟨rp :: rps, r1, st1, Emits.step r st re s rp rps r1 st1 he hit hrp hem, hne, hex,
          ?_, hf⟩
        rw [hpkg, hrp, List.append_assoc]
        rfl

/-- C9. No rollback and no emission past a failure: whenever `parseRCPOT`
returns failure on a field, the call went through iterations on the terms
before the failing one, each of which added exactly one record, and then
through an iteration that exits without touching the store; the store
afterwards is the store before the call extended by exactly those records,
in the order of the terms. -/
theorem no_rollback (E : Env) (pkg : Package) (field : List Char) (tagN : rpmTagVal)
    (index : Int) (tagflags : Nat) (out : Outcome)
    (h : parseRCPOT E pkg field tagN index tagflags = some out)
    (hfail : out.rc = RPMRC_FAIL) :
    ∃ rps r st stf,
      Emits E tagN index tagflags field { pkg := pkg, emsg := none, engineCalls := 0 } rps r st ∧
      SKIPWHITE E r ≠ [] ∧
      iteration E tagN index tagflags r st = Step.exit stf ∧
      st.pkg = pkg ++ rps ∧ stf.pkg = st.pkg ∧ out.pkg = pkg ++ rps := by
  unfold parseRCPOT parseRCPOTFuel at h
  simp only at h
  cases hl : parseLoop E (resolveTag E tagN tagflags).1 (resolveTag E tagN tagflags).2 index
      (field.length + 1) field { pkg := pkg, emsg := none, engineCalls := 0 } with
  | none =>
    rw [hl] at h
    exact Option.noConfusion h
  | some res =>
    rw [hl] at h
    simp only [Option.map_some', Option.some.injEq] at h
    obtain ⟨rc, stf⟩ := res
    subst h
    have hrc : rc = RPMRC_FAIL := hfail
    subst hrc
    obtain ⟨rps, r1, st1, hem, hne, hex, hpkg, hf⟩ :=
      parseLoop_fail_trace E tagN index tagflags _ _ _ _ hl
    exact ⟨rps, r1, st1, stf, hem, hne, hex, hpkg, hf, by
      show stf.pkg = pkg ++ rps
      rw [hf, hpkg]⟩

/-- Witness of C9: the requires field `a, foo >=` fails on its second term
and leaves the record of `a` in the store. -/
theorem no_rollback_witness :
    ∃ rps r st stf,
      Emits demoEnv RPMTAG_REQUIREFLAGS 0 0 "a, foo >=".toList
        { pkg := [], emsg := none, engineCalls := 0 } rps r st ∧
      SKIPWHITE demoEnv r ≠ [] ∧
      iteration demoEnv RPMTAG_REQUIREFLAGS 0 0 r st = Step.exit stf ∧
      st.pkg = [] ++ rps ∧ stf.pkg = st.pkg ∧
      (⟨RPMRC_FAIL, [⟨⟨RPMTAG_REQUIRENAME, ['a'], none, 0⟩, 0⟩],
        some (RPMLOG_ERR, msgVersionRequired), 0⟩ : Outcome).pkg = [] ++ rps :=
  no_rollback demoEnv [] "a, foo >=".toList RPMTAG_REQUIREFLAGS 0 0
    ⟨RPMRC_FAIL, [⟨⟨RPMTAG_REQUIRENAME, ['a'], none, 0⟩, 0⟩],
      some (RPMLOG_ERR, msgVersionRequired), 0⟩
    (by decide) rfl

/-! ## Name start and version characters -/

theorem checkDep_none (E : Env) (N : List Char) (emsg : Option String) :
    checkDep E N none emsg =
      if badStart E N = true then (RPMRC_FAIL, some msgTokenStart) else (RPMRC_OK, emsg) := by
  unfold checkDep badStart
  simp only

theorem checkDep_some (E : Env) (N v : List Char) (emsg : Option String)
    (hstart : badStart E N = false) (hslash : N.headD (Char.ofNat 0) ≠ '/') :
    checkDep E N (some v) emsg =
      if E.rpmCharCheck v evrWhitelist ≠ RPMRC_OK then (RPMRC_FAIL, emsg)
      else (RPMRC_OK,
        if 2 ≤ v.count ':' then some (msgDoubleSep ':' v)
        else if 2 ≤ v.count '-' then some (msgDoubleSep '-' v) else emsg) := by
  have hs : (N.headD (Char.ofNat 0) == '/') = false := by simpa using hslash
  have hb : (isascii (N.headD (Char.ofNat 0)) &&
      !(E.risalnum (N.headD (Char.ofNat 0)) || N.headD (Char.ofNat 0) == '_'
        || N.headD (Char.ofNat 0) == '/')) = false := hstart
  simp only [checkDep, hb]
  simp only [hs, checkSep_eq, Bool.false_eq_true, if_false]
  by_cases h : E.rpmCharCheck v evrWhitelist ≠ RPMRC_OK
  · rw [if_pos h, if_pos h]
  · rw [if_neg h, if_neg h]
    simp

/-- C11. Name start validation, with `risalnum` accepting the ASCII letters
and digits: for every name and no version, `checkDep` returns success if and
only if the name has a first byte and that byte is non-ASCII, an ASCII letter
or digit, `_` or `/`; success leaves the pending diagnostic as it was, and
every rejection carries the "must begin with alpha-numeric, '_' or '/'"
diagnostic. -/
theorem checkDep_name_start (E : Env) (N : List Char) (emsg : Option String)
    (hal : ∀ c, E.risalnum c = asciiAlnum c) :
    ((checkDep E N none emsg).1 = RPMRC_OK ↔
      ∃ c, N.head? = some c ∧ (128 ≤ c.toNat ∨ asciiAlnum c = true ∨ c = '_' ∨ c = '/')) ∧
    ((checkDep E N none emsg).1 = RPMRC_OK → checkDep E N none emsg = (RPMRC_OK, emsg)) ∧
    ((checkDep E N none emsg).1 ≠ RPMRC_OK →
      checkDep E N none emsg = (RPMRC_FAIL, some msgTokenStart)) := by
  rw [checkDep_none]
  have hbad : badStart E N = true ↔
      ¬ ∃ c, N.head? = some c ∧ (128 ≤ c.toNat ∨ asciiAlnum c = true ∨ c = '_' ∨ c = '/') := by
    cases N with
    | nil =>
      have h0 : badStart E [] = true := by
        unfold badStart
        rw [hal]
        decide
      simp [h0]
    | cons c cs =>
      unfold badStart
      rw [hal]
      simp only [List.headD_cons, List.head?_cons, Option.some.injEq, exists_eq_left', isascii]
      by_cases h1 : c.toNat < 128 <;> by_cases h3 : c = '_' <;> by_cases h4 : c = '/' <;>
        cases h2 : asciiAlnum c <;> simp [h1, h3, h4]
  by_cases hb : badStart E N = true
  · rw [if_pos hb]
    refine ⟨⟨fun h => rpmRC.noConfusion h, fun h => absurd h (hbad.1 hb)⟩,
      fun h => rpmRC.noConfusion h, fun _ => rfl⟩
  · rw [if_neg hb]
    refine ⟨⟨fun _ => ?_, fun _ => rfl⟩, fun _ => rfl, fun h => absurd rfl h⟩
    by_contra hne
    exact hb (hbad.2 hne)

/-- Witness of C11: `_foo` and `/bin/foo` validate, `#foo` fails with the
start-character diagnostic. -/
theorem checkDep_name_start_witness :
    checkDep demoEnv "_foo".toList none none = (RPMRC_OK, none) ∧
    checkDep demoEnv "/bin/foo".toList none none = (RPMRC_OK, none) ∧
    checkDep demoEnv "#foo".toList none none = (RPMRC_FAIL, some msgTokenStart) :=
  ⟨(checkDep_name_start demoEnv "_foo".toList none (fun _ => rfl)).2.1 (by decide),
   (checkDep_name_start demoEnv "/bin/foo".toList none (fun _ => rfl)).2.1 (by decide),
   (checkDep_name_start demoEnv "#foo".toList none (fun _ => rfl)).2.2 (by decide)⟩

/-- C13. Version character validation, with `rpmCharCheck` as the
specification describes it: for every name that passes the name-start rule
and does not begin with `/`, `checkDep` returns success and leaves the pending
diagnostic as it was (none, if there was none) when the version consists only
of alphanumerics and the characters `. - _ + : % { } ~` with at most one `-`
and at most one `:`, and returns failure when the version contains a
character outside that set. -/
theorem version_characters (E : Env) (N v : List Char) (emsg : Option String)
    (hcc : ∀ f w, E.rpmCharCheck f w = rpmCharCheckSpec E f w)
    (hstart : badStart E N = false) (hslash : N.headD (Char.ofNat 0) ≠ '/') :
    ((∀ c ∈ v, E.risalnum c = true ∨ c ∈ evrWhitelist) → v.count '-' ≤ 1 → v.count ':' ≤ 1 →
      checkDep E N (some v) emsg = (RPMRC_OK, emsg)) ∧
    ((∃ c ∈ v, E.risalnum c = false ∧ c ∉ evrWhitelist) →
      (checkDep E N (some v) emsg).1 = RPMRC_FAIL) := by
  rw [checkDep_some E N v emsg hstart hslash, hcc]
  unfold rpmCharCheckSpec
  constructor
  · intro hall h1 h2
    have ha : v.all (fun c => E.risalnum c || evrWhitelist.contains c) = true := by
      rw [List.all_eq_true]
      intro c hc
      rcases hall c hc with h | h
      · simp [h]
      · have hm : evrWhitelist.contains c = true := List.elem_eq_true_of_mem h
        rw [hm, Bool.or_true]
    rw [if_pos ha, if_neg (fun h => h rfl), if_neg (by omega), if_neg (by omega)]
  · rintro ⟨c, hc, hal, hw⟩
    have ha : ¬ v.all (fun c => E.risalnum c || evrWhitelist.contains c) = true := by
      rw [List.all_eq_true]
      intro hall
      have := hall c hc
      rw [hal, Bool.false_or] at this
      exact hw (List.mem_of_elem_eq_true this)
    rw [if_neg ha, if_pos (by decide)]

/-- Witness of C13: `1.0-1:2~rc1` validates without a diagnostic, `1.0#1`
fails. -/
theorem version_characters_witness :
    checkDep demoEnv "foo".toList (some "1.0-1:2~rc1".toList) none = (RPMRC_OK, none) ∧
    (checkDep demoEnv "foo".toList (some "1.0#1".toList) none).1 = RPMRC_FAIL :=
  ⟨(version_characters demoEnv "foo".toList "1.0-1:2~rc1".toList none (fun _ _ => rfl)
      (by decide) (by decide)).1 (by decide) (by decide) (by decide),
   (version_characters demoEnv "foo".toList "1.0#1".toList none (fun _ _ => rfl)
      (by decide) (by decide)).2 ⟨'#', by decide, by decide, by decide⟩⟩

/-! ## The callback of the rich parser -/

/-- What one invocation of the callback appends to the buffer. -/
theorem parseRCPOTRichCB_sb (E : Env) (c : RichCall) (sb : List Char) (emsg : Option String) :
    (parseRCPOTRichCB E c sb emsg).2.1 = sb ++ renderCall E c := by
  unfold parseRCPOTRichCB renderCall relText relSymbols
  cases c.type with
  | RPMRICH_PARSE_ENTER => rfl
  | RPMRICH_PARSE_LEAVE => rfl
  | RPMRICH_PARSE_OP => simp
  | RPMRICH_PARSE_SIMPLE =>
    by_cases he : c.e = []
    · simp [he]
    · have hl : c.e.length ≠ 0 := fun h => he (List.length_eq_zero.1 h)
      simp [he, hl]

/-- The return code of one invocation of the callback. -/
theorem parseRCPOTRichCB_rc (E : Env) (c : RichCall) (sb : List Char) (emsg : Option String) :
    (parseRCPOTRichCB E c sb emsg).1 =
      if c.type = RPMRICH_PARSE_SIMPLE then
        (checkDep E c.n (if c.e.length ≠ 0 then some c.e else none) emsg).1
      else RPMRC_OK := by
  unfold parseRCPOTRichCB
  cases c.type with
  | RPMRICH_PARSE_ENTER => rfl
  | RPMRICH_PARSE_LEAVE => rfl
  | RPMRICH_PARSE_OP => rfl
  | RPMRICH_PARSE_SIMPLE =>
    by_cases hl : c.e.length ≠ 0
    · simp only [hl, ne_eq, not_false_eq_true, if_true]
    · simp only [hl, if_false, if_true]

/-- C12. Rich reserialization: for every sequence of callback events whose
simple terms all validate (every invocation returns `RPMRC_OK`), the text
accumulated by `parseRCPOTRichCB` is the text before it followed by the
in-order concatenation of `(` per enter event, `)` per leave event, space,
operator keyword, space per operator event, and per simple term the name
followed, when a version is given, by one space, the relational symbols
selected by the sense bits in the order `<`, `>`, `=`, one space, and the
version. -/
theorem rich_reserialization (E : Env) (calls : List RichCall) (sb : List Char)
    (emsg : Option String) (h : (runRichCalls E calls sb emsg).1 = RPMRC_OK) :
    (runRichCalls E calls sb emsg).2.1 = sb ++ renderCalls E calls := by
  induction calls generalizing sb emsg with
  | nil => simp [runRichCalls, renderCalls]
  | cons c cs ih =>
    unfold runRichCalls at h ⊢
    simp only at h ⊢
    by_cases hc : (parseRCPOTRichCB E c sb emsg).1 ≠ RPMRC_OK
    · rw [if_pos hc] at h
      exact rpmRC.noConfusion h
    · rw [if_neg hc] at h ⊢
      rw [ih _ _ h, parseRCPOTRichCB_sb]
      simp [renderCalls]

/-- Witness of C12: the events of `(A and (B >= 1.0 or C))` accumulate
exactly that text. -/
theorem rich_reserialization_witness :
    (runRichCalls demoEnv demoRichCalls [] none).2.1 = "(A and (B >= 1.0 or C))".toList :=
  (rich_reserialization demoEnv demoRichCalls [] none (by decide)).trans (by decide)

/-! ## The legacy pre-requires kind -/

theorem or_and_self_right (x y : Nat) : (x ||| y) &&& y = y := by
  apply Nat.eq_of_testBit_eq
  intro i
  simp only [Nat.testBit_and, Nat.testBit_or]
  cases x.testBit i <;> cases y.testBit i <;> rfl

theorem implicitFlags_PREREQ (E : Env) :
    implicitFlags E RPMTAG_PREREQ = E.RPMSENSE_SCRIPT_PRE ||| E.RPMSENSE_SCRIPT_PREUN := by
  simp [implicitFlags, resolveTag]

/-- C14, as the code has it. The switch maps the legacy pre-requires kind to
the requires record category and ORs into the flags of the declaration the
pre-install-script and the pre-uninstall-script bits (`RPMSENSE_SCRIPT_PRE`
and `RPMSENSE_SCRIPT_PREUN`); when these two bits lie outside the sense mask
and in the 32-bit word, the record of every simple term and of every rich
expression of that kind is a requires record that carries both. -/
theorem prereq_resolution (E : Env) (index : Int) (base : Nat) (r : List Char)
    (emsg : Option String)
    (hdisj : (E.RPMSENSE_SCRIPT_PRE ||| E.RPMSENSE_SCRIPT_PREUN) &&& E.RPMSENSE_SENSEMASK = 0)
    (h32 : E.RPMSENSE_SCRIPT_PRE ||| E.RPMSENSE_SCRIPT_PREUN < 2 ^ 32) :
    resolveTag E RPMTAG_PREREQ base =
      (RPMTAG_REQUIRENAME, base ||| (E.RPMSENSE_SCRIPT_PRE ||| E.RPMSENSE_SCRIPT_PREUN)) ∧
    (termRecord E RPMTAG_PREREQ index base r).ds.tagN = RPMTAG_REQUIRENAME ∧
    (termRecord E RPMTAG_PREREQ index base r).ds.Flags &&&
        (E.RPMSENSE_SCRIPT_PRE ||| E.RPMSENSE_SCRIPT_PREUN)
      = E.RPMSENSE_SCRIPT_PRE ||| E.RPMSENSE_SCRIPT_PREUN ∧
    (richRecord E RPMTAG_PREREQ index base r emsg).ds.tagN = RPMTAG_REQUIRENAME ∧
    (richRecord E RPMTAG_PREREQ index base r emsg).ds.Flags &&&
        (E.RPMSENSE_SCRIPT_PRE ||| E.RPMSENSE_SCRIPT_PREUN)
      = E.RPMSENSE_SCRIPT_PRE ||| E.RPMSENSE_SCRIPT_PREUN := by
  refine ⟨rfl, rfl, ?_, rfl, ?_⟩
  · show (((base ||| (E.RPMSENSE_SCRIPT_PRE ||| E.RPMSENSE_SCRIPT_PREUN))
        &&& bnot32 E.RPMSENSE_SENSEMASK) ||| termSense E r) &&& _ = _
    rw [flags_clear_merge base _ _ _ hdisj h32, or_and_self_right]
  · show (((base ||| (E.RPMSENSE_SCRIPT_PRE ||| E.RPMSENSE_SCRIPT_PREUN))
        &&& bnot32 E.RPMSENSE_SENSEMASK) ||| E.RPMSENSE_RICH) &&& _ = _
    rw [flags_clear_merge base _ _ _ hdisj h32, or_and_self_right]

/-- Witness of C14 as the code has it: the term `foo` of a legacy
pre-requires field with base flags 64. -/
theorem prereq_resolution_witness :
    resolveTag demoEnv RPMTAG_PREREQ 64 = (RPMTAG_REQUIRENAME, 64 ||| (512 ||| 2048)) ∧
    (termRecord demoEnv RPMTAG_PREREQ 0 64 "foo".toList).ds.Flags &&& (512 ||| 2048)
      = 512 ||| 2048 :=
  ⟨(prereq_resolution demoEnv 0 64 "foo".toList none (by decide) (by decide)).1,
   (prereq_resolution demoEnv 0 64 "foo".toList none (by decide) (by decide)).2.2.1⟩

/-- C14 fails as stated: with the post-uninstall-script bit a bit of its own
(4096), the legacy pre-requires field `foo` yields a requires record whose
flags are the pre-install and pre-uninstall script bits (512 and 2048) and do
not carry the post-uninstall one. -/
theorem prereq_no_postun :
    parseRCPOT demoEnv [] "foo".toList RPMTAG_PREREQ 0 0 =
      some ⟨RPMRC_OK, [⟨⟨RPMTAG_REQUIRENAME, "foo".toList, none, 2560⟩, 0⟩], none, 0⟩ ∧
    (resolveTag demoEnv RPMTAG_PREREQ 0).2 =
      demoEnv.RPMSENSE_SCRIPT_PRE ||| demoEnv.RPMSENSE_SCRIPT_PREUN ∧
    (resolveTag demoEnv RPMTAG_PREREQ 0).2 &&& demoEnv.RPMSENSE_SCRIPT_POSTUN = 0 ∧
    2560 &&& demoEnv.RPMSENSE_SCRIPT_POSTUN = 0 := by
  decide

/-! ## Failure of a rich expression -/

theorem rpmrichParse_rc (E : Env) (r sb : List Char) (emsg : Option String) :
    (rpmrichParse E r sb emsg).rc = RPMRC_OK ↔
      (runRichCalls E (E.richEngine r).calls sb emsg).1 = RPMRC_OK ∧
      (E.richEngine r).rc = RPMRC_OK := by
  constructor
  · intro h
    obtain ⟨h1, h2, -⟩ := rpmrichParse_ok E r sb emsg h
    exact ⟨h1, h2⟩
  · rintro ⟨h1, h2⟩
    unfold rpmrichParse
    simp only
    rw [if_neg (by rw [h1]; exact fun h => h rfl), if_neg (by rw [h2]; exact fun h => h rfl)]

/-- C16. Rich-expression failure is all-or-nothing. The callback returns
failure for a simple-term event exactly when `checkDep` fails on the name and
version of the term (and never for another event); `rpmrichParse` succeeds
exactly when no callback invocation fails and the engine itself succeeds;
and whenever it returns failure, the iteration exits, so `parseRCPOT` returns
failure, with the store as it was: no record for the expression, whatever
text had been accumulated. -/
theorem rich_failure (E : Env) (tagN : rpmTagVal) (index : Int) (tagflags : Nat)
    (r : List Char) (st : PState)
    (hrich : (SKIPWHITE E r).head? = some '(')
    (hallowed : richAllowed (resolveTag E tagN tagflags).1 = true)
    (hfail : (rpmrichParse E (SKIPWHITE E r) [] st.emsg).rc ≠ RPMRC_OK) :
    (∀ c sb emsg,
      ((parseRCPOTRichCB E c sb emsg).1 ≠ RPMRC_OK ↔
        c.type = RPMRICH_PARSE_SIMPLE ∧
        (checkDep E c.n (if c.e.length ≠ 0 then some c.e else none) emsg).1 ≠ RPMRC_OK)) ∧
    ((rpmrichParse E (SKIPWHITE E r) [] st.emsg).rc = RPMRC_OK ↔
      (runRichCalls E (E.richEngine (SKIPWHITE E r)).calls [] st.emsg).1 = RPMRC_OK ∧
      (E.richEngine (SKIPWHITE E r)).rc = RPMRC_OK) ∧
    iteration E tagN index tagflags r st =
      Step.exit { pkg := st.pkg, emsg := (rpmrichParse E (SKIPWHITE E r) [] st.emsg).emsg,
                  engineCalls := st.engineCalls + 1 } ∧
    ∀ fuel, parseLoop E (resolveTag E tagN tagflags).1 (resolveTag E tagN tagflags).2 index
        (fuel + 1) r st =
      some (RPMRC_FAIL,
        { pkg := st.pkg, emsg := (rpmrichParse E (SKIPWHITE E r) [] st.emsg).emsg,
          engineCalls := st.engineCalls + 1 }) := by
  have hne : SKIPWHITE E r ≠ [] := by
    intro h
    rw [h] at hrich
    exact Option.noConfusion hrich
  have hit : iteration E tagN index tagflags r st =
      Step.exit { pkg := st.pkg, emsg := (rpmrichParse E (SKIPWHITE E r) [] st.emsg).emsg,
                  engineCalls := st.engineCalls + 1 } := by
    rw [iteration_rich E tagN index tagflags r st hrich, if_neg (by rw [hallowed]; decide),
      if_pos hfail]
  refine ⟨?_, rpmrichParse_rc E _ _ _, hit, ?_⟩
  · intro c sb emsg
    rw [parseRCPOTRichCB_rc]
    by_cases ht : c.type = RPMRICH_PARSE_SIMPLE
    · rw [if_pos ht]
      exact ⟨fun h => ⟨ht, h⟩, fun h => h.2⟩
    · rw [if_neg ht]
      exact ⟨fun h => absurd rfl h, fun h => absurd h.1 ht⟩
  · intro fuel
    rw [parseLoop_succ E tagN index tagflags fuel r st hne, hit]

/-- Witness of C16: for the requires field `(A and #b)` the callback fails on
`#b` after `(A and #b` has been accumulated; the iteration exits with the
start-character diagnostic and an empty store. -/
theorem rich_failure_witness :
    (rpmrichParse demoBadEnv "(A and #b)".toList [] none).sb = "(A and #b".toList ∧
    iteration demoBadEnv RPMTAG_REQUIREFLAGS 0 0 "(A and #b)".toList
        { pkg := [], emsg := none, engineCalls := 0 } =
      Step.exit { pkg := [], emsg := some msgTokenStart, engineCalls := 1 } :=
  ⟨by decide,
   (rich_failure demoBadEnv RPMTAG_REQUIREFLAGS 0 0 "(A and #b)".toList
      { pkg := [], emsg := none, engineCalls := 0 }
      (by decide) (by decide) (by decide)).2.2.1.trans (by decide)⟩

/-! ## Version and sense bits -/

theorem flags_and_mask (tf m s : Nat) (hs : s &&& m = s) :
    ((tf &&& bnot32 m) ||| s) &&& m = s := by
  apply Nat.eq_of_testBit_eq
  intro i
  have h1 : s.testBit i = (s.testBit i && m.testBit i) := by
    conv_lhs => rw [← hs]
    rw [Nat.testBit_and]
  simp only [Nat.testBit_or, Nat.testBit_and, bnot32, Nat.testBit_xor,
    Nat.testBit_two_pow_sub_one, Nat.testBit_mod_two_pow]
  rw [h1]
  cases tf.testBit i <;> cases s.testBit i <;> cases m.testBit i <;>
    cases decide (i < 32) <;> rfl

/-- C19. Version/sense coupling: provided `rpmParseDSFlags` only returns
bits inside the sense mask, the record that an iteration emits from a simple
term has a version if and only if its flags have a sense-mask bit set; the
sense-mask bits of its flags are exactly the bits parsed from the operator,
so a record without a version carries none, whatever the base flags. -/
theorem version_sense_coupling (E : Env) (tagN : rpmTagVal) (index : Int) (base : Nat)
    (r re : List Char) (st st1 : PState)
    (htok : ∀ t, E.rpmParseDSFlags t &&& E.RPMSENSE_SENSEMASK = E.rpmParseDSFlags t)
    (hterm : (SKIPWHITE E r).head? ≠ some '(')
    (hnext : iteration E tagN index base r st = Step.next re st1) :
    st1.pkg = st.pkg ++ [termRecord E tagN index base (SKIPWHITE E r)] ∧
    ((termRecord E tagN index base (SKIPWHITE E r)).ds.EVR.isSome = true ↔
      (termRecord E tagN index base (SKIPWHITE E r)).ds.Flags &&& E.RPMSENSE_SENSEMASK ≠ 0) ∧
    (termRecord E tagN index base (SKIPWHITE E r)).ds.Flags &&& E.RPMSENSE_SENSEMASK
      = termSense E (SKIPWHITE E r) ∧
    ((termRecord E tagN index base (SKIPWHITE E r)).ds.EVR = none →
      (termRecord E tagN index base (SKIPWHITE E r)).ds.Flags &&& E.RPMSENSE_SENSEMASK = 0) := by
  rw [iteration_simple E tagN index base r st hterm] at hnext
  split at hnext
  · exact Step.noConfusion hnext
  · obtain ⟨-, hpkg, -, -⟩ := simpleTail_next E _ _ _ _ _ _ _ _ _ _ hnext
    have hs : termSense E (SKIPWHITE E r) &&& E.RPMSENSE_SENSEMASK
        = termSense E (SKIPWHITE E r) := by
      unfold termSense
      split
      · simp
      · exact htok _
    have hfl : (termRecord E tagN index base (SKIPWHITE E r)).ds.Flags &&& E.RPMSENSE_SENSEMASK
        = termSense E (SKIPWHITE E r) :=
      flags_and_mask _ _ _ hs
    have hevr : (termRecord E tagN index base (SKIPWHITE E r)).ds.EVR
        = termEVR E (SKIPWHITE E r) := rfl
    refine ⟨hpkg, ?_, hfl, ?_⟩
    · rw [hfl, hevr]
      unfold termEVR
      by_cases h0 : termSense E (SKIPWHITE E r) ≠ 0
      · rw [if_pos h0]
        exact ⟨fun _ => h0, fun _ => rfl⟩
      · rw [if_neg h0]
        exact ⟨fun h => Bool.noConfusion h, fun h => absurd h h0⟩
    · rw [hfl, hevr]
      unfold termEVR
      by_cases h0 : termSense E (SKIPWHITE E r) ≠ 0
      · rw [if_pos h0]
        intro h
        exact Option.noConfusion h
      · rw [if_neg h0]
        intro _
        exact not_not.1 h0

/-- Witness of C19: the term `foo` of a requires field whose base flags
carry the comparison bits 2 and 8 besides the bit 64. -/
theorem version_sense_coupling_witness :
    (termRecord demoEnv RPMTAG_REQUIREFLAGS 0 74 "foo".toList).ds.EVR = none ∧
    (termRecord demoEnv RPMTAG_REQUIREFLAGS 0 74 "foo".toList).ds.Flags &&& 15 = 0 :=
  ⟨by decide,
   (version_sense_coupling demoEnv RPMTAG_REQUIREFLAGS 0 74 "foo".toList []
      { pkg := [], emsg := none, engineCalls := 0 }
      { pkg := [termRecord demoEnv RPMTAG_REQUIREFLAGS 0 74 "foo".toList], emsg := none,
        engineCalls := 0 }
      (fun t => by
        show demoParseDSFlags t &&& 15 = demoParseDSFlags t
        unfold demoParseDSFlags
        repeat' split
        all_goals rfl)
      (by decide) (by decide)).2.2.2 (by decide)⟩

/-! ## A term with a repeated separator in its version, by kind -/

/-- The term read off a text that starts with a name, an operator and a
version. -/
theorem term_shape_versioned (E : Env) (name gap op gap2 ver rest : List Char)
    (hname : ∀ c ∈ name, isSep E c = false)
    (hgap : ∀ c ∈ gap, isSep E c = true) (hgap0 : gap ≠ [])
    (hop : ∀ c ∈ op, isSep E c = false) (hop0 : op ≠ [])
    (hsense : E.rpmParseDSFlags op ≠ 0)
    (hgap2 : ∀ c ∈ gap2, isSep E c = true) (hgap20 : gap2 ≠ [])
    (hver : ∀ c ∈ ver, isSep E c = false) (hver0 : ver ≠ [])
    (hrest : ∀ c cs, rest = c :: cs → isSep E c = true) :
    tokenAt E (name ++ (gap ++ (op ++ (gap2 ++ (ver ++ rest))))) = name ∧
    termSense E (name ++ (gap ++ (op ++ (gap2 ++ (ver ++ rest))))) = E.rpmParseDSFlags op ∧
    termEVR E (name ++ (gap ++ (op ++ (gap2 ++ (ver ++ rest))))) = some ver ∧
    termNext E (name ++ (gap ++ (op ++ (gap2 ++ (ver ++ rest))))) = rest ∧
    ¬ versionMissing E (name ++ (gap ++ (op ++ (gap2 ++ (ver ++ rest))))) := by
  have htok : tokenAt E (name ++ (gap ++ (op ++ (gap2 ++ (ver ++ rest))))) = name := by
    rw [tokenAt_append_token E _ _ hname,
      tokenAt_at_sep E _ (seps_append_head E gap _ hgap hgap0), List.append_nil]
  have hafter : afterToken E (name ++ (gap ++ (op ++ (gap2 ++ (ver ++ rest)))))
      = op ++ (gap2 ++ (ver ++ rest)) := by
    unfold afterToken
    rw [SKIPNONWHITE_append_token E _ _ hname,
      SKIPNONWHITE_at_sep E _ (seps_append_head E gap _ hgap hgap0),
      SKIPWHITE_append_seps E _ _ hgap, SKIPWHITE_at_token E _ _ hop hop0]
  have hoptok : tokenAt E (op ++ (gap2 ++ (ver ++ rest))) = op := by
    rw [tokenAt_append_token E _ _ hop,
      tokenAt_at_sep E _ (seps_append_head E gap2 _ hgap2 hgap20), List.append_nil]
  have hafter2 : afterToken E (op ++ (gap2 ++ (ver ++ rest))) = ver ++ rest := by
    unfold afterToken
    rw [SKIPNONWHITE_append_token E _ _ hop,
      SKIPNONWHITE_at_sep E _ (seps_append_head E gap2 _ hgap2 hgap20),
      SKIPWHITE_append_seps E _ _ hgap2, SKIPWHITE_at_token E _ _ hver hver0]
  have hvertok : tokenAt E (ver ++ rest) = ver := by
    rw [tokenAt_append_token E _ _ hver, tokenAt_at_sep E _ hrest, List.append_nil]
  have hopne : op ++ (gap2 ++ (ver ++ rest)) ≠ [] := fun h => hop0 (List.append_eq_nil.1 h).1
  have hverne : ver ++ rest ≠ [] := fun h => hver0 (List.append_eq_nil.1 h).1
  have hs : termSense E (name ++ (gap ++ (op ++ (gap2 ++ (ver ++ rest)))))
      = E.rpmParseDSFlags op := by
    unfold termSense
    rw [hafter, if_neg hopne, hoptok]
  refine ⟨htok, hs, ?_, ?_, ?_⟩
  · unfold termEVR
    rw [hs, if_pos hsense, hafter, hafter2, hvertok]
  · unfold termNext
    rw [hs, if_pos hsense, hafter, hafter2, SKIPNONWHITE_append_token E _ _ hver,
      SKIPNONWHITE_at_sep E _ hrest]
  · unfold versionMissing
    rw [hafter, hafter2]
    exact fun h => hverne h.2

/-- C20. A pending diagnostic decides the outcome only for ordinary
triggers. Take a field of one term: a name that passes the name-start rule
and does not begin with `/` or `(`, an operator, and a version that passes
the character check but repeats `-` or `:`. With an ordinary-trigger kind
`parseRCPOT` returns failure, for every store (the empty one too), and emits
nothing. With any kind that does not resolve to the ordinary-trigger
category it returns success, once the store accepts the record, and emits
the record with that version, the diagnostic being logged as a warning. -/
theorem pending_diagnostic_by_kind (E : Env) (tagN : rpmTagVal) (index : Int) (base : Nat)
    (lead name gap op gap2 ver trail : List Char)
    (hlead : ∀ c ∈ lead, isSep E c = true)
    (hname : ∀ c ∈ name, isSep E c = false) (hname0 : name ≠ [])
    (hparen : name.head? ≠ some '(')
    (hgap : ∀ c ∈ gap, isSep E c = true) (hgap0 : gap ≠ [])
    (hop : ∀ c ∈ op, isSep E c = false) (hop0 : op ≠ [])
    (hsense : E.rpmParseDSFlags op ≠ 0)
    (hgap2 : ∀ c ∈ gap2, isSep E c = true) (hgap20 : gap2 ≠ [])
    (hver : ∀ c ∈ ver, isSep E c = false) (hver0 : ver ≠ [])
    (htrail : ∀ c ∈ trail, isSep E c = true)
    (hstart : badStart E name = false) (hslash : name.headD (Char.ofNat 0) ≠ '/')
    (hchars : E.rpmCharCheck ver evrWhitelist = RPMRC_OK)
    (hdouble : 2 ≤ ver.count '-' ∨ 2 ≤ ver.count ':') :
    (tagN ∈ [RPMTAG_TRIGGERPREIN, RPMTAG_TRIGGERIN, RPMTAG_TRIGGERPOSTUN, RPMTAG_TRIGGERUN] →
      ∀ pkg, ∃ m,
        parseRCPOT E pkg (lead ++ (name ++ (gap ++ (op ++ (gap2 ++ (ver ++ trail))))))
          tagN index base = some ⟨RPMRC_FAIL, pkg, some (RPMLOG_ERR, m), 0⟩) ∧
    ((resolveTag E tagN base).1 ≠ RPMTAG_TRIGGERNAME →
      ∀ pkg, E.addReqProvRejects pkg
          ⟨⟨(resolveTag E tagN base).1, name, some ver,
            ((resolveTag E tagN base).2 &&& bnot32 E.RPMSENSE_SENSEMASK)
              ||| E.rpmParseDSFlags op⟩, index⟩ = false →
        ∃ m,
          parseRCPOT E pkg (lead ++ (name ++ (gap ++ (op ++ (gap2 ++ (ver ++ trail))))))
            tagN index base =
            some ⟨RPMRC_OK,
              pkg ++ [⟨⟨(resolveTag E tagN base).1, name, some ver,
                ((resolveTag E tagN base).2 &&& bnot32 E.RPMSENSE_SENSEMASK)
                  ||| E.rpmParseDSFlags op⟩, index⟩],
              some (RPMLOG_WARNING, m), 0⟩) := by
  obtain ⟨htok, hs, hevr, hnext, hvm⟩ := term_shape_versioned E name gap op gap2 ver trail
    hname hgap hgap0 hop hop0 hsense hgap2 hgap20 hver hver0 (seps_head E trail htrail)
  have hr1 : SKIPWHITE E (lead ++ (name ++ (gap ++ (op ++ (gap2 ++ (ver ++ trail))))))
      = name ++ (gap ++ (op ++ (gap2 ++ (ver ++ trail)))) := by
    rw [SKIPWHITE_append_seps E _ _ hlead, SKIPWHITE_at_token E _ _ hname hname0]
  have hne : SKIPWHITE E (lead ++ (name ++ (gap ++ (op ++ (gap2 ++ (ver ++ trail)))))) ≠ [] := by
    rw [hr1]
    exact fun h => hname0 (List.append_eq_nil.1 h).1
  have hterm : (SKIPWHITE E (lead ++ (name ++ (gap ++ (op ++ (gap2 ++ (ver ++ trail))))))).head?
      ≠ some '(' := by
    rw [hr1]
    cases name with
    | nil => exact absurd rfl hname0
    | cons a as => exact hparen
  have hcd : ∀ e, checkDep E name (some ver) e =
      (RPMRC_OK, some (if 2 ≤ ver.count ':' then msgDoubleSep ':' ver
        else msgDoubleSep '-' ver)) := by
    intro e
    rw [checkDep_some E name ver e hstart hslash, if_neg (by rw [hchars]; exact fun h => h rfl)]
    by_cases h2 : 2 ≤ ver.count ':'
    · simp [h2]
    · have h1 : 2 ≤ ver.count '-' := by
        rcases hdouble with h | h
        · exact h
        · exact absurd h h2
      simp [h2, h1]
  obtain ⟨g, hg⟩ : ∃ g, (lead ++ (name ++ (gap ++ (op ++ (gap2 ++ (ver ++ trail)))))).length
      = g + 1 := by
    have hpos := List.length_pos.2 hname0
    refine ⟨(lead ++ (name ++ (gap ++ (op ++ (gap2 ++ (ver ++ trail)))))).length - 1, ?_⟩
    simp only [List.length_append]
    omega
  constructor
  · intro hkind pkg
    have hit := trigger_iteration_eq E tagN index base
      (lead ++ (name ++ (gap ++ (op ++ (gap2 ++ (ver ++ trail))))))
      { pkg := pkg, emsg := none, engineCalls := 0 } hkind hterm (by rw [hr1]; exact hvm) rfl
      (by rw [hr1, htok, hevr, hcd])
    rw [hr1, htok, hevr, hcd] at hit
    unfold parseRCPOT parseRCPOTFuel
    simp only
    rw [parseLoop_succ E tagN index base _ _ _ hne]
    split at hit
    · rw [hit]
      exact ⟨_, rfl⟩
    · simp only [Option.isSome_some, if_true] at hit
      rw [hit]
      exact ⟨_, rfl⟩
  · intro hnt pkg hstore
    have hit : iteration E tagN index base
        (lead ++ (name ++ (gap ++ (op ++ (gap2 ++ (ver ++ trail))))))
        { pkg := pkg, emsg := none, engineCalls := 0 } =
        Step.next trail
          { pkg := pkg ++ [⟨⟨(resolveTag E tagN base).1, name, some ver,
              ((resolveTag E tagN base).2 &&& bnot32 E.RPMSENSE_SENSEMASK)
                ||| E.rpmParseDSFlags op⟩, index⟩],
            emsg := fileTriggerCheck (resolveTag E tagN base).1 name
              (some (if 2 ≤ ver.count ':' then msgDoubleSep ':' ver
                else msgDoubleSep '-' ver)),
            engineCalls := 0 } := by
      rw [iteration_simple E tagN index base _ _ hterm, hr1, if_neg hvm, htok, hevr, hs, hnext,
        simpleTail_emit E _ _ _ _ _ _ _ _ (by rw [hcd]) hnt hstore, hcd]
    unfold parseRCPOT parseRCPOTFuel
    simp only
    rw [parseLoop_succ E tagN index base _ _ _ hne, hit, hg]
    simp only
    rw [parseLoop_done E _ _ _ g trail _ (SKIPWHITE_seps E trail htrail)]
    have hsome : ∃ m, fileTriggerCheck (resolveTag E tagN base).1 name
        (some (if 2 ≤ ver.count ':' then msgDoubleSep ':' ver else msgDoubleSep '-' ver))
        = some m := by
      unfold fileTriggerCheck
      split
      · exact ⟨_, rfl⟩
      · exact ⟨_, rfl⟩
    obtain ⟨m, hm⟩ := hsome
    exact ⟨m, by rw [hm]; rfl⟩

/-- Witness of C20: the field `foo >= 1.0-1-2` fails as a post-install
trigger on an empty store and succeeds, with a warning, as a requirement. -/
theorem pending_diagnostic_by_kind_witness :
    parseRCPOT demoEnv [] "foo >= 1.0-1-2".toList RPMTAG_TRIGGERIN 0 0 =
      some ⟨RPMRC_FAIL, [],
        some (RPMLOG_ERR, "Invalid version (double separator '-'): 1.0-1-2"), 0⟩ ∧
    parseRCPOT demoEnv [] "foo >= 1.0-1-2".toList RPMTAG_REQUIREFLAGS 0 0 =
      some ⟨RPMRC_OK, [⟨⟨RPMTAG_REQUIRENAME, "foo".toList, some "1.0-1-2".toList, 12⟩, 0⟩],
        some (RPMLOG_WARNING, "Invalid version (double separator '-'): 1.0-1-2"), 0⟩ ∧
    (∃ m, parseRCPOT demoEnv [] "foo >= 1.0-1-2".toList RPMTAG_TRIGGERIN 0 0 =
      some ⟨RPMRC_FAIL, [], some (RPMLOG_ERR, m), 0⟩) :=
  ⟨by decide, by decide,
   (pending_diagnostic_by_kind demoEnv RPMTAG_TRIGGERIN 0 0 [] "foo".toList " ".toList
      ">=".toList " ".toList "1.0-1-2".toList []
      (by decide) (by decide) (by decide) (by decide) (by decide) (by decide) (by decide)
      (by decide) (by decide) (by decide) (by decide) (by decide) (by decide) (by decide)
      (by decide) (by decide) (by decide) (by decide)).1 (by decide) []⟩

/-! ## Tokens -/

theorem tokens_cons_sep (E : Env) (c : Char) (cs : List Char) (h : isSep E c = true) :
    tokens E (c :: cs) = tokens E cs := by
  rw [tokens, if_pos h]

theorem tokenAt_cons_nonsep (E : Env) (c : Char) (cs : List Char) (h : isSep E c = false) :
    tokenAt E (c :: cs) = c :: tokenAt E cs := by
  have := tokenAt_append_token E [c] cs (by simpa using h)
  simpa using this

theorem tokens_cons_nonsep (E : Env) (cs : List Char) :
    ∀ c, isSep E c = false →
      tokens E (c :: cs) = (c :: tokenAt E cs) :: tokens E (SKIPNONWHITE E cs) := by
  induction cs with
  | nil =>
    intro c hc
    rw [tokens, if_neg (by rw [hc]; decide)]
    rfl
  | cons d ds ih =>
    intro c hc
    rw [tokens, if_neg (by rw [hc]; decide)]
    simp only [List.head?_cons]
    by_cases hd : isSep E d = true
    · rw [if_pos hd, tokenAt_at_sep E (d :: ds) (fun x xs h => by rw [← (List.cons.inj h).1]; exact hd),
        SKIPNONWHITE_cons_sep E d ds hd]
    · have hd' : isSep E d = false := by simpa using hd
      rw [if_neg hd, ih d hd', tokenAt_cons_nonsep E d ds hd', SKIPNONWHITE_cons_nonsep E d ds hd']

theorem tokens_SKIPWHITE (E : Env) (r : List Char) : tokens E (SKIPWHITE E r) = tokens E r := by
  induction r with
  | nil => rfl
  | cons c cs ih =>
    by_cases hc : isSep E c = true
    · rw [SKIPWHITE_cons_sep E c cs hc, tokens_cons_sep E c cs hc, ih]
    · have hc' : isSep E c = false := by simpa using hc
      rw [SKIPWHITE_cons_nonsep E c cs hc']

theorem tokens_nil (E : Env) (r : List Char) (he : SKIPWHITE E r = []) : tokens E r = [] := by
  rw [← tokens_SKIPWHITE, he]
  rfl

/-- The tokens of a text that still holds one: the token at the cursor, then
the tokens behind it. -/
theorem tokens_step (E : Env) (r : List Char) (hne : SKIPWHITE E r ≠ []) :
    tokens E r = tokenAt E (SKIPWHITE E r) :: tokens E (afterToken E (SKIPWHITE E r)) := by
  cases hr : SKIPWHITE E r with
  | nil => exact absurd hr hne
  | cons c cs =>
    have hc := SKIPWHITE_head E r c cs hr
    rw [← tokens_SKIPWHITE, hr, tokens_cons_nonsep E cs c hc, tokenAt_cons_nonsep E c cs hc]
    unfold afterToken
    rw [SKIPNONWHITE_cons_nonsep E c cs hc, tokens_SKIPWHITE]

theorem SKIPWHITE_idem (E : Env) (r : List Char) :
    SKIPWHITE E (SKIPWHITE E r) = SKIPWHITE E r := by
  cases hr : SKIPWHITE E r with
  | nil => rfl
  | cons c cs => exact SKIPWHITE_cons_nonsep E c cs (SKIPWHITE_head E r c cs hr)

/-- The token after the name, when there is one, is the second token of the
text. -/
theorem tokens_lookahead (E : Env) (r : List Char) (h : afterToken E r ≠ []) :
    tokens E (afterToken E r) =
      tokenAt E (afterToken E r) :: tokens E (afterToken E (afterToken E r)) := by
  have hi : SKIPWHITE E (afterToken E r) = afterToken E r := SKIPWHITE_idem E _
  have := tokens_step E (afterToken E r) (by rw [hi]; exact h)
  rw [hi] at this
  exact this

theorem tokenAt_head (E : Env) (r : List Char) (hne : SKIPWHITE E r ≠ []) :
    (tokenAt E (SKIPWHITE E r)).head? = (SKIPWHITE E r).head? := by
  cases hr : SKIPWHITE E r with
  | nil => exact absurd hr hne
  | cons c cs =>
    rw [tokenAt_cons_nonsep E c cs (SKIPWHITE_head E r c cs hr)]
    rfl

theorem checkDep_ok_start (E : Env) (N : List Char) (EVR : Option (List Char))
    (emsg : Option String) (h : (checkDep E N EVR emsg).1 = RPMRC_OK) :
    badStart E N = false := by
  by_contra hb
  have hb' : badStart E N = true := by simpa using hb
  rw [checkDep_fail_start E N EVR emsg hb'] at h
  exact rpmRC.noConfusion h

theorem fileTriggerCheck_absolute (nametag : rpmTagVal) (N : List Char) (emsg : Option String)
    (h : N.head? = some '/') : fileTriggerCheck nametag N emsg = emsg := by
  cases N with
  | nil => exact Option.noConfusion h
  | cons c cs =>
    simp only [List.head?_cons, Option.some.injEq] at h
    subst h
    unfold fileTriggerCheck
    simp

/-! ## Fields of plain names -/

/-- An iteration on a name whose lookahead is no operator, outside the
ordinary triggers: the plain record of the name is emitted, no diagnostic is
raised, and the loop goes on at the lookahead. -/
theorem iteration_plain (E : Env) (tagN : rpmTagVal) (index : Int) (base : Nat)
    (r : List Char) (st : PState)
    (hnt : (resolveTag E tagN base).1 ≠ RPMTAG_TRIGGERNAME)
    (hne : SKIPWHITE E r ≠ [])
    (hemsg : st.emsg = none)
    (htok : ∀ t ∈ tokens E r,
      t.head? ≠ some '(' ∧ E.rpmParseDSFlags t = 0 ∧ badStart E t = false)
    (hfile : (resolveTag E tagN base).1 = RPMTAG_FILETRIGGERNAME ∨
        (resolveTag E tagN base).1 = RPMTAG_TRANSFILETRIGGERNAME →
      ∀ t ∈ tokens E r, t.head? = some '/')
    (hstore : ∀ p rp, rp.ds.N ∈ tokens E r → E.addReqProvRejects p rp = false) :
    iteration E tagN index base r st =
      Step.next (afterToken E (SKIPWHITE E r))
        { pkg := st.pkg ++ [plainRecord E tagN index base (tokenAt E (SKIPWHITE E r))],
          emsg := none, engineCalls := st.engineCalls } := by
  have hts := tokens_step E r hne
  have hmem1 : tokenAt E (SKIPWHITE E r) ∈ tokens E r := by
    rw [hts]
    exact List.mem_cons_self _ _
  have hterm : (SKIPWHITE E r).head? ≠ some '(' := by
    rw [← tokenAt_head E r hne]
    exact (htok _ hmem1).1
  have hs : termSense E (SKIPWHITE E r) = 0 := by
    unfold termSense
    split
    · rfl
    · rename_i h
      have hmem2 : tokenAt E (afterToken E (SKIPWHITE E r)) ∈ tokens E r := by
        rw [hts, tokens_lookahead E _ h]
        exact List.mem_cons_of_mem _ (List.mem_cons_self _ _)
      exact (htok _ hmem2).2.1
  have hvm : ¬ versionMissing E (SKIPWHITE E r) := fun h => h.1 hs
  have hevr : termEVR E (SKIPWHITE E r) = none := by
    unfold termEVR
    rw [if_neg (fun h => h hs)]
  have hnext : termNext E (SKIPWHITE E r) = afterToken E (SKIPWHITE E r) := by
    unfold termNext
    rw [if_neg (fun h => h hs)]
  have hcd : checkDep E (tokenAt E (SKIPWHITE E r)) none st.emsg = (RPMRC_OK, none) := by
    rw [checkDep_none, if_neg (by rw [(htok _ hmem1).2.2]; decide), hemsg]
  have hft : fileTriggerCheck (resolveTag E tagN base).1 (tokenAt E (SKIPWHITE E r)) none
      = none := by
    by_cases hf : (resolveTag E tagN base).1 = RPMTAG_FILETRIGGERNAME ∨
        (resolveTag E tagN base).1 = RPMTAG_TRANSFILETRIGGERNAME
    · exact fileTriggerCheck_absolute _ _ _ (hfile hf _ hmem1)
    · exact fileTriggerCheck_other _ _ _ (fun h => hf (Or.inl h)) (fun h => hf (Or.inr h))
  have hst := hstore st.pkg (plainRecord E tagN index base (tokenAt E (SKIPWHITE E r))) hmem1
  rw [iteration_simple E tagN index base r st hterm, if_neg hvm, hevr, hs, hnext, Nat.or_zero,
    simpleTail_emit E (resolveTag E tagN base).1 (resolveTag E tagN base).2 index
      (tokenAt E (SKIPWHITE E r)) none _ _ st (by rw [hcd]) hnt hst, hcd, hft]
  rfl

/-- The loop on a text of plain names, outside the ordinary triggers. -/
theorem parseLoop_plain (E : Env) (tagN : rpmTagVal) (index : Int) (base : Nat)
    (hnt : (resolveTag E tagN base).1 ≠ RPMTAG_TRIGGERNAME) :
    ∀ (n : Nat) (r : List Char) (st : PState) (fuel : Nat),
      r.length ≤ n → r.length < fuel → st.emsg = none →
      (∀ t ∈ tokens E r, t.head? ≠ some '(' ∧ E.rpmParseDSFlags t = 0 ∧ badStart E t = false) →
      ((resolveTag E tagN base).1 = RPMTAG_FILETRIGGERNAME ∨
          (resolveTag E tagN base).1 = RPMTAG_TRANSFILETRIGGERNAME →
        ∀ t ∈ tokens E r, t.head? = some '/') →
      (∀ p rp, rp.ds.N ∈ tokens E r → E.addReqProvRejects p rp = false) →
      parseLoop E (resolveTag E tagN base).1 (resolveTag E tagN base).2 index fuel r st =
        some (RPMRC_OK,
          { pkg := st.pkg ++ (tokens E r).map (plainRecord E tagN index base),
            emsg := none, engineCalls := st.engineCalls }) := by
  intro n
  induction n with
  | zero =>
    intro r st fuel hn hf hemsg _ _ _
    have hr : r = [] := List.length_eq_zero.1 (Nat.le_zero.1 hn)
    subst hr
    obtain ⟨g, rfl⟩ : ∃ g, fuel = g + 1 := ⟨fuel - 1, by omega⟩
    rw [parseLoop_done E _ _ _ g [] st rfl]
    cases st
    simp only at hemsg
    subst hemsg
    simp [tokens]
  | succ n ih =>
    intro r st fuel hn hf hemsg htok hfile hstore
    obtain ⟨g, rfl⟩ : ∃ g, fuel = g + 1 := ⟨fuel - 1, by omega⟩
    by_cases he : SKIPWHITE E r = []
    · rw [parseLoop_done E _ _ _ g r st he, tokens_nil E r he]
      cases st
      simp only at hemsg
      subst hemsg
      simp
    · have hts := tokens_step E r he
      rw [parseLoop_succ E tagN index base g r st he,
        iteration_plain E tagN index base r st hnt he hemsg htok hfile hstore]
      simp only
      have hlt : (afterToken E (SKIPWHITE E r)).length < (SKIPWHITE E r).length := by
        have h1 := (SKIPNONWHITE_lt_iff E r).2 he
        have h2 := afterToken_length_le E (SKIPWHITE E r)
        omega
      have hle := SKIPWHITE_length_le E r
      have hsub : ∀ t, t ∈ tokens E (afterToken E (SKIPWHITE E r)) → t ∈ tokens E r := by
        intro t ht
        rw [hts]
        exact List.mem_cons_of_mem _ ht
      rw [ih (afterToken E (SKIPWHITE E r)) _ g (by omega) (by omega) rfl
        (fun t ht => htok t (hsub t ht))
        (fun hf' t ht => hfile hf' t (hsub t ht))
        (fun p rp hrp => hstore p rp (hsub _ hrp)), hts]
      simp [List.append_assoc]

/-- C15. Lookahead is not consumed when it is not an operator: for every
kind that does not resolve to the ordinary-trigger category and every field
whose tokens do not begin with `(`, are not recognised by `rpmParseDSFlags`,
all pass the name-start rule (and begin with `/` for the file-trigger and
transaction-file-trigger categories), the store accepting records with these
names, `parseRCPOT` succeeds without a diagnostic and emits exactly one record
per token, in token order: the i-th has the i-th token as its name, no
version, and the flags of the declaration after the switch with the
sense-mask bits cleared. -/
theorem lookahead_not_consumed (E : Env) (pkg : Package) (field : List Char)
    (tagN : rpmTagVal) (index : Int) (base : Nat)
    (hnt : (resolveTag E tagN base).1 ≠ RPMTAG_TRIGGERNAME)
    (htok : ∀ t ∈ tokens E field,
      t.head? ≠ some '(' ∧ E.rpmParseDSFlags t = 0 ∧ badStart E t = false)
    (hfile : (resolveTag E tagN base).1 = RPMTAG_FILETRIGGERNAME ∨
        (resolveTag E tagN base).1 = RPMTAG_TRANSFILETRIGGERNAME →
      ∀ t ∈ tokens E field, t.head? = some '/')
    (hstore : ∀ p rp, rp.ds.N ∈ tokens E field → E.addReqProvRejects p rp = false) :
    parseRCPOT E pkg field tagN index base =
      some ⟨RPMRC_OK, pkg ++ (tokens E field).map (plainRecord E tagN index base), none, 0⟩ := by
  unfold parseRCPOT parseRCPOTFuel
  simp only
  rw [parseLoop_plain E tagN index base hnt field.length field _ (field.length + 1)
    (Nat.le_refl _) (Nat.lt_succ_self _) rfl htok hfile hstore]
  rfl

/-- Witness of C15: the provides field `a, b  c` gives the three records of
`a`, `b` and `c`. -/
theorem lookahead_not_consumed_witness :
    parseRCPOT demoEnv [] "a, b  c".toList RPMTAG_PROVIDEFLAGS 7 79 =
      some ⟨RPMRC_OK,
        [⟨⟨RPMTAG_PROVIDENAME, ['a'], none, 64⟩, 7⟩, ⟨⟨RPMTAG_PROVIDENAME, ['b'], none, 64⟩, 7⟩,
          ⟨⟨RPMTAG_PROVIDENAME, ['c'], none, 64⟩, 7⟩], none, 0⟩ :=
  (lookahead_not_consumed demoEnv [] "a, b  c".toList RPMTAG_PROVIDEFLAGS 7 79
    (by decide) (by decide) (by decide) (fun _ _ _ => rfl)).trans (by decide)

/-! ## The names of the records, and termination -/

theorem nameInvariant_tokenAt (E : Env) (r : List Char) (hne : SKIPWHITE E r ≠ [])
    (hstart : badStart E (tokenAt E (SKIPWHITE E r)) = false) :
    nameInvariant E (tokenAt E (SKIPWHITE E r)) := by
  cases hr : SKIPWHITE E r with
  | nil => exact absurd hr hne
  | cons c cs =>
    have hc := SKIPWHITE_head E r c cs hr
    rw [hr, tokenAt_cons_nonsep E c cs hc] at hstart
    rw [tokenAt_cons_nonsep E c cs hc]
    refine ⟨fun h => List.noConfusion h, ?_, c, rfl, ?_⟩
    · intro x hx
      rw [← tokenAt_cons_nonsep E c cs hc] at hx
      have := List.mem_takeWhile_imp hx
      simpa using this
    · unfold badStart at hstart
      simp only [List.headD_cons] at hstart
      cases h1 : isascii c
      · exact Or.inl rfl
      · rw [h1, Bool.true_and] at hstart
        cases h2 : E.risalnum c
        · right; right
          rw [h2, Bool.false_or] at hstart
          by_cases h3 : c = '_'
          · exact Or.inl h3
          · by_cases h4 : c = '/'
            · exact Or.inr h4
            · have e3 : (c == '_') = false := beq_false_of_ne h3
              have e4 : (c == '/') = false := beq_false_of_ne h4
              rw [e3, e4] at hstart
              exact absurd hstart (by decide)
        · exact Or.inr (Or.inl rfl)

/-- An iteration on a simple term that goes on: where it goes on, what it
has emitted, and the invariant of the name. -/
theorem iteration_simple_record (E : Env) (tagN : rpmTagVal) (index : Int) (base : Nat)
    (r re : List Char) (st st1 : PState)
    (hne : SKIPWHITE E r ≠ []) (hterm : (SKIPWHITE E r).head? ≠ some '(')
    (hnext : iteration E tagN index base r st = Step.next re st1) :
    re = termNext E (SKIPWHITE E r) ∧
    st1.pkg = st.pkg ++ [termRecord E tagN index base (SKIPWHITE E r)] ∧
    nameInvariant E (tokenAt E (SKIPWHITE E r)) := by
  rw [iteration_simple E tagN index base r st hterm] at hnext
  split at hnext
  · exact Step.noConfusion hnext
  · obtain ⟨hre, hpkg, -, hcd⟩ := simpleTail_next E _ _ _ _ _ _ _ _ _ _ hnext
    exact ⟨hre, hpkg, nameInvariant_tokenAt E r hne (checkDep_ok_start E _ _ _ hcd)⟩

/-- Every loop that ends went through iterations that each emitted one
record. -/
theorem parseLoop_trace (E : Env) (tagN : rpmTagVal) (index : Int) (tagflags : Nat) :
    ∀ (fuel : Nat) (r : List Char) (st : PState) (res : rpmRC × PState),
      parseLoop E (resolveTag E tagN tagflags).1 (resolveTag E tagN tagflags).2 index fuel r st
        = some res →
      ∃ rps r1 st1, Emits E tagN index tagflags r st rps r1 st1 ∧
        st1.pkg = st.pkg ++ rps ∧ res.2.pkg = st1.pkg := by
  intro fuel
  induction fuel with
  | zero =>
    intro r st res h
    rw [parseLoop] at h
    exact Option.noConfusion h
  | succ fuel ih =>
    intro r st res h
    by_cases he : SKIPWHITE E r = []
    · rw [parseLoop_done E _ _ _ fuel r st he] at h
      rw [← Option.some.inj h]
      exact ⟨[], r, st, Emits.done r st, by simp, rfl⟩
    · rw [parseLoop_succ E tagN index tagflags fuel r st he] at h
      cases hit : iteration E tagN index tagflags r st with
      | exit s =>
        rw [hit] at h
        rw [← Option.some.inj h]
        exact ⟨[], r, st, Emits.done r st, by simp,
          iteration_exit_pkg E tagN index tagflags r st s hit⟩
      | next re s =>
        rw [hit] at h
        simp only at h
        obtain ⟨rps, r1, st1, hem, hpkg, hf⟩ := ih re s res h
        obtain ⟨rp, hrp⟩ := iteration_next_emits E tagN index tagflags r re st s hit
        refine ⟨rp :: rps, r1, st1, Emits.step r st re s rp rps r1 st1 he hit hrp hem, ?_, hf⟩
        rw [hpkg, hrp, List.append_assoc]
        rfl

/-- In a text without a token that begins with `(`, every record emitted
has a name that satisfies the invariant. -/
theorem Emits_names (E : Env) (tagN : rpmTagVal) (index : Int) (tagflags : Nat)
    (r : List Char) (st : PState) (rps : List ReqProv) (r2 : List Char) (st2 : PState)
    (h : Emits E tagN index tagflags r st rps r2 st2) :
    richFree E true r = true → ∀ rp ∈ rps, nameInvariant E rp.ds.N := by
  induction h with
  | done r st =>
    intro _ rp hrp
    exact absurd hrp (List.not_mem_nil rp)
  | step r st re st1 rp rps r2 st2 hne hit hrp _ ih =>
    intro hfree x hx
    obtain ⟨hre, hpkg, hinv⟩ := iteration_simple_record E tagN index tagflags r re st st1 hne
      (richFree_head E r hfree) hit
    rcases List.mem_cons.1 hx with h | h
    · have heq : [rp] = [termRecord E tagN index tagflags (SKIPWHITE E r)] :=
        List.append_cancel_left (hrp.symm.trans hpkg)
      rw [h, List.cons.inj heq |>.1]
      exact hinv
    · refine ih ?_ x h
      rw [hre]
      exact richFree_termNext E _ true (richFree_SKIPWHITE E r hfree)

/-- C17. Record-name invariant, for every kind and base flags: every record
that an iteration emits from a simple term is the record of the term, and its
name is non-empty, holds no separator (white space or comma) and begins with
a byte that is non-ASCII, alphanumeric, `_` or `/`; so in every field without
a rich expression, every record that `parseRCPOT` adds to the store has such
a name. -/
theorem record_name_invariant (E : Env) (tagN : rpmTagVal) (index : Int) (base : Nat) :
    (∀ r re st st1, SKIPWHITE E r ≠ [] → (SKIPWHITE E r).head? ≠ some '(' →
      iteration E tagN index base r st = Step.next re st1 →
      st1.pkg = st.pkg ++ [termRecord E tagN index base (SKIPWHITE E r)] ∧
      nameInvariant E (termRecord E tagN index base (SKIPWHITE E r)).ds.N) ∧
    (∀ pkg field out, richFree E true field = true →
      parseRCPOT E pkg field tagN index base = some out →
      ∃ rps, out.pkg = pkg ++ rps ∧ ∀ rp ∈ rps, nameInvariant E rp.ds.N) := by
  constructor
  · intro r re st st1 hne hterm hnext
    obtain ⟨-, hpkg, hinv⟩ := iteration_simple_record E tagN index base r re st st1 hne hterm hnext
    exact ⟨hpkg, hinv⟩
  · intro pkg field out hfree h
    unfold parseRCPOT parseRCPOTFuel at h
    simp only at h
    cases hl : parseLoop E (resolveTag E tagN base).1 (resolveTag E tagN base).2 index
        (field.length + 1) field { pkg := pkg, emsg := none, engineCalls := 0 } with
    | none =>
      rw [hl] at h
      exact Option.noConfusion h
    | some res =>
      rw [hl] at h
      simp only [Option.map_some', Option.some.injEq] at h
      obtain ⟨rps, r1, st1, hem, hpkg, hf⟩ := parseLoop_trace E tagN index base _ _ _ _ hl
      refine ⟨rps, ?_, Emits_names E tagN index base _ _ _ _ _ hem hfree⟩
      rw [← h]
      show res.2.pkg = pkg ++ rps
      rw [hf, hpkg]

/-- Witness of C17: the requires field `_a >= 1, /b`. -/
theorem record_name_invariant_witness :
    ∃ rps, (⟨RPMRC_OK, [⟨⟨RPMTAG_REQUIRENAME, "_a".toList, some ['1'], 12⟩, 0⟩,
        ⟨⟨RPMTAG_REQUIRENAME, "/b".toList, none, 0⟩, 0⟩], none, 0⟩ : Outcome).pkg = [] ++ rps ∧
      ∀ rp ∈ rps, nameInvariant demoEnv rp.ds.N :=
  (record_name_invariant demoEnv RPMTAG_REQUIREFLAGS 0 0).2 [] "_a >= 1, /b".toList
    ⟨RPMRC_OK, [⟨⟨RPMTAG_REQUIRENAME, "_a".toList, some ['1'], 12⟩, 0⟩,
        ⟨⟨RPMTAG_REQUIRENAME, "/b".toList, none, 0⟩, 0⟩], none, 0⟩
    (by decide) (by decide)

theorem loopPasses_succ (E : Env) (tagN : rpmTagVal) (index : Int) (tagflags : Nat)
    (fuel : Nat) (r : List Char) (st : PState) (hne : SKIPWHITE E r ≠ []) :
    loopPasses E (resolveTag E tagN tagflags).1 (resolveTag E tagN tagflags).2 index
        (fuel + 1) r st =
      match iteration E tagN index tagflags r st with
      | Step.exit _ => some 1
      | Step.next re st1 =>
        (loopPasses E (resolveTag E tagN tagflags).1 (resolveTag E tagN tagflags).2 index
          fuel re st1).map (· + 1) := by
  have hr : r ≠ [] := by
    intro h
    rw [h] at hne
    exact hne rfl
  rw [loopPasses]
  simp only [hr, hne, if_false]
  rfl

theorem loopPasses_done (E : Env) (nametag : rpmTagVal) (index : Int) (tagflags : Nat)
    (fuel : Nat) (r : List Char) (st : PState) (he : SKIPWHITE E r = []) :
    ∃ k, loopPasses E nametag tagflags index (fuel + 1) r st = some k ∧ k ≤ r.length := by
  rw [loopPasses]
  by_cases hr : r = []
  · exact ⟨0, by simp [hr], Nat.zero_le _⟩
  · exact ⟨1, by simp [hr, he], List.length_pos.2 hr⟩

/-- In a text without a token that begins with `(`, the loop ends when it
is allowed more iterations than the text has bytes, and it enters its body at
most once per byte. -/
theorem parseLoop_terminates (E : Env) (tagN : rpmTagVal) (index : Int) (tagflags : Nat) :
    ∀ (n : Nat) (r : List Char) (st : PState) (fuel : Nat),
      r.length ≤ n → r.length < fuel → richFree E true r = true →
      (parseLoop E (resolveTag E tagN tagflags).1 (resolveTag E tagN tagflags).2 index
        fuel r st).isSome = true ∧
      ∃ k, loopPasses E (resolveTag E tagN tagflags).1 (resolveTag E tagN tagflags).2 index
        fuel r st = some k ∧ k ≤ r.length := by
  intro n
  induction n with
  | zero =>
    intro r st fuel hn hf _
    have hr : r = [] := List.length_eq_zero.1 (Nat.le_zero.1 hn)
    subst hr
    obtain ⟨g, rfl⟩ : ∃ g, fuel = g + 1 := ⟨fuel - 1, by omega⟩
    rw [parseLoop_done E _ _ _ g [] st rfl]
    exact ⟨rfl, loopPasses_done E _ _ _ g [] st rfl⟩
  | succ n ih =>
    intro r st fuel hn hf hfree
    obtain ⟨g, rfl⟩ : ∃ g, fuel = g + 1 := ⟨fuel - 1, by omega⟩
    by_cases he : SKIPWHITE E r = []
    · rw [parseLoop_done E _ _ _ g r st he]
      exact ⟨rfl, loopPasses_done E _ _ _ g r st he⟩
    · have hle := SKIPWHITE_length_le E r
      have hpos : 0 < (SKIPWHITE E r).length := List.length_pos.2 he
      rw [parseLoop_succ E tagN index tagflags g r st he,
        loopPasses_succ E tagN index tagflags g r st he]
      cases hit : iteration E tagN index tagflags r st with
      | exit s => exact ⟨rfl, 1, rfl, by omega⟩
      | next re s =>
        obtain ⟨hre, -, -⟩ := iteration_simple_record E tagN index tagflags r re st s he
          (richFree_head E r hfree) hit
        have hlt := termNext_length_lt E r he
        rw [← hre] at hlt
        have hfree' : richFree E true re = true := by
          rw [hre]
          exact richFree_termNext E _ true (richFree_SKIPWHITE E r hfree)
        obtain ⟨h1, k, hk, hkle⟩ := ih re s g (by omega) (by omega) hfree'
        simp only
        refine ⟨h1, k + 1, ?_, by omega⟩
        rw [hk]
        rfl

/-- C18. Termination by progress: for every field without a token that
begins with `(`, `parseRCPOT` returns, and its loop enters the body at most
as many times as the field has bytes; the reason is that an iteration on a
simple term that goes on has a non-empty name token and leaves the cursor on
a suffix of the text behind that token, so at least one byte further and
never past the end of the string. -/
theorem termination_by_progress (E : Env) (pkg : Package) (field : List Char)
    (tagN : rpmTagVal) (index : Int) (base : Nat)
    (hfree : richFree E true field = true) :
    (∃ out, parseRCPOT E pkg field tagN index base = some out) ∧
    (∃ k, loopPasses E (resolveTag E tagN base).1 (resolveTag E tagN base).2 index
        (field.length + 1) field { pkg := pkg, emsg := none, engineCalls := 0 } = some k ∧
      k ≤ field.length) ∧
    (∀ r re st st1, SKIPWHITE E r ≠ [] → (SKIPWHITE E r).head? ≠ some '(' →
      iteration E tagN index base r st = Step.next re st1 →
      tokenAt E (SKIPWHITE E r) ≠ [] ∧
      re <:+ SKIPNONWHITE E (SKIPWHITE E r) ∧
      (SKIPWHITE E r).length
        = (tokenAt E (SKIPWHITE E r)).length + (SKIPNONWHITE E (SKIPWHITE E r)).length ∧
      re <:+ r ∧ re.length < r.length) := by
  obtain ⟨h1, h2⟩ := parseLoop_terminates E tagN index base field.length field
    { pkg := pkg, emsg := none, engineCalls := 0 } (field.length + 1) (Nat.le_refl _)
    (Nat.lt_succ_self _) hfree
  refine ⟨?_, h2, ?_⟩
  · obtain ⟨x, hx⟩ := Option.isSome_iff_exists.1 h1
    refine ⟨atExit x, ?_⟩
    unfold parseRCPOT parseRCPOTFuel
    simp only
    rw [hx]
    rfl
  · intro r re st st1 hne hterm hnext
    obtain ⟨hre, -, hinv⟩ := iteration_simple_record E tagN index base r re st st1 hne hterm hnext
    have hsuf1 : afterToken E (SKIPWHITE E r) <:+ SKIPNONWHITE E (SKIPWHITE E r) :=
      List.dropWhile_suffix _
    have hsuf2 : SKIPNONWHITE E (afterToken E (afterToken E (SKIPWHITE E r)))
        <:+ SKIPNONWHITE E (SKIPWHITE E r) :=
      (List.dropWhile_suffix _).trans ((List.dropWhile_suffix _).trans
        ((List.dropWhile_suffix _).trans hsuf1))
    have hsuf : re <:+ SKIPNONWHITE E (SKIPWHITE E r) := by
      rw [hre]
      unfold termNext
      split
      · exact hsuf2
      · exact hsuf1
    have hlen : (SKIPWHITE E r).length
        = (tokenAt E (SKIPWHITE E r)).length + (SKIPNONWHITE E (SKIPWHITE E r)).length := by
      unfold tokenAt SKIPNONWHITE
      rw [← List.length_append, List.takeWhile_append_dropWhile]
    have hr1 : SKIPNONWHITE E (SKIPWHITE E r) <:+ SKIPWHITE E r := List.dropWhile_suffix _
    have hr2 : SKIPWHITE E r <:+ r := List.dropWhile_suffix _
    have hlt := termNext_length_lt E r hne
    rw [← hre] at hlt
    have := SKIPWHITE_length_le E r
    exact ⟨hinv.1, hsuf, hlen, hsuf.trans (hr1.trans hr2), by omega⟩

/-- Witness of C18: the requires field `a >= 1, b` of nine bytes ends after
two passes through the loop body. -/
theorem termination_by_progress_witness :
    (∃ out, parseRCPOT demoEnv [] "a >= 1, b".toList RPMTAG_REQUIREFLAGS 0 0 = some out) ∧
    loopPasses demoEnv RPMTAG_REQUIRENAME 0 0 10 "a >= 1, b".toList
      { pkg := [], emsg := none, engineCalls := 0 } = some 2 :=
  ⟨(termination_by_progress demoEnv [] "a >= 1, b".toList RPMTAG_REQUIREFLAGS 0 0
      (by decide)).1, by decide⟩

end ParseReqs
